import Mathlib

/-!
# Shot: the party page (`PartyPage.jsx`) and its API client (`api.js`)

A shallow embedding of the React component `PartyPage` and of the request
functions of `services/api.js`.

* The component state is the record `State`, one field per `useState` cell.
* A handler is a function from the state captured by the render in which the
  handler was created (its closure) and the replies of the backend to the list
  of `Action`s it performs, in program order: state setter calls, API requests,
  `alert` and the reset of the file input.  `runActions` applies the setter
  calls to a state.
* The backend is not part of the embedding: the reply to every request is a
  universally quantified input (`Replies`).
* An `Event` is a user interaction offered by the rendered screen or a run of
  the polling effect.
* Setter calls made between two awaits are applied together; the states the
  page renders while a handler runs are the states at its requests
  (`requestsAt`) and the state after its last action.
* Two notions of execution are given.  In a `Page` a handler is suspended at
  each request it awaits, and a `Move` is an event or the arrival of the reply
  to any suspended handler: events and replies interleave freely
  (`pageMove`, `PageReachable`).  `step` and `Reachable` describe the runs in
  which every reply arrives before the next event; they are the runs of
  `pageMove` in which each request is answered at once.
-/

namespace Shot

/-! ## ECMAScript string builtins used by the page -/

/-- Code points removed by `String.prototype.trim`: the ECMAScript `WhiteSpace`
and `LineTerminator` productions. -/
def isJsWhiteSpace (c : Char) : Bool :=
  c.toNat == 0x09 || c.toNat == 0x0A || c.toNat == 0x0B || c.toNat == 0x0C ||
  c.toNat == 0x0D || c.toNat == 0x20 || c.toNat == 0xA0 || c.toNat == 0x1680 ||
  (0x2000 ≤ c.toNat && c.toNat ≤ 0x200A) || c.toNat == 0x2028 || c.toNat == 0x2029 ||
  c.toNat == 0x202F || c.toNat == 0x205F || c.toNat == 0x3000 || c.toNat == 0xFEFF

/-- Strip leading and trailing white space from a list of code points. -/
def jsTrimList (l : List Char) : List Char :=
  ((l.dropWhile isJsWhiteSpace).reverse.dropWhile isJsWhiteSpace).reverse

/-- `String.prototype.trim`. -/
def jsTrim (s : String) : String := ⟨jsTrimList s.data⟩

/-- JavaScript truthiness of a string: every string but the empty one. -/
def truthy (s : String) : Bool := s != ""

/-- A string is blank when all its code points are white space (the empty
string included). -/
def isBlank (s : String) : Prop := ∀ c ∈ s.data, isJsWhiteSpace c = true

/-- Uppercase mapping of one code point.  On ASCII it is the map of `a`..`z`
to `A`..`Z`; the Unicode mapping of the other code points (which may yield
several code points) is the parameter `u`. -/
def upperCodePoint (u : Char → List Char) (c : Char) : List Char :=
  if c.toNat < 128 then [c.toUpper] else u c

/-- `String.prototype.toUpperCase`: the code points of the string are mapped
one by one (the uppercase mapping has no context-sensitive rule). -/
def toUpperCase (u : Char → List Char) (s : String) : String :=
  ⟨s.data.flatMap (upperCodePoint u)⟩

/-- The Unicode table `u` maps every code point to code points that it leaves
alone: uppercasing an uppercased code point changes nothing. -/
def UpperStable (u : Char → List Char) : Prop :=
  ∀ c : Char, 128 ≤ c.toNat → (u c).flatMap (upperCodePoint u) = u c

/-- A character of a party code: `A`..`Z` or `0`..`9`. -/
def isCodeChar (c : Char) : Bool :=
  (65 ≤ c.toNat && c.toNat ≤ 90) || (48 ≤ c.toNat && c.toNat ≤ 57)

/-- Modelled from the spec: the backend that generates party codes is not part
of the sources; a code it returns is a "6-character uppercase alphanumeric
identifier", that is, it matches `[A-Z0-9]{6}`. -/
def isCanonicalCode (s : String) : Prop :=
  s.data.length = 6 ∧ ∀ c ∈ s.data, isCodeChar c = true

/-! ## Data exchanged with the backend -/

/-- The party snapshot of a status response (the fields the page reads). -/
structure PartyData where
  host : String
  members : List String
  photo_count : Nat
  duration_hours : Nat
  deriving DecidableEq, Repr

/-- One record of the photo listing. -/
structure Photo where
  uploaded_by : String
  uploaded_at : String
  deriving DecidableEq, Repr

/-- The browser `File` object picked in the file input. -/
structure File where
  name : String
  size : Nat
  deriving DecidableEq, Repr

/-- A rejected request; `detail` is `err.response?.data?.detail`. -/
structure ApiError where
  detail : Option String
  deriving DecidableEq, Repr

/-- Body of a successful `createParty` response. -/
structure CreateResult where
  party_code : String
  deriving DecidableEq, Repr

/-- Body of a successful `getPartyStatus` response. -/
structure StatusResult where
  party : PartyData
  time_remaining : String
  has_ended : Bool
  deriving DecidableEq, Repr

/-- Body of a successful `uploadPhoto` response. -/
structure UploadResult where
  message : String
  total_photos : Nat
  deriving DecidableEq, Repr

/-- Body of a successful `getPartyPhotos` response. -/
structure PhotosResult where
  photos : List Photo
  deriving DecidableEq, Repr

/-- The calls of `services/api.js` made by the party page, with their
arguments. -/
inductive Request where
  | createParty (hostName : String) (durationHours : Int)
  | joinParty (partyCode : String) (userName : String)
  | getPartyStatus (partyCode : String)
  | uploadPhoto (partyCode : String) (file : File) (userName : String)
  | getPartyPhotos (partyCode : String)
  deriving DecidableEq, Repr

/-- What the backend answers to the requests of one handler run.  A handler
issues each kind of request at most once, so one reply per kind suffices. -/
structure Replies where
  create : Except ApiError CreateResult
  join : Except ApiError Unit
  status : Except ApiError StatusResult
  upload : Except ApiError UploadResult
  photos : Except ApiError PhotosResult

/-! ## Component state -/

/-- The `useState` cells of `PartyPage`. -/
structure State where
  mode : String
  partyCode : String
  userName : String
  partyData : Option PartyData
  timeRemaining : String
  photos : List Photo
  loading : Bool
  error : String
  hostName : String
  duration : Int
  deriving DecidableEq, Repr

/-- The initial values passed to `useState`. -/
def State.init : State where
  mode := "select"
  partyCode := ""
  userName := ""
  partyData := none
  timeRemaining := ""
  photos := []
  loading := false
  error := ""
  hostName := ""
  duration := 4

/-- What a handler does, step by step. -/
inductive Action where
  | setMode (v : String)
  | setPartyCode (v : String)
  | setUserName (v : String)
  | setPartyData (v : Option PartyData)
  | setTimeRemaining (v : String)
  | setPhotos (v : List Photo)
  | setLoading (v : Bool)
  | setError (v : String)
  | setHostName (v : String)
  | setDuration (v : Int)
  | request (q : Request)
  | alert (msg : String)
  | resetFileInput
  deriving DecidableEq, Repr

/-- Effect of one action on the component state. -/
def Action.apply (s : State) : Action → State
  | .setMode v => { s with mode := v }
  | .setPartyCode v => { s with partyCode := v }
  | .setUserName v => { s with userName := v }
  | .setPartyData v => { s with partyData := v }
  | .setTimeRemaining v => { s with timeRemaining := v }
  | .setPhotos v => { s with photos := v }
  | .setLoading v => { s with loading := v }
  | .setError v => { s with error := v }
  | .setHostName v => { s with hostName := v }
  | .setDuration v => { s with duration := v }
  | .request _ => s
  | .alert _ => s
  | .resetFileInput => s

/-- The state after a list of actions. -/
def runActions (s : State) (as : List Action) : State := as.foldl Action.apply s

/-- The requests among a list of actions, in the order they are issued. -/
def requests : List Action → List Request
  | [] => []
  | .request q :: as => q :: requests as
  | _ :: as => requests as

/-- The requests among a list of actions run from state `s`, each paired with
the component state at the time the request is issued: the state the page
renders while the handler awaits the reply. -/
def requestsAt : State → List Action → List (State × Request)
  | _, [] => []
  | s, .request q :: as => (s, q) :: requestsAt s as
  | s, a :: as => requestsAt (a.apply s) as

/-! ## Handlers of `PartyPage` -/

/-- The callback `loadPhotos`; `partyCode` is the value captured by the
callback. -/
def loadPhotos (partyCode : String) (r : Replies) : List Action :=
  .request (.getPartyPhotos partyCode) ::
    match r.photos with
    | .ok data => [.setPhotos data.photos]
    | .error _ => []

/-- The callback `checkPartyStatus`; `partyCode` is the value captured by the
callback. -/
def checkPartyStatus (partyCode : String) (r : Replies) : List Action :=
  .request (.getPartyStatus partyCode) ::
    match r.status with
    | .ok status =>
      [.setPartyData (some status.party), .setTimeRemaining status.time_remaining] ++
        (if status.has_ended then .setMode "ended" :: loadPhotos partyCode r else [])
    | .error _ => []

/-- The handler `handleCreateParty`, run with the closure state `s`. -/
def handleCreateParty (s : State) (r : Replies) : List Action :=
  if !(truthy (jsTrim s.hostName)) then
    [.setError "Please enter your name"]
  else
    [.setLoading true, .setError "", .request (.createParty s.hostName s.duration)] ++
      (match r.create with
       | .ok result =>
         [.setPartyCode result.party_code, .setUserName s.hostName, .setMode "active"] ++
           checkPartyStatus s.partyCode r
       | .error _ => [.setError "Failed to create party"]) ++
      [.setLoading false]

/-- The handler `handleJoinParty`, run with the closure state `s`. -/
def handleJoinParty (u : Char → List Char) (s : State) (r : Replies) : List Action :=
  if !(truthy (jsTrim s.partyCode)) || !(truthy (jsTrim s.userName)) then
    [.setError "Please fill in all fields"]
  else
    [.setLoading true, .setError "",
      .request (.joinParty (toUpperCase u s.partyCode) s.userName)] ++
      (match r.join with
       | .ok _ => .setMode "active" :: checkPartyStatus s.partyCode r
       | .error _ => [.setError "Failed to join party. Check the party code!"]) ++
      [.setLoading false]

/-- The message shown when an upload fails:
`err.response?.data?.detail || 'Failed to upload photo'`. -/
def uploadErrorMessage (err : ApiError) : String :=
  match err.detail with
  | some d => if truthy d then d else "Failed to upload photo"
  | none => "Failed to upload photo"

/-- The size ceiling of the client-side check, `5 * 1024 * 1024` bytes. -/
def maxPhotoBytes : Nat := 5 * 1024 * 1024

/-- The handler `handlePhotoUpload`; `file` is `event.target.files[0]`. -/
def handlePhotoUpload (s : State) (file : Option File) (r : Replies) : List Action :=
  match file with
  | none => []
  | some file =>
    if file.size > maxPhotoBytes then
      [.setError "Photo must be under 5MB"]
    else
      [.setLoading true, .setError "",
        .request (.uploadPhoto s.partyCode file s.userName)] ++
        (match r.upload with
         | .ok result =>
           .alert ("📸 " ++ result.message ++ " Total: " ++ toString result.total_photos) ::
             checkPartyStatus s.partyCode r
         | .error err => [.setError (uploadErrorMessage err)]) ++
        [.setLoading false, .resetFileInput]

/-- The handler `handleEndParty`, run with the closure state `s`. -/
def handleEndParty (s : State) (r : Replies) : List Action :=
  .setMode "ended" :: loadPhotos s.partyCode r

/-- The click handler of the button "Create New Party" of the ended screen. -/
def handleReset : List Action :=
  [.setMode "select", .setPartyCode "", .setUserName "", .setPartyData none, .setPhotos []]

/-! ## Rendering and events -/

/-- The screens of the component; `blank` is `return null`. -/
inductive View where
  | select | create | join | active | ended | blank
  deriving DecidableEq, Repr

/-- The chain of `if (mode === ...) return ...` of the component body. -/
def render (s : State) : View :=
  if s.mode = "select" then .select
  else if s.mode = "create" then .create
  else if s.mode = "join" then .join
  else if s.mode = "active" ∧ s.partyData.isSome then .active
  else if s.mode = "ended" then .ended
  else .blank

/-- The admin control of the active screen: the button bound to
`handleEndParty` is rendered when `userName === partyData.host`. -/
def endPartyAvailable (s : State) : Bool :=
  render s == .active &&
    match s.partyData with
    | some p => s.userName == p.host
    | none => false

/-- The condition of the polling effect: `mode === 'active' && partyCode`. -/
def pollActive (s : State) : Bool := s.mode == "active" && truthy s.partyCode

/-- User interactions and effect runs. -/
inductive Event where
  | chooseCreate
  | chooseJoin
  | back
  | typeHostName (v : String)
  | slideDuration (n : Int)
  | typePartyCode (v : String)
  | typeUserName (v : String)
  | clickCreate (r : Replies)
  | clickJoin (r : Replies)
  | poll (r : Replies)
  | selectPhoto (file : Option File) (r : Replies)
  | clickEnd (r : Replies)
  | clickReset

/-- Whether the rendered screen offers the event.  Buttons and the file input
are disabled while `loading`; the range input (`min="1" max="12"`, default
step) only reports the decimal form of an integer from 1 to 12, which
`parseInt` reads back.  The length limit of the code input (`maxLength`) is
not imposed: every typed string is admitted. -/
def Event.enabled (s : State) : Event → Bool
  | .chooseCreate => render s == .select
  | .chooseJoin => render s == .select
  | .back => render s == .create || render s == .join
  | .typeHostName _ => render s == .create
  | .slideDuration n => render s == .create && decide (1 ≤ n) && decide (n ≤ 12)
  | .typePartyCode _ => render s == .join
  | .typeUserName _ => render s == .join
  | .clickCreate _ => render s == .create && !s.loading
  | .clickJoin _ => render s == .join && !s.loading
  | .poll _ => pollActive s
  | .selectPhoto _ _ => render s == .active && !s.loading
  | .clickEnd _ => endPartyAvailable s
  | .clickReset => render s == .ended

/-- The actions performed for an event in state `s`. -/
def Event.actions (u : Char → List Char) (s : State) : Event → List Action
  | .chooseCreate => [.setMode "create"]
  | .chooseJoin => [.setMode "join"]
  | .back => [.setMode "select"]
  | .typeHostName v => [.setHostName v]
  | .slideDuration n => [.setDuration n]
  | .typePartyCode v => [.setPartyCode (toUpperCase u v)]
  | .typeUserName v => [.setUserName v]
  | .clickCreate r => handleCreateParty s r
  | .clickJoin r => handleJoinParty u s r
  | .poll r => checkPartyStatus s.partyCode r
  | .selectPhoto file r => handlePhotoUpload s file r
  | .clickEnd r => handleEndParty s r
  | .clickReset => handleReset

/-- One step of the page when replies are prompt: an enabled event is handled
to completion, every reply its handler awaits arriving before anything else
happens.  The general case, in which other events and replies come in between,
is `pageMove`. -/
def step (u : Char → List Char) (s : State) (e : Event) : Option State :=
  if e.enabled s then some (runActions s (e.actions u s)) else none

/-- Run a list of events from a state; `none` when one of them is not
offered. -/
def runEvents (u : Char → List Char) : State → List Event → Option State
  | s, [] => some s
  | s, e :: es => (step u s e).bind fun t => runEvents u t es

/-- The states the page can be in between two events when replies are
prompt. -/
inductive Reachable (u : Char → List Char) : State → Prop where
  | init : Reachable u State.init
  | step {s t : State} (e : Event) : Reachable u s → step u s e = some t → Reachable u t

/-! ## Predicates used in the statements -/

/-- The request is a call of `uploadPhoto`. -/
def Request.isUploadPhoto : Request → Bool
  | .uploadPhoto _ _ _ => true
  | _ => false

/-- The request is a call of `getPartyPhotos`. -/
def Request.isGetPartyPhotos : Request → Bool
  | .getPartyPhotos _ => true
  | _ => false

/-- The request is a call of `joinParty`. -/
def Request.isJoinParty : Request → Bool
  | .joinParty _ _ => true
  | _ => false

/-- The request is a call of `createParty`. -/
def Request.isCreateParty : Request → Bool
  | .createParty _ _ => true
  | _ => false

/-- The party code a request is made for, when it has one. -/
def Request.code? : Request → Option String
  | .createParty _ _ => none
  | .joinParty c _ => some c
  | .getPartyStatus c => some c
  | .uploadPhoto c _ _ => some c
  | .getPartyPhotos c => some c

/-- A selected file is rejected by the size check: the size message is the
error shown, no `uploadPhoto` request is among the actions, and `loading` is
false afterwards. -/
def uploadRejected (s : State) (as : List Action) : Prop :=
  (runActions s as).error = "Photo must be under 5MB" ∧
    (∀ q ∈ requests as, q.isUploadPhoto = false) ∧
    (runActions s as).loading = false

/-- A state of the active screen with a 6 MiB and a 4 MiB file at hand. -/
def exampleActive : State where
  mode := "active"
  partyCode := "ABC123"
  userName := "Bo"
  partyData := some { host := "Amy", members := ["Amy", "Bo"], photo_count := 0,
                      duration_hours := 1 }
  timeRemaining := "0:59:00"
  photos := []
  loading := false
  error := ""
  hostName := ""
  duration := 4

/-- A backend that refuses every request. -/
def refuseAll : Replies where
  create := .error { detail := none }
  join := .error { detail := none }
  status := .error { detail := none }
  upload := .error { detail := none }
  photos := .error { detail := none }

/-- Modelled from the spec: the backend that answers `createParty` is not part
of the sources; the code of a party it creates is a canonical code. -/
def Event.canonicalReplies : Event → Prop
  | .clickCreate r => ∀ res, r.create = .ok res → isCanonicalCode res.party_code
  | _ => True

/-- The uppercase table that leaves every code point beyond ASCII alone. -/
def upperAsciiOnly : Char → List Char := fun c => [c]

/-- The events that lead from the initial screen to the create form with the
slider moved to 7 hours. -/
def eventsSlide : List Event := [.chooseCreate, .slideDuration 7]

/-- The state after `eventsSlide`. -/
def exampleSlid : State := { State.init with mode := "create", duration := 7 }

/-- A backend on which party `ABC123`, hosted by Amy, has ended with one photo
uploaded by Bo. -/
def repliesEnded : Replies where
  create := .error { detail := none }
  join := .ok ()
  status := .ok { party := { host := "Amy", members := ["Amy", "Bo"], photo_count := 1,
                             duration_hours := 1 },
                  time_remaining := "0:00:00", has_ended := true }
  upload := .error { detail := some "Party has ended" }
  photos := .ok { photos := [{ uploaded_by := "Bo", uploaded_at := "2024-01-01T22:00:00" }] }

/-- The state of the ended screen of party `ABC123` as seen by Bo. -/
def exampleEnded : State where
  mode := "ended"
  partyCode := "ABC123"
  userName := "Bo"
  partyData := some { host := "Amy", members := ["Amy", "Bo"], photo_count := 1,
                      duration_hours := 1 }
  timeRemaining := "0:00:00"
  photos := [{ uploaded_by := "Bo", uploaded_at := "2024-01-01T22:00:00" }]
  loading := false
  error := ""
  hostName := ""
  duration := 4

/-- The events by which Bo reaches `exampleEnded`: the join is answered while
the party is still running, a later poll reports it ended. -/
def eventsToEnded : List Event :=
  [.chooseJoin, .typePartyCode "abc123", .typeUserName "Bo",
   .clickJoin { repliesEnded with status := .error { detail := none } },
   .poll repliesEnded]

/-- Two typed codes differ only in letter case: they have the same length and
at every position the two code points have the same uppercase form. -/
def sameUpToCase (u : Char → List Char) (a b : String) : Prop :=
  List.Forall₂ (fun x y => upperCodePoint u x = upperCodePoint u y) a.data b.data

/-- The join form with the name Bo filled in and no code typed yet. -/
def exampleJoinForm : State := { State.init with mode := "join", userName := "Bo" }

/-- The state after the end action has been invoked in state `s`. -/
def endOnce (s : State) (r : Replies) : State := runActions s (handleEndParty s r)

/-- The state after the end action has been invoked twice in sequence, the
second time with the handler of the re-rendered page. -/
def endTwice (s : State) (r1 r2 : Replies) : State := endOnce (endOnce s r1) r2

/-- The event is a click on "Create Party". -/
def Event.isClickCreate : Event → Bool
  | .clickCreate _ => true
  | _ => false

/-- A backend on which party `ABC123`, hosted by Amy, is running and holds one
photo: the photo listing is refused because the party has not ended. -/
def repliesRunning : Replies where
  create := .ok { party_code := "ABC123" }
  join := .ok ()
  status := .ok { party := { host := "Amy", members := ["Amy", "Bo"], photo_count := 1,
                             duration_hours := 1 },
                  time_remaining := "0:30:00", has_ended := false }
  upload := .ok { message := "Photo uploaded!", total_photos := 2 }
  photos := .error { detail := some "Party hasn't ended yet!" }

/-- The active screen of party `ABC123` as seen by its host Amy, one photo
uploaded. -/
def exampleHost : State where
  mode := "active"
  partyCode := "ABC123"
  userName := "Amy"
  partyData := some { host := "Amy", members := ["Amy", "Bo"], photo_count := 1,
                      duration_hours := 1 }
  timeRemaining := "0:30:00"
  photos := []
  loading := false
  error := ""
  hostName := "Amy"
  duration := 1

/-- A visitor who never creates a party joins party `ABC123` under the display
name of its host. -/
def eventsNamesake : List Event :=
  [.chooseJoin, .typePartyCode "ABC123", .typeUserName "Amy", .clickJoin repliesRunning]

/-- The state after `eventsNamesake`. -/
def exampleNamesake : State where
  mode := "active"
  partyCode := "ABC123"
  userName := "Amy"
  partyData := some { host := "Amy", members := ["Amy", "Bo"], photo_count := 1,
                      duration_hours := 1 }
  timeRemaining := "0:30:00"
  photos := []
  loading := false
  error := ""
  hostName := ""
  duration := 4

/-- The second half of the claim on who can end a party: a page on which no
party was created never offers the end-party action. -/
def OnlyCreatorCanEnd (u : Char → List Char) : Prop :=
  ∀ (es : List Event) (s : State), (∀ e ∈ es, e.isClickCreate = false) →
    runEvents u State.init es = some s → endPartyAvailable s = false

/-- The join form filled in with a code no party has and the name Bo. -/
def exampleJoinReady : State :=
  { State.init with mode := "join", partyCode := "ZZZ999", userName := "Bo" }

/-- The reset of the ended screen applied to a state. -/
def afterReset (s : State) : State :=
  { s with mode := "select", partyCode := "", userName := "", partyData := none, photos := [] }

/-- The five values the comment on the `mode` cell lists. -/
def modes : List String := ["select", "create", "join", "active", "ended"]

/-- Amy creates a one-hour party and the backend answers with the code
`ABC123`; the status request the handler makes right away is not answered with
a party. -/
def eventsJustCreated : List Event :=
  [.chooseCreate, .typeHostName "Amy", .slideDuration 1,
   .clickCreate { repliesRunning with status := .error { detail := some "Party not found" } }]

/-- The state after `eventsJustCreated`. -/
def exampleJustCreated : State where
  mode := "active"
  partyCode := "ABC123"
  userName := "Amy"
  partyData := none
  timeRemaining := ""
  photos := []
  loading := false
  error := ""
  hostName := "Amy"
  duration := 1

/-- A photo of exactly `5 * 1024 * 1024` bytes. -/
def fileAtLimit : File := { name := "limit.jpg", size := 5 * 1024 * 1024 }

/-- A photo of 3 MiB. -/
def fileSmall : File := { name := "small.jpg", size := 3 * 1024 * 1024 }

/-- A photo of 6 MiB. -/
def fileLarge : File := { name := "large.jpg", size := 6 * 1024 * 1024 }

/-! ## The mood quiz page (`MoodPage.jsx`)

The same embedding as for the party page: handlers yield the actions they
perform, events are handled one at a time.  A functional update
`setCurrentSlide((prev) => ...)` reads the latest state, which is the state the
event is handled in. -/

/-- One question of the quiz as the backend lists it. -/
structure Question where
  question : String
  options : List String
  deriving DecidableEq, Repr

/-- One suggested drink (the fields every card shows). -/
structure Drink where
  name : String
  description : String
  rarity : String
  deriving DecidableEq, Repr

/-- Body of a successful `getSuggestions` response. -/
structure SuggestResult where
  mood_summary : String
  suggestions : List Drink
  deriving DecidableEq, Repr

/-- Body of a successful `getMoodQuestions` response. -/
structure QuestionsResult where
  questions : List Question
  deriving DecidableEq, Repr

/-- The calls of `services/api.js` made by the mood page. -/
inductive MoodRequest where
  | getMoodQuestions
  | getSuggestions (answers : List Nat) (preference : String)
  deriving DecidableEq, Repr

/-- What the backend answers to the requests of the mood page. -/
structure MoodReplies where
  questions : Except ApiError QuestionsResult
  suggest : Except ApiError SuggestResult

/-- The `useState` cells of `MoodPage`. -/
structure MoodState where
  questions : List Question
  currentQuestion : Nat
  answers : List Nat
  suggestions : Option SuggestResult
  loading : Bool
  error : Option String
  selectedCard : Option Nat
  currentSlide : Int
  deriving DecidableEq, Repr

/-- The initial values passed to `useState` in `MoodPage`. -/
def MoodState.init : MoodState where
  questions := []
  currentQuestion := 0
  answers := []
  suggestions := none
  loading := true
  error := none
  selectedCard := none
  currentSlide := 0

/-- What a handler of the mood page does, step by step. -/
inductive MoodAction where
  | setQuestions (v : List Question)
  | setCurrentQuestion (v : Nat)
  | setAnswers (v : List Nat)
  | setSuggestions (v : Option SuggestResult)
  | setLoading (v : Bool)
  | setError (v : Option String)
  | setSelectedCard (v : Option Nat)
  | setCurrentSlide (v : Int)
  | request (q : MoodRequest)
  deriving DecidableEq, Repr

/-- Effect of one action on the state of the mood page. -/
def MoodAction.apply (s : MoodState) : MoodAction → MoodState
  | .setQuestions v => { s with questions := v }
  | .setCurrentQuestion v => { s with currentQuestion := v }
  | .setAnswers v => { s with answers := v }
  | .setSuggestions v => { s with suggestions := v }
  | .setLoading v => { s with loading := v }
  | .setError v => { s with error := v }
  | .setSelectedCard v => { s with selectedCard := v }
  | .setCurrentSlide v => { s with currentSlide := v }
  | .request _ => s

/-- The state of the mood page after a list of actions. -/
def runMoodActions (s : MoodState) (as : List MoodAction) : MoodState :=
  as.foldl MoodAction.apply s

/-- The requests among a list of actions of the mood page, in order. -/
def moodRequests : List MoodAction → List MoodRequest
  | [] => []
  | .request q :: as => q :: moodRequests as
  | _ :: as => moodRequests as

/-- The function `loadQuestions` of the mount effect. -/
def loadQuestions (r : MoodReplies) : List MoodAction :=
  .request .getMoodQuestions ::
    match r.questions with
    | .ok data => [.setQuestions data.questions, .setLoading false]
    | .error _ =>
      [.setError (some "Failed to load questions. Is the backend running?"),
       .setLoading false]

/-- The handler `handleAnswer`, run with the closure state `s`; the test is
`currentQuestion < questions.length - 1` on numbers. -/
def handleAnswer (s : MoodState) (answerIndex : Nat) : List MoodAction :=
  .setAnswers (s.answers ++ [answerIndex]) ::
    (if (s.currentQuestion : Int) < (s.questions.length : Int) - 1 then
      [.setCurrentQuestion (s.currentQuestion + 1)]
    else
      [.setCurrentQuestion s.questions.length])

/-- The handler `handlePreference`, run with the closure state `s`. -/
def handlePreference (s : MoodState) (pref : String) (r : MoodReplies) : List MoodAction :=
  .setLoading true :: .request (.getSuggestions s.answers pref) ::
    match r.suggest with
    | .ok data => [.setSuggestions (some data), .setLoading false]
    | .error _ => [.setError (some "Failed to get suggestions"), .setLoading false]

/-- The handler `resetQuiz`. -/
def resetQuiz : List MoodAction :=
  [.setCurrentQuestion 0, .setAnswers [], .setSuggestions none]

/-- The number `suggestions.suggestions.length` read by the slide handlers;
they only exist on the results screen, where `suggestions` is not null. -/
def slideCount (s : MoodState) : Nat :=
  match s.suggestions with
  | some data => data.suggestions.length
  | none => 0

/-- The handler `nextSlide`: `(prev + 1) % length`, with the remainder of
JavaScript (the sign of the dividend). -/
def nextSlide (s : MoodState) : List MoodAction :=
  [.setCurrentSlide (Int.tmod (s.currentSlide + 1) (slideCount s))]

/-- The handler `prevSlide`: `(prev - 1 + length) % length`. -/
def prevSlide (s : MoodState) : List MoodAction :=
  [.setCurrentSlide (Int.tmod (s.currentSlide - 1 + slideCount s) (slideCount s))]

/-- The values of the three preference buttons, in the order of the array
literal the preference screen maps over. -/
def preferences : List String := ["cocktails", "hard", "soft"]

/-- The screens of the mood page. -/
inductive MoodView where
  | loading | error | results | preference | question
  deriving DecidableEq, Repr

/-- The chain of `if (...) return ...` of the body of `MoodPage`. -/
def moodRender (s : MoodState) : MoodView :=
  if s.loading then .loading
  else if (match s.error with
           | some e => truthy e
           | none => false) then .error
  else if s.suggestions.isSome then .results
  else if s.currentQuestion = s.questions.length then .preference
  else .question

/-- User interactions with the mood page, and the run of its mount effect. -/
inductive MoodEvent where
  | questionsLoaded (r : MoodReplies)
  | clickOption (index : Nat)
  | clickPreference (pref : String) (r : MoodReplies)
  | clickNext
  | clickPrev
  | clickDot (index : Nat)
  | clickCard (index : Nat)
  | closeCard
  | clickRetake

/-- Whether the rendered screen offers the event.  The option buttons are the
options of `questions[currentQuestion]`, the preference buttons the three of
the array literal, the arrows appear with more than one suggestion, and dots
and cards are the indices of the suggestion list. -/
def MoodEvent.enabled (s : MoodState) : MoodEvent → Bool
  | .questionsLoaded _ => moodRender s == .loading
  | .clickOption index =>
    moodRender s == .question &&
      match s.questions[s.currentQuestion]? with
      | some q => decide (index < q.options.length)
      | none => false
  | .clickPreference pref _ => moodRender s == .preference && decide (pref ∈ preferences)
  | .clickNext => moodRender s == .results && decide (1 < slideCount s)
  | .clickPrev => moodRender s == .results && decide (1 < slideCount s)
  | .clickDot index => moodRender s == .results && decide (index < slideCount s)
  | .clickCard index =>
    moodRender s == .results && decide (index < slideCount s) &&
      decide (s.selectedCard ≠ some index)
  | .closeCard =>
    moodRender s == .results &&
      match s.selectedCard with
      | some index => decide (index < slideCount s)
      | none => false
  | .clickRetake => moodRender s == .results

/-- The actions performed for an event of the mood page in state `s`. -/
def MoodEvent.actions (s : MoodState) : MoodEvent → List MoodAction
  | .questionsLoaded r => loadQuestions r
  | .clickOption index => handleAnswer s index
  | .clickPreference pref r => handlePreference s pref r
  | .clickNext => nextSlide s
  | .clickPrev => prevSlide s
  | .clickDot index => [.setCurrentSlide index]
  | .clickCard index => [.setSelectedCard (some index)]
  | .closeCard => [.setSelectedCard none]
  | .clickRetake => resetQuiz

/-- One step of the mood page: an enabled event is handled to completion. -/
def moodStep (s : MoodState) (e : MoodEvent) : Option MoodState :=
  if e.enabled s then some (runMoodActions s (e.actions s)) else none

/-- Run a list of events of the mood page; `none` when one is not offered. -/
def runMoodEvents : MoodState → List MoodEvent → Option MoodState
  | s, [] => some s
  | s, e :: es => (moodStep s e).bind fun t => runMoodEvents t es

/-- The states the mood page can be in between two events. -/
inductive MoodReachable : MoodState → Prop where
  | init : MoodReachable MoodState.init
  | step {s t : MoodState} (e : MoodEvent) : MoodReachable s → moodStep s e = some t →
      MoodReachable t

/-- A quiz is under way: the questions are loaded, the question, preference or
results of an earlier round are not in the way, and `k` questions have been
answered in order. -/
def QuizAt (s : MoodState) (k : Nat) : Prop :=
  s.loading = false ∧ s.error = none ∧ s.suggestions = none ∧
    s.currentQuestion = k ∧ s.answers.length = k ∧ k ≤ s.questions.length

/-- A quiz of two questions with three and two options. -/
def exampleQuiz : MoodState :=
  { MoodState.init with
    questions := [{ question := "How was your day?", options := ["Great", "Fine", "Rough"] },
                  { question := "Who is around?", options := ["Friends", "Nobody"] }]
    loading := false }

/-! ## The party session service

The backend that answers the requests of `api.js` is not part of the sources.
The definitions of this section follow the specification of the party session
service.  Time is counted in seconds; the random source of the code generator
is an input. -/

/-- Modelled from the spec: the error taxonomy of the party session service
(section 7); the backend is missing from the sources. -/
inductive ServiceError where
  | InvalidArgument | NotFound | PartyEnded | PartyNotEnded | Forbidden | PayloadTooLarge
  deriving DecidableEq, Repr

/-- Modelled from the spec: the Photo record of the data model (section 3),
missing from the sources. -/
structure PhotoRecord where
  uploadedBy : String
  uploadedAt : Nat
  assetRef : Nat
  deriving DecidableEq, Repr

/-- Modelled from the spec: the Party record of the data model (section 3),
missing from the sources. -/
structure Party where
  code : String
  host : String
  members : List String
  createdAt : Nat
  durationHours : Nat
  endedAt : Option Nat
  photos : List PhotoRecord
  deriving DecidableEq, Repr

/-- Modelled from the spec: the registry, the collection of the parties tracked
by the process (section 4.1), missing from the sources. -/
abbrev Registry := List Party

/-- Modelled from the spec: the alphabet `[A-Z0-9]` of the code generator
(section 4.4), missing from the sources. -/
def codeAlphabet : List Char := "ABCDEFGHIJKLMNOPQRSTUVWXYZ0123456789".data

/-- Modelled from the spec: `CodeGenerator.generate` (section 4.4), missing
from the sources: a 6-character code drawn from `[A-Z0-9]`; the six random
draws of one call are the argument. -/
def CodeGenerator.generate (draws : List Nat) : String :=
  ⟨(List.range 6).map fun i => codeAlphabet.getD (draws.getD i 0 % 36) 'A'⟩

/-- Modelled from the spec: the retry loop of `PartyRegistry.create` (section
4.1), missing from the sources: codes are generated until one is not in the
live code set; each element of `randomness` feeds one call of the generator,
and `none` means that all of them collided. -/
def PartyRegistry.freshCode (codes : List String) : List (List Nat) → Option String
  | [] => none
  | d :: ds =>
    if CodeGenerator.generate d ∈ codes then PartyRegistry.freshCode codes ds
    else some (CodeGenerator.generate d)

/-- Modelled from the spec: `PartyRegistry.create` (section 4.1), missing from
the sources.  It fails with `InvalidArgument` if the host name is empty or
white space or the duration is out of range, and otherwise registers a party
with a fresh code, `members = [hostName]`, no photo and no end time. -/
def PartyRegistry.create (reg : Registry) (now : Nat) (randomness : List (List Nat))
    (hostName : String) (durationHours : Int) :
    Option (Except ServiceError (Party × Registry)) :=
  if hostName.data.all isJsWhiteSpace || decide (durationHours < 1) ||
      decide (12 < durationHours) then
    some (.error .InvalidArgument)
  else
    match PartyRegistry.freshCode (reg.map (·.code)) randomness with
    | none => none
    | some code =>
      let party : Party :=
        { code := code, host := hostName, members := [hostName], createdAt := now,
          durationHours := durationHours.toNat, endedAt := none, photos := [] }
      some (.ok (party, reg ++ [party]))

/-- Modelled from the spec: invariant I5 (section 3), missing from the sources:
a party is ended iff `endedAt` is set or its duration has elapsed. -/
def Party.isEnded (now : Nat) (p : Party) : Bool :=
  p.endedAt.isSome || decide (p.createdAt + p.durationHours * 3600 ≤ now)

/-- Modelled from the spec: lookup of a party by its code in the registry,
missing from the sources. -/
def PartyRegistry.find (reg : Registry) (code : String) : Option Party :=
  reg.find? fun p => p.code == code

/-- Modelled from the spec: replacement of a party of the registry by its
updated record, missing from the sources. -/
def PartyRegistry.update (reg : Registry) (p : Party) : Registry :=
  reg.map fun q => if q.code == p.code then p else q

/-- Modelled from the spec: `PartyRegistry.join` (section 4.1), missing from
the sources. -/
def PartyRegistry.join (reg : Registry) (now : Nat) (code userName : String) :
    Except ServiceError (Party × Registry) :=
  match PartyRegistry.find reg code with
  | none => .error .NotFound
  | some p =>
    if p.isEnded now then .error .PartyEnded
    else
      .ok ({ p with members := p.members ++ [userName] },
        PartyRegistry.update reg { p with members := p.members ++ [userName] })

/-- Modelled from the spec: `PartyRegistry.end` (section 4.1), missing from the
sources: `NotFound`, `Forbidden` for a caller other than the host, a no-op on
an ended party, and otherwise `endedAt = now`. -/
def PartyRegistry.endParty (reg : Registry) (now : Nat) (code callerName : String) :
    Except ServiceError Registry :=
  match PartyRegistry.find reg code with
  | none => .error .NotFound
  | some p =>
    if callerName ≠ p.host then .error .Forbidden
    else if p.isEnded now then .ok reg
    else .ok (PartyRegistry.update reg { p with endedAt := some now })

/-- Modelled from the spec: the answer of `PartyRegistry.status` (section 4.1),
missing from the sources. -/
structure StatusView where
  party : Party
  timeRemaining : Nat
  hasEnded : Bool
  deriving DecidableEq, Repr

/-- Modelled from the spec: `PartyRegistry.status` (section 4.1), missing from
the sources: the first observer of an elapsed duration performs the transition
to ended; `timeRemaining` is `max(0, createdAt + durationHours - now)` and zero
once ended. -/
def PartyRegistry.status (reg : Registry) (now : Nat) (code : String) :
    Except ServiceError (StatusView × Registry) :=
  match PartyRegistry.find reg code with
  | none => .error .NotFound
  | some p =>
    let seen : Party :=
      if p.isEnded now && p.endedAt.isNone then { p with endedAt := some now } else p
    .ok ({ party := seen,
           timeRemaining := if p.isEnded now then 0
                            else p.createdAt + p.durationHours * 3600 - now,
           hasEnded := p.isEnded now },
      PartyRegistry.update reg seen)

/-- Modelled from the spec: `PhotoStore.upload` (section 4.3), missing from the
sources; `assetRef` is the reference the blob store returned for the bytes. -/
def PhotoStore.upload (reg : Registry) (now : Nat) (code userName : String)
    (assetRef contentSizeBytes : Nat) : Except ServiceError (Nat × Registry) :=
  match PartyRegistry.find reg code with
  | none => .error .NotFound
  | some p =>
    if p.isEnded now then .error .PartyEnded
    else if contentSizeBytes > 5 * 1024 * 1024 then .error .PayloadTooLarge
    else
      let photo : PhotoRecord :=
        { uploadedBy := userName, uploadedAt := now, assetRef := assetRef }
      .ok ((p.photos ++ [photo]).length,
        PartyRegistry.update reg { p with photos := p.photos ++ [photo] })

/-- Modelled from the spec: `PhotoStore.list` (section 4.3), missing from the
sources: `NotFound`, `PartyNotEnded` while the party is active, else the
photos in upload order. -/
def PhotoStore.list (reg : Registry) (now : Nat) (code : String) :
    Except ServiceError (List PhotoRecord) :=
  match PartyRegistry.find reg code with
  | none => .error .NotFound
  | some p => if p.isEnded now then .ok p.photos else .error .PartyNotEnded

/-- Modelled from the spec: the effect on the registry of a call of `api.js`,
each call being the operation of the same name of the operation table (section
6), missing from the sources.  No call of `api.js` is the operation
`endParty`. -/
def serve (now : Nat) (randomness : List (List Nat)) (reg : Registry) : Request → Registry
  | .createParty hostName durationHours =>
    match PartyRegistry.create reg now randomness hostName durationHours with
    | some (.ok (_, reg2)) => reg2
    | _ => reg
  | .joinParty code userName =>
    match PartyRegistry.join reg now code userName with
    | .ok (_, reg2) => reg2
    | .error _ => reg
  | .getPartyStatus code =>
    match PartyRegistry.status reg now code with
    | .ok (_, reg2) => reg2
    | .error _ => reg
  | .uploadPhoto code file userName =>
    match PhotoStore.upload reg now code userName 0 file.size with
    | .ok (_, reg2) => reg2
    | .error _ => reg
  | .getPartyPhotos _ => reg

/-- A registry that tracks the running party `ABC123`: created by Amy at time
0 for one hour, joined by Bo, one photo uploaded. -/
def registryRunning : Registry :=
  [{ code := "ABC123", host := "Amy", members := ["Amy", "Bo"], createdAt := 0,
     durationHours := 1, endedAt := none,
     photos := [{ uploadedBy := "Bo", uploadedAt := 600, assetRef := 1 }] }]

/-- Six draws that make the generator yield `ABC123`. -/
def drawsABC123 : List Nat := [0, 1, 2, 27, 28, 29]

/-- Six draws that make the generator yield `QRS789`. -/
def drawsQRS789 : List Nat := [16, 17, 18, 33, 34, 35]

/-- The create form with the name Cy filled in. -/
def exampleCreateForm : State := { State.init with mode := "create", hostName := "Cy" }

/-! ## The base URL of `services/api.js` -/

/-- The call `.replace(/\/$/, "")` on a list of code points: the pattern is
tried at each position from the left and matches a `/` that is followed by the
end of the input; the first match is replaced by the empty string. -/
def replaceTrailingSlashList : List Char → List Char
  | [] => []
  | c :: cs => if c = '/' ∧ cs = [] then [] else c :: replaceTrailingSlashList cs

/-- The call `.replace(/\/$/, "")` on a string. -/
def replaceTrailingSlash (s : String) : String := ⟨replaceTrailingSlashList s.data⟩

/-- The constant `API_BASE_URL` of `services/api.js`, as a function of
`import.meta.env.VITE_API_URL` (`none` when the variable is not set):
`(VITE_API_URL || "http://localhost:8000").replace(/\/$/, "")`. -/
def API_BASE_URL (VITE_API_URL : Option String) : String :=
  replaceTrailingSlash
    (match VITE_API_URL with
     | some v => if truthy v then v else "http://localhost:8000"
     | none => "http://localhost:8000")

/-- The string ends with the character `/`. -/
def endsWithSlash (s : String) : Prop := s.data.getLast? = some '/'

/-- The string ends with `//`. -/
def endsWithTwoSlashes (s : String) : Prop := ∃ l : List Char, s.data = l ++ ['/', '/']

/-- The create form with the name Amy filled in, as first opened: no party
code is held yet. -/
def exampleCreateAmy : State := { State.init with mode := "create", hostName := "Amy" }

/-- The create form opened after the code `OLD111` of another party had been
typed into the join form. -/
def exampleCreateAfterJoinForm : State :=
  { State.init with mode := "create", hostName := "Amy", partyCode := "OLD111" }

/-- The state of the mood page after a click on the right arrow. -/
def afterNextSlide (s : MoodState) : MoodState := runMoodActions s (nextSlide s)

/-- The state of the mood page after a click on the left arrow. -/
def afterPrevSlide (s : MoodState) : MoodState := runMoodActions s (prevSlide s)

/-- The results screen with three suggestions, the second one in view. -/
def exampleResults : MoodState :=
  { MoodState.init with
    loading := false
    suggestions := some { mood_summary := "Festive",
                          suggestions := [{ name := "Mojito", description := "Fresh", rarity := "common" },
                                          { name := "Negroni", description := "Bitter", rarity := "rare" },
                                          { name := "Sazerac", description := "Bold", rarity := "epic" }] }
    currentSlide := 1 }

/-- A backend that answers the first request of `handleCreateParty` with the
code `ABC123` and knows a running party under the code `OLD111`, hosted by
Zed. -/
def repliesOldParty : Replies where
  create := .ok { party_code := "ABC123" }
  join := .ok ()
  status := .ok { party := { host := "Zed", members := ["Zed"], photo_count := 0,
                             duration_hours := 2 },
                  time_remaining := "1:45:00", has_ended := false }
  upload := .error { detail := none }
  photos := .error { detail := some "Party hasn't ended yet!" }

/-- The events that lead to `exampleCreateAfterJoinForm`: a code is typed into
the join form, then the visitor goes back and opens the create form. -/
def eventsCreateAfterJoinForm : List Event :=
  [.chooseJoin, .typePartyCode "OLD111", .back, .chooseCreate, .typeHostName "Amy"]

/-- The event is a step of the quiz itself: an answer or a retake. -/
def MoodEvent.isQuizStep : MoodEvent → Bool
  | .clickOption _ => true
  | .clickRetake => true
  | _ => false

/-- The page shows one of the two screens of the quiz proper. -/
def onQuizScreen (s : MoodState) : Prop :=
  moodRender s = .preference ∨ moodRender s = .question

/-- The two questions of `exampleQuiz`. -/
def twoQuestions : List Question :=
  [{ question := "How was your day?", options := ["Great", "Fine", "Rough"] },
   { question := "Who is around?", options := ["Friends", "Nobody"] }]

/-- A backend of the mood quiz that lists `twoQuestions` and suggests three
drinks. -/
def repliesThreeDrinks : MoodReplies where
  questions := .ok { questions := twoQuestions }
  suggest := .ok { mood_summary := "Festive",
                   suggestions := [{ name := "Mojito", description := "Fresh", rarity := "common" },
                                   { name := "Negroni", description := "Bitter", rarity := "rare" },
                                   { name := "Sazerac", description := "Bold", rarity := "epic" }] }

/-- The same backend answering a later quiz with a single drink. -/
def repliesOneDrink : MoodReplies where
  questions := .ok { questions := twoQuestions }
  suggest := .ok { mood_summary := "Quiet",
                   suggestions := [{ name := "Pilsner", description := "Crisp", rarity := "common" }] }

/-- The questions are loaded and the first one is answered with option 2. -/
def eventsFirstAnswer : List MoodEvent :=
  [.questionsLoaded repliesThreeDrinks, .clickOption 2]

/-- The state after `eventsFirstAnswer`. -/
def exampleFirstAnswer : MoodState :=
  { MoodState.init with
    questions := twoQuestions, loading := false, currentQuestion := 1, answers := [2] }

/-- A first quiz ends with three suggestions; the visitor moves to the third
card and opens it, retakes the quiz, and the second quiz ends with a single
suggestion. -/
def eventsRetake : List MoodEvent :=
  [.questionsLoaded repliesThreeDrinks, .clickOption 2, .clickOption 0,
   .clickPreference "cocktails" repliesThreeDrinks,
   .clickNext, .clickNext, .clickCard 2, .clickRetake,
   .clickOption 0, .clickOption 1, .clickPreference "soft" repliesOneDrink]

/-- The state after `eventsRetake`: the results screen of the second quiz. -/
def exampleRetaken : MoodState where
  questions := twoQuestions
  currentQuestion := 2
  answers := [0, 1]
  suggestions := some { mood_summary := "Quiet",
                        suggestions := [{ name := "Pilsner", description := "Crisp",
                                          rarity := "common" }] }
  loading := false
  error := none
  selectedCard := some 2
  currentSlide := 2

/-- The replies to Amy's creation on a fresh page: the code `ABC123`, and no
party under the empty code. -/
def repliesJustCreated : Replies :=
  { repliesRunning with status := .error { detail := some "Party not found" } }

/-- The slide in view is one of the suggestions and the open card, if any, is
one of them too. -/
def slidesValid (s : MoodState) : Prop :=
  0 ≤ s.currentSlide ∧ s.currentSlide < (slideCount s : Int) ∧
    ∀ i : Nat, s.selectedCard = some i → i < slideCount s

/-- The slide cells are as in the initial state, or results are held and the
slide cells are valid for them. -/
def slidesFresh (s : MoodState) : Prop :=
  (s.currentSlide = 0 ∧ s.selectedCard = none) ∨ (s.suggestions.isSome = true ∧ slidesValid s)

/-- The event is a click on "Retake Quiz". -/
def MoodEvent.isRetake : MoodEvent → Bool
  | .clickRetake => true
  | _ => false

/-! ## Interleaving of events and replies

A handler runs until the request it awaits next and is suspended there; the
values it read from the state are those of the render it was created in, which
the list of its actions already carries.  When the reply arrives the handler
runs on, applying its setters to whatever the state is by then. -/

/-- A handler suspended at an `await`: the request it waits for and the actions
it performs once the reply is there. -/
structure Suspended where
  awaited : Request
  rest : List Action
  deriving DecidableEq, Repr

/-- The page: the component state and the handlers that wait for a reply. -/
structure Page where
  state : State
  pending : List Suspended
  deriving DecidableEq, Repr

/-- The freshly mounted page. -/
def Page.init : Page := ⟨State.init, []⟩

/-- The actions a handler performs before the next request it awaits. -/
def beforeAwait : List Action → List Action
  | [] => []
  | a :: as =>
    match a with
    | .request _ => []
    | _ => a :: beforeAwait as

/-- The next request a handler awaits, with the actions that follow the
reply; `none` when the handler runs to its end. -/
def firstAwait : List Action → Option Suspended
  | [] => none
  | a :: as =>
    match a with
    | .request q => some ⟨q, as⟩
    | _ => firstAwait as

/-- Run a handler, or the rest of one, up to its next request: the setters are
applied to the current state and the handler joins the suspended ones if it
awaits a reply. -/
def resume (s : State) (pending : List Suspended) (as : List Action) : Page :=
  ⟨runActions s (beforeAwait as),
    match firstAwait as with
    | none => pending
    | some k => pending ++ [k]⟩

/-- What happens next on the page: an event, or the arrival of the reply to
the suspended handler at position `i`. -/
inductive Move where
  | event (e : Event)
  | reply (i : Nat)

/-- One move of the page; `none` when the event is not offered or no handler
is suspended at that position. -/
def pageMove (u : Char → List Char) (p : Page) : Move → Option Page
  | .event e =>
    if e.enabled p.state then some (resume p.state p.pending (e.actions u p.state))
    else none
  | .reply i =>
    match p.pending[i]? with
    | some k => some (resume p.state (p.pending.eraseIdx i) k.rest)
    | none => none

/-- The request a move issues, with the handler it suspends. -/
def issuedBy (u : Char → List Char) (p : Page) : Move → Option Suspended
  | .event e => firstAwait (e.actions u p.state)
  | .reply i =>
    match p.pending[i]? with
    | some k => firstAwait k.rest
    | none => none

/-- Run a list of moves from a page. -/
def runMoves (u : Char → List Char) : Page → List Move → Option Page
  | p, [] => some p
  | p, m :: ms => (pageMove u p m).bind fun q => runMoves u q ms

/-- The event satisfies `ok`; replies always do. -/
def Move.eventIs (ok : Event → Prop) : Move → Prop
  | .event e => ok e
  | .reply _ => True

/-- The pages reached from the freshly mounted one by moves whose events
satisfy `ok`. -/
inductive PageReachableVia (u : Char → List Char) (ok : Event → Prop) : Page → Prop where
  | init : PageReachableVia u ok Page.init
  | move {p q : Page} (m : Move) : PageReachableVia u ok p → m.eventIs ok →
      pageMove u p m = some q → PageReachableVia u ok q

/-- The pages reached under any interleaving of events and replies, whatever
the backend answers. -/
def PageReachable (u : Char → List Char) (p : Page) : Prop :=
  PageReachableVia u (fun _ => True) p

/-- Modelled from the spec: the code of a successful `createParty` reply is the
code of a party that `PartyRegistry.create` has registered; the backend that
sends the reply is missing from the sources. -/
def Event.servedCreate : Event → Prop
  | .clickCreate r =>
    ∀ res, r.create = .ok res →
      ∃ (reg : Registry) (now : Nat) (randomness : List (List Nat)) (hostName : String)
        (durationHours : Int) (party : Party) (reg2 : Registry),
        PartyRegistry.create reg now randomness hostName durationHours =
          some (.ok (party, reg2)) ∧ res.party_code = party.code
  | _ => True

/-- The pages reached under any interleaving of events and replies when the
party codes come from the service. -/
def PageReachableServed (u : Char → List Char) (p : Page) : Prop :=
  PageReachableVia u Event.servedCreate p

/-- Guard on the photo listing: scanning a handler, `m` is the value `mode` was
last set to since the handler last resumed (`none` if it has not set it), and
every `getPartyPhotos` request comes with `m` equal to "ended". -/
def photosGuarded : Option String → List Action → Bool
  | _, [] => true
  | m, a :: as =>
    match a with
    | .setMode v => photosGuarded (some v) as
    | .request q => (!q.isGetPartyPhotos || m == some "ended") && photosGuarded none as
    | _ => photosGuarded m as

/-- The request is the one `handleCreateParty` or `handleJoinParty` awaits
first. -/
def Request.opensParty (q : Request) : Bool := q.isCreateParty || q.isJoinParty

/-- Guard on the mode: a handler that resumes sets `mode` to "ended" only, and
leaves `partyCode` and `userName` alone, unless the reply it resumed on is the
one to `createParty` or `joinParty` (`entering`), in which case it may also set
`mode` to "active". -/
def modeGuarded : Bool → List Action → Bool
  | _, [] => true
  | entering, a :: as =>
    match a with
    | .setMode v => (v == "ended" || (entering && v == "active")) && modeGuarded entering as
    | .setPartyCode _ => entering && modeGuarded entering as
    | .setUserName _ => entering && modeGuarded entering as
    | .request q => modeGuarded q.opensParty as
    | _ => modeGuarded entering as

/-- No code point of the string is one of the letters `a` to `z`. -/
def hasNoLowerAscii (s : String) : Prop :=
  ∀ c ∈ s.data, ¬ (97 ≤ c.toNat ∧ c.toNat ≤ 122)

/-- The Unicode table `u` never yields one of the letters `a` to `z`. -/
def UpperClean (u : Char → List Char) : Prop :=
  ∀ c : Char, 128 ≤ c.toNat → ∀ d ∈ u c, ¬ (97 ≤ d.toNat ∧ d.toNat ≤ 122)

/-- A party code as the page means to hold it: its own uppercase form, with no
lowercase letter of the ASCII alphabet in it. -/
def codeUpper (u : Char → List Char) (c : String) : Prop :=
  toUpperCase u c = c ∧ hasNoLowerAscii c

/-- The action does not store a party code, or the code it stores is in
uppercase form. -/
def codeAction (u : Char → List Char) (a : Action) : Prop :=
  ∀ v : String, a = .setPartyCode v → codeUpper u v

/-- Bo types the code `abc123` and his name into the join form and joins; the
reply to the join and the reply to the status request that follows it arrive,
the party is running. -/
def movesJoined : List Move :=
  [.event .chooseJoin, .event (.typePartyCode "abc123"), .event (.typeUserName "Bo"),
   .event (.clickJoin repliesRunning), .reply 0, .reply 0]

/-- The page after `movesJoined`: the active screen of party `ABC123`. -/
def pageJoined : Page where
  state :=
    { State.init with
      mode := "active", partyCode := "ABC123", userName := "Bo"
      partyData := some { host := "Amy", members := ["Amy", "Bo"], photo_count := 1,
                          duration_hours := 1 }
      timeRemaining := "0:30:00" }
  pending := []

/-- After `movesJoined` a poll finds the party ended: its status reply arrives,
`checkPartyStatus` sets the mode to "ended" and `loadPhotos` asks for the
listing.  Bo clicks "Start New Party" while the listing is awaited, and the
listing arrives after that. -/
def movesLeak : List Move :=
  movesJoined ++ [.event (.poll repliesEnded), .reply 0, .event .clickReset, .reply 0]

/-- The page after `movesLeak`. -/
def pageLeak : Page where
  state :=
    { State.init with
      timeRemaining := "0:00:00"
      photos := [{ uploaded_by := "Bo", uploaded_at := "2024-01-01T22:00:00" }] }
  pending := []

/-- A backend that answers a creation with the code `XYZ789` and knows no
party under the empty code. -/
def repliesSecondParty : Replies :=
  { repliesRunning with
    create := .ok { party_code := "XYZ789" }
    status := .error { detail := some "Party not found" } }

/-- Bo joins party `ABC123`; on entering the active screen the polling effect
asks for the status as well, so two status requests are under way.  The reply
to the first reports the party ended and the photos are listed; Bo clicks
"Start New Party", opens the create form, types his name and clicks "Create
Party".  While the creation is awaited the reply to the second status request
arrives and sets the mode to "ended". -/
def movesEndedAgain : List Move :=
  [.event .chooseJoin, .event (.typePartyCode "abc123"), .event (.typeUserName "Bo"),
   .event (.clickJoin repliesEnded), .reply 0, .event (.poll repliesEnded), .reply 0, .reply 1,
   .event .clickReset, .event .chooseCreate, .event (.typeHostName "Bo"),
   .event (.clickCreate repliesSecondParty), .reply 0]

/-- The page after `movesEndedAgain`: the ended screen, with `handleCreateParty`
waiting for the reply to its creation and `loadPhotos` for the listing. -/
def pageEndedAgain : Page where
  state :=
    { State.init with
      mode := "ended"
      partyData := some { host := "Amy", members := ["Amy", "Bo"], photo_count := 1,
                          duration_hours := 1 }
      timeRemaining := "0:00:00", loading := true, hostName := "Bo" }
  pending :=
    [⟨.createParty "Bo" 4,
      [.setPartyCode "XYZ789", .setUserName "Bo", .setMode "active",
       .request (.getPartyStatus ""), .setLoading false]⟩,
     ⟨.getPartyPhotos "ABC123",
      [.setPhotos [{ uploaded_by := "Bo", uploaded_at := "2024-01-01T22:00:00" }]]⟩]

/-- The page `pageEndedAgain` once the reply to the creation has arrived. -/
def pageRevived : Page where
  state :=
    { State.init with
      mode := "active", partyCode := "XYZ789", userName := "Bo"
      partyData := some { host := "Amy", members := ["Amy", "Bo"], photo_count := 1,
                          duration_hours := 1 }
      timeRemaining := "0:00:00", loading := true, hostName := "Bo" }
  pending :=
    [⟨.getPartyPhotos "ABC123",
      [.setPhotos [{ uploaded_by := "Bo", uploaded_at := "2024-01-01T22:00:00" }]]⟩,
     ⟨.getPartyStatus "", [.setLoading false]⟩]

/-- The page `pageEndedAgain` once the photo listing has arrived. -/
def pageEndedListed : Page where
  state :=
    { pageEndedAgain.state with
      photos := [{ uploaded_by := "Bo", uploaded_at := "2024-01-01T22:00:00" }] }
  pending :=
    [⟨.createParty "Bo" 4,
      [.setPartyCode "XYZ789", .setUserName "Bo", .setMode "active",
       .request (.getPartyStatus ""), .setLoading false]⟩]

/-- The code `OLD111` is typed into the join form, the visitor goes back, opens
the create form, types the name Amy and clicks "Create Party". -/
def movesOldCode : List Move :=
  [.event .chooseJoin, .event (.typePartyCode "OLD111"), .event .back, .event .chooseCreate,
   .event (.typeHostName "Amy"), .event (.clickCreate repliesOldParty)]

/-- The page after `movesOldCode`: `handleCreateParty` waits for the reply to
the creation. -/
def pageOldCodeCreate : Page where
  state := { exampleCreateAfterJoinForm with loading := true }
  pending :=
    [⟨.createParty "Amy" 4,
      [.setPartyCode "ABC123", .setUserName "Amy", .setMode "active",
       .request (.getPartyStatus "OLD111"),
       .setPartyData (some { host := "Zed", members := ["Zed"], photo_count := 0,
                             duration_hours := 2 }),
       .setTimeRemaining "1:45:00", .setLoading false]⟩]

/-- The page `pageOldCodeCreate` once the creation is answered with the code
`ABC123`: the handler has stored the new code and waits for the status. -/
def pageOldCodeStatus : Page where
  state :=
    { exampleCreateAfterJoinForm with
      mode := "active", partyCode := "ABC123", userName := "Amy", loading := true }
  pending :=
    [⟨.getPartyStatus "OLD111",
      [.setPartyData (some { host := "Zed", members := ["Zed"], photo_count := 0,
                             duration_hours := 2 }),
       .setTimeRemaining "1:45:00", .setLoading false]⟩]

/-- The page `pageOldCodeStatus` once the status is answered: the active screen
of Amy's party. -/
def pageOldCodeShown : Page where
  state :=
    { exampleCreateAfterJoinForm with
      mode := "active", partyCode := "ABC123", userName := "Amy"
      partyData := some { host := "Zed", members := ["Zed"], photo_count := 0,
                          duration_hours := 2 }
      timeRemaining := "1:45:00" }
  pending := []

/-- A backend that registers Cy's party under the code `QRS789`, as the
service does when `ABC123` is tracked and the first draw collides with it. -/
def repliesServed : Replies where
  create := .ok { party_code := "QRS789" }
  join := .ok ()
  status := .ok { party := { host := "Cy", members := ["Cy"], photo_count := 0,
                             duration_hours := 2 },
                  time_remaining := "2:00:00", has_ended := false }
  upload := .ok { message := "Photo uploaded!", total_photos := 1 }
  photos := .error { detail := some "Party hasn't ended yet!" }

/-- Cy creates a two-hour party; the status request of the handler finds no
party, the poll that follows shows it running. -/
def movesCreated : List Move :=
  [.event .chooseCreate, .event (.typeHostName "Cy"), .event (.slideDuration 2),
   .event (.clickCreate { repliesServed with status := .error { detail := some "Party not found" } }),
   .reply 0, .reply 0, .event (.poll repliesServed), .reply 0]

/-- The page after `movesCreated`: the active screen of party `QRS789`. -/
def pageCreated : Page where
  state :=
    { State.init with
      mode := "active", partyCode := "QRS789", userName := "Cy"
      partyData := some { host := "Cy", members := ["Cy"], photo_count := 0,
                          duration_hours := 2 }
      timeRemaining := "2:00:00", hostName := "Cy", duration := 2 }
  pending := []

/-- After `movesJoined` the polling effect asks for the status of the party,
which has ended meanwhile. -/
def movesPolled : List Move := movesJoined ++ [.event (.poll repliesEnded)]

/-- The page after `movesPolled`: the active screen, `checkPartyStatus` waiting
for the status. -/
def pagePolled : Page where
  state := pageJoined.state
  pending :=
    [⟨.getPartyStatus "ABC123",
      [.setPartyData (some { host := "Amy", members := ["Amy", "Bo"], photo_count := 1,
                             duration_hours := 1 }),
       .setTimeRemaining "0:00:00", .setMode "ended", .request (.getPartyPhotos "ABC123"),
       .setPhotos [{ uploaded_by := "Bo", uploaded_at := "2024-01-01T22:00:00" }]]⟩]

/-- The page `pagePolled` once the status has arrived: the mode is "ended" and
`loadPhotos` waits for the listing. -/
def pageListing : Page where
  state :=
    { pageJoined.state with mode := "ended", timeRemaining := "0:00:00" }
  pending :=
    [⟨.getPartyPhotos "ABC123",
      [.setPhotos [{ uploaded_by := "Bo", uploaded_at := "2024-01-01T22:00:00" }]]⟩]

/-! ## Basic facts about actions and the string builtins -/

theorem requests_append (as bs : List Action) :
    requests (as ++ bs) = requests as ++ requests bs := by
  induction as with
  | nil => rfl
  | cons a as ih => cases a <;> simp [requests, ih]

theorem runActions_append (s : State) (as bs : List Action) :
    runActions s (as ++ bs) = runActions (runActions s as) bs := by
  simp [runActions, List.foldl_append]

theorem runActions_cons (s : State) (a : Action) (as : List Action) :
    runActions s (a :: as) = runActions (a.apply s) as := rfl

theorem runActions_nil (s : State) : runActions s [] = s := rfl

theorem jsTrimList_eq_nil (l : List Char) :
    jsTrimList l = [] ↔ ∀ c ∈ l, isJsWhiteSpace c = true := by
  unfold jsTrimList
  rw [List.reverse_eq_nil_iff, List.dropWhile_eq_nil_iff]
  constructor
  · intro h
    have hnil : l.dropWhile isJsWhiteSpace = [] := by
      by_contra hne
      have hhead := List.head_dropWhile_not isJsWhiteSpace l hne
      have hmem := h _ (List.mem_reverse.mpr (List.head_mem hne))
      simp [hmem] at hhead
    exact List.dropWhile_eq_nil_iff.mp hnil
  · intro h
    rw [List.dropWhile_eq_nil_iff.mpr h]
    simp

theorem truthy_jsTrim_eq_false (s : String) :
    truthy (jsTrim s) = false ↔ isBlank s := by
  unfold truthy jsTrim isBlank
  rw [← jsTrimList_eq_nil]
  constructor
  · intro h
    have : (String.mk (jsTrimList s.data)) = "" := by simpa using h
    exact congrArg String.data this
  · intro h
    rw [h]
    rfl

theorem truthy_jsTrim_eq_true (s : String) :
    truthy (jsTrim s) = true ↔ ¬ isBlank s := by
  rw [← truthy_jsTrim_eq_false]
  cases truthy (jsTrim s) <;> simp

/-- The requests of `checkPartyStatus`: one status request, followed by one
photo listing when the party is reported ended. -/
theorem requests_checkPartyStatus (c : String) (r : Replies) :
    requests (checkPartyStatus c r) =
      .getPartyStatus c ::
        (match r.status with
         | .ok st => if st.has_ended then [.getPartyPhotos c] else []
         | .error _ => []) := by
  obtain ⟨rc, rj, rs, ru, rp⟩ := r
  cases rs with
  | error e => simp [checkPartyStatus, requests]
  | ok st =>
    cases hst : st.has_ended <;> cases rp <;>
      simp [checkPartyStatus, loadPhotos, requests, hst]

/-- The fields `checkPartyStatus` never writes. -/
theorem runActions_checkPartyStatus_frame (s : State) (c : String) (r : Replies) :
    (runActions s (checkPartyStatus c r)).loading = s.loading ∧
    (runActions s (checkPartyStatus c r)).error = s.error ∧
    (runActions s (checkPartyStatus c r)).partyCode = s.partyCode ∧
    (runActions s (checkPartyStatus c r)).userName = s.userName ∧
    (runActions s (checkPartyStatus c r)).hostName = s.hostName ∧
    (runActions s (checkPartyStatus c r)).duration = s.duration := by
  obtain ⟨rc, rj, rs, ru, rp⟩ := r
  cases rs with
  | error e => simp [checkPartyStatus, runActions, Action.apply]
  | ok st =>
    cases hst : st.has_ended <;> cases rp <;>
      simp [checkPartyStatus, loadPhotos, runActions, Action.apply, hst]

theorem step_eq_some {u : Char → List Char} {s t : State} {e : Event}
    (h : step u s e = some t) :
    e.enabled s = true ∧ t = runActions s (e.actions u s) := by
  unfold step at h
  by_cases he : e.enabled s = true
  · simp [he] at h
    exact ⟨he, h.symm⟩
  · simp [he] at h

theorem reachable_of_runEvents (u : Char → List Char) (es : List Event) :
    ∀ s t : State, Reachable u s → runEvents u s es = some t → Reachable u t := by
  induction es with
  | nil =>
    intro s t hs h
    simp [runEvents] at h
    exact h ▸ hs
  | cons e es ih =>
    intro s t hs h
    simp only [runEvents] at h
    cases hstep : step u s e with
    | none => simp [hstep] at h
    | some m =>
      simp [hstep] at h
      exact ih m t (Reachable.step e hs hstep) h

theorem render_eq_select {s : State} : render s = .select ↔ s.mode = "select" := by
  unfold render
  repeat' split
  all_goals simp_all

theorem render_eq_create {s : State} : render s = .create ↔ s.mode = "create" := by
  unfold render
  repeat' split
  all_goals simp_all

theorem render_eq_join {s : State} : render s = .join ↔ s.mode = "join" := by
  unfold render
  repeat' split
  all_goals simp_all

theorem render_eq_active {s : State} :
    render s = .active ↔ s.mode = "active" ∧ s.partyData.isSome = true := by
  unfold render
  repeat' split
  all_goals simp_all

theorem render_eq_ended {s : State} : render s = .ended ↔ s.mode = "ended" := by
  unfold render
  repeat' split
  all_goals simp_all

/-- Between two events `loading` is false and the duration is within the
bounds of the slider. -/
theorem reachable_loading_duration {u : Char → List Char} {s : State}
    (h : Reachable u s) : s.loading = false ∧ 1 ≤ s.duration ∧ s.duration ≤ 12 := by
  induction h with
  | init => simp [State.init]
  | @step s t e _ hstep ih =>
    obtain ⟨hen, rfl⟩ := step_eq_some hstep
    obtain ⟨ihl, ihd⟩ := ih
    cases e with
    | chooseCreate => simpa [Event.actions, runActions, Action.apply] using ⟨ihl, ihd⟩
    | chooseJoin => simpa [Event.actions, runActions, Action.apply] using ⟨ihl, ihd⟩
    | back => simpa [Event.actions, runActions, Action.apply] using ⟨ihl, ihd⟩
    | typeHostName v => simpa [Event.actions, runActions, Action.apply] using ⟨ihl, ihd⟩
    | slideDuration n =>
      simp [Event.enabled] at hen
      simpa [Event.actions, runActions, Action.apply] using ⟨ihl, hen.1.2, hen.2⟩
    | typePartyCode v => simpa [Event.actions, runActions, Action.apply] using ⟨ihl, ihd⟩
    | typeUserName v => simpa [Event.actions, runActions, Action.apply] using ⟨ihl, ihd⟩
    | clickCreate r =>
      have hf := runActions_checkPartyStatus_frame
      obtain ⟨rc, rj, rs, ru, rp⟩ := r
      simp only [Event.actions, handleCreateParty]
      split
      · simpa [runActions, Action.apply] using ⟨ihl, ihd⟩
      · cases rc <;>
          simp [runActions_append, runActions_cons, runActions_nil, Action.apply, hf, ihd]
    | clickJoin r =>
      have hf := runActions_checkPartyStatus_frame
      obtain ⟨rc, rj, rs, ru, rp⟩ := r
      simp only [Event.actions, handleJoinParty]
      split
      · simpa [runActions, Action.apply] using ⟨ihl, ihd⟩
      · cases rj <;>
          simp [runActions_append, runActions_cons, runActions_nil, Action.apply, hf, ihd]
    | poll r =>
      have hf := runActions_checkPartyStatus_frame s s.partyCode r
      simp only [Event.actions]
      rw [hf.1, hf.2.2.2.2.2]
      exact ⟨ihl, ihd⟩
    | selectPhoto file r =>
      have hf := runActions_checkPartyStatus_frame
      obtain ⟨rc, rj, rs, ru, rp⟩ := r
      simp only [Event.actions, handlePhotoUpload]
      cases file with
      | none => simpa [runActions] using ⟨ihl, ihd⟩
      | some f =>
        simp only
        split
        · simpa [runActions, Action.apply] using ⟨ihl, ihd⟩
        · cases ru <;>
            simp [runActions_append, runActions_cons, runActions_nil, Action.apply, hf, ihd]
    | clickEnd r =>
      obtain ⟨rc, rj, rs, ru, rp⟩ := r
      cases rp <;>
        simpa [Event.actions, handleEndParty, loadPhotos, runActions, Action.apply]
          using ⟨ihl, ihd⟩
    | clickReset =>
      simpa [Event.actions, handleReset, runActions, Action.apply] using ⟨ihl, ihd⟩

theorem requestsAt_append (s : State) (as bs : List Action) :
    requestsAt s (as ++ bs) =
      requestsAt s as ++ requestsAt (runActions s as) bs := by
  induction as generalizing s with
  | nil => rfl
  | cons a as ih => cases a <;> simp [requestsAt, runActions_cons, ih, Action.apply]

/-- After `checkPartyStatus` the mode is "ended", or mode and photos are as
before. -/
theorem runActions_checkPartyStatus_mode (s : State) (c : String) (r : Replies) :
    (runActions s (checkPartyStatus c r)).mode = "ended" ∨
      ((runActions s (checkPartyStatus c r)).mode = s.mode ∧
       (runActions s (checkPartyStatus c r)).photos = s.photos) := by
  obtain ⟨rc, rj, rs, ru, rp⟩ := r
  cases rs with
  | error e => simp [checkPartyStatus, runActions, Action.apply]
  | ok st =>
    cases hst : st.has_ended <;> cases rp <;>
      simp [checkPartyStatus, loadPhotos, runActions, Action.apply, hst]

/-- Between two events the photo list is empty unless the mode is "ended". -/
theorem reachable_photos {u : Char → List Char} {s : State} (h : Reachable u s) :
    s.mode = "ended" ∨ s.photos = [] := by
  induction h with
  | init => simp [State.init]
  | @step s t e _ hstep ih =>
    obtain ⟨hen, rfl⟩ := step_eq_some hstep
    cases e with
    | chooseCreate =>
      have hm : s.mode = "select" := by
        simpa [Event.enabled, render_eq_select] using hen
      have hp : s.photos = [] := by
        rcases ih with h | h
        · simp [hm] at h
        · exact h
      simp [Event.actions, runActions, Action.apply, hp]
    | chooseJoin =>
      have hm : s.mode = "select" := by
        simpa [Event.enabled, render_eq_select] using hen
      have hp : s.photos = [] := by
        rcases ih with h | h
        · simp [hm] at h
        · exact h
      simp [Event.actions, runActions, Action.apply, hp]
    | back =>
      have hm : s.mode = "create" ∨ s.mode = "join" := by
        simpa [Event.enabled, render_eq_create, render_eq_join] using hen
      have hp : s.photos = [] := by
        rcases ih with h | h
        · rcases hm with hm | hm <;> simp [hm] at h
        · exact h
      simp [Event.actions, runActions, Action.apply, hp]
    | typeHostName v => simpa [Event.actions, runActions, Action.apply] using ih
    | slideDuration n => simpa [Event.actions, runActions, Action.apply] using ih
    | typePartyCode v => simpa [Event.actions, runActions, Action.apply] using ih
    | typeUserName v => simpa [Event.actions, runActions, Action.apply] using ih
    | clickCreate r =>
      have hm : s.mode = "create" := by
        have := hen
        simp [Event.enabled, render_eq_create] at this
        exact this.1
      have hp : s.photos = [] := by
        rcases ih with h | h
        · simp [hm] at h
        · exact h
      have hc := runActions_checkPartyStatus_mode
      obtain ⟨rc, rj, rs, ru, rp⟩ := r
      simp only [Event.actions, handleCreateParty]
      split
      · simp [runActions, Action.apply, hp]
      · cases rc with
        | error e =>
          simp [runActions_append, runActions_cons, runActions_nil, Action.apply, hp]
        | ok res =>
          simp only [runActions_append, runActions_cons, runActions_nil, Action.apply]
          rcases hc { s with loading := true, error := "", partyCode := res.party_code,
                             userName := s.hostName, mode := "active" } s.partyCode
              ⟨.ok res, rj, rs, ru, rp⟩ with h | h
          · exact Or.inl h
          · exact Or.inr (by rw [h.2]; exact hp)
    | clickJoin r =>
      have hm : s.mode = "join" := by
        have := hen
        simp [Event.enabled, render_eq_join] at this
        exact this.1
      have hp : s.photos = [] := by
        rcases ih with h | h
        · simp [hm] at h
        · exact h
      have hc := runActions_checkPartyStatus_mode
      obtain ⟨rc, rj, rs, ru, rp⟩ := r
      simp only [Event.actions, handleJoinParty]
      split
      · simp [runActions, Action.apply, hp]
      · cases rj with
        | error e =>
          simp [runActions_append, runActions_cons, runActions_nil, Action.apply, hp]
        | ok res =>
          simp only [runActions_append, runActions_cons, runActions_nil, Action.apply]
          rcases hc { s with loading := true, error := "", mode := "active" } s.partyCode
              ⟨rc, .ok res, rs, ru, rp⟩ with h | h
          · exact Or.inl h
          · exact Or.inr (by rw [h.2]; exact hp)
    | poll r =>
      rcases runActions_checkPartyStatus_mode s s.partyCode r with h | h
      · exact Or.inl h
      · simp only [Event.actions]
        rw [h.1, h.2]
        exact ih
    | selectPhoto file r =>
      have hm : s.mode = "active" := by
        have := hen
        simp [Event.enabled, render_eq_active] at this
        exact this.1.1
      have hp : s.photos = [] := by
        rcases ih with h | h
        · simp [hm] at h
        · exact h
      have hc := runActions_checkPartyStatus_mode
      obtain ⟨rc, rj, rs, ru, rp⟩ := r
      simp only [Event.actions, handlePhotoUpload]
      cases file with
      | none => simp [runActions, hp]
      | some f =>
        simp only
        split
        · simp [runActions, Action.apply, hp]
        · cases ru with
          | error e =>
            simp [runActions_append, runActions_cons, runActions_nil, Action.apply, hp]
          | ok res =>
            simp only [runActions_append, runActions_cons, runActions_nil, Action.apply]
            rcases hc { s with loading := true, error := "" } s.partyCode
                ⟨rc, rj, rs, .ok res, rp⟩ with h | h
            · exact Or.inl h
            · exact Or.inr (by rw [h.2]; exact hp)
    | clickEnd r =>
      obtain ⟨rc, rj, rs, ru, rp⟩ := r
      cases rp <;>
        simp [Event.actions, handleEndParty, loadPhotos, runActions, Action.apply]
    | clickReset =>
      simp [Event.actions, handleReset, runActions, Action.apply]

/-- Whatever the state, the photo list is untouched as long as a handler has
requests to issue, and a handler requests the photo listing only once `mode`
has been set to "ended". -/
theorem photos_request_at (u : Char → List Char) (s : State) (e : Event) :
    ∀ tq ∈ requestsAt s (e.actions u s),
      tq.1.photos = s.photos ∧ (tq.2.isGetPartyPhotos = true → tq.1.mode = "ended") := by
  cases e with
  | chooseCreate => simp [Event.actions, requestsAt]
  | chooseJoin => simp [Event.actions, requestsAt]
  | back => simp [Event.actions, requestsAt]
  | typeHostName v => simp [Event.actions, requestsAt]
  | slideDuration n => simp [Event.actions, requestsAt]
  | typePartyCode v => simp [Event.actions, requestsAt]
  | typeUserName v => simp [Event.actions, requestsAt]
  | clickCreate r =>
    obtain ⟨rc, rj, rs, ru, rp⟩ := r
    simp only [Event.actions, handleCreateParty]
    split
    · simp [requestsAt]
    · cases rc with
      | error e => simp [requestsAt, Request.isGetPartyPhotos, Action.apply]
      | ok res =>
        cases rs with
        | error e => simp [requestsAt, requestsAt_append, checkPartyStatus,
            Request.isGetPartyPhotos, Action.apply]
        | ok st =>
          cases hst : st.has_ended <;> cases rp <;>
            simp [requestsAt, requestsAt_append, checkPartyStatus, loadPhotos,
              Request.isGetPartyPhotos, Action.apply, hst]
  | clickJoin r =>
    obtain ⟨rc, rj, rs, ru, rp⟩ := r
    simp only [Event.actions, handleJoinParty]
    split
    · simp [requestsAt]
    · cases rj with
      | error e => simp [requestsAt, Request.isGetPartyPhotos, Action.apply]
      | ok res =>
        cases rs with
        | error e => simp [requestsAt, requestsAt_append, checkPartyStatus,
            Request.isGetPartyPhotos, Action.apply]
        | ok st =>
          cases hst : st.has_ended <;> cases rp <;>
            simp [requestsAt, requestsAt_append, checkPartyStatus, loadPhotos,
              Request.isGetPartyPhotos, Action.apply, hst]
  | poll r =>
    obtain ⟨rc, rj, rs, ru, rp⟩ := r
    cases rs with
    | error e => simp [Event.actions, checkPartyStatus, requestsAt, Request.isGetPartyPhotos]
    | ok st =>
      cases hst : st.has_ended <;> cases rp <;>
        simp [Event.actions, checkPartyStatus, loadPhotos, requestsAt,
          Request.isGetPartyPhotos, Action.apply, hst]
  | selectPhoto file r =>
    obtain ⟨rc, rj, rs, ru, rp⟩ := r
    simp only [Event.actions, handlePhotoUpload]
    cases file with
    | none => simp [requestsAt]
    | some f =>
      simp only
      split
      · simp [requestsAt]
      · cases ru with
        | error e => simp [requestsAt, Request.isGetPartyPhotos, Action.apply]
        | ok res =>
          cases rs with
          | error e => simp [requestsAt, requestsAt_append, checkPartyStatus,
              Request.isGetPartyPhotos, Action.apply]
          | ok st =>
            cases hst : st.has_ended <;> cases rp <;>
              simp [requestsAt, requestsAt_append, checkPartyStatus, loadPhotos,
                Request.isGetPartyPhotos, Action.apply, hst]
  | clickEnd r =>
    obtain ⟨rc, rj, rs, ru, rp⟩ := r
    cases rp <;>
      simp [Event.actions, handleEndParty, loadPhotos, requestsAt, Action.apply,
        Request.isGetPartyPhotos]
  | clickReset => simp [Event.actions, handleReset, requestsAt, Action.apply]

/-- The ended screen only offers the reset. -/
theorem enabled_of_ended {s : State} {e : Event} (hm : s.mode = "ended")
    (hen : e.enabled s = true) : e = .clickReset := by
  cases e <;>
    simp [Event.enabled, render, endPartyAvailable, pollActive, hm] at hen ⊢

/-- The list of requests a run of `checkPartyStatus` ends with. -/
theorem requests_checkPartyStatus_cases (c : String) (r : Replies) :
    requests (checkPartyStatus c r) = [.getPartyStatus c] ∨
      requests (checkPartyStatus c r) = [.getPartyStatus c, .getPartyPhotos c] := by
  rw [requests_checkPartyStatus]
  obtain ⟨rc, rj, rs, ru, rp⟩ := r
  cases rs with
  | error e => simp
  | ok st => cases hst : st.has_ended <;> simp [hst]

theorem requests_handleCreateParty (s : State) (r : Replies) :
    requests (handleCreateParty s r) = [] ∨
      requests (handleCreateParty s r) = [.createParty s.hostName s.duration] ∨
      requests (handleCreateParty s r) =
        .createParty s.hostName s.duration :: requests (checkPartyStatus s.partyCode r) := by
  obtain ⟨rc, rj, rs, ru, rp⟩ := r
  unfold handleCreateParty
  split
  · simp [requests]
  · cases rc <;> simp [requests, requests_append]

theorem requests_handleJoinParty (u : Char → List Char) (s : State) (r : Replies) :
    requests (handleJoinParty u s r) = [] ∨
      requests (handleJoinParty u s r) =
        [.joinParty (toUpperCase u s.partyCode) s.userName] ∨
      requests (handleJoinParty u s r) =
        .joinParty (toUpperCase u s.partyCode) s.userName ::
          requests (checkPartyStatus s.partyCode r) := by
  obtain ⟨rc, rj, rs, ru, rp⟩ := r
  unfold handleJoinParty
  split
  · simp [requests]
  · cases rj <;> simp [requests, requests_append]

theorem requests_handlePhotoUpload (s : State) (file : Option File) (r : Replies) :
    requests (handlePhotoUpload s file r) = [] ∨
      ∃ f, file = some f ∧
        (requests (handlePhotoUpload s file r) = [.uploadPhoto s.partyCode f s.userName] ∨
         requests (handlePhotoUpload s file r) =
          .uploadPhoto s.partyCode f s.userName ::
            requests (checkPartyStatus s.partyCode r)) := by
  obtain ⟨rc, rj, rs, ru, rp⟩ := r
  unfold handlePhotoUpload
  cases file with
  | none => simp [requests]
  | some f =>
    simp only
    split
    · simp [requests]
    · cases ru <;> simp [requests, requests_append]

theorem requests_handleEndParty (s : State) (r : Replies) :
    requests (handleEndParty s r) = [.getPartyPhotos s.partyCode] := by
  obtain ⟨rc, rj, rs, ru, rp⟩ := r
  cases rp <;> simp [handleEndParty, loadPhotos, requests]

set_option maxRecDepth 100000 in
theorem ascii_toUpper_table : ∀ n : Fin 128,
    (Char.ofNat n.val).toUpper.toNat < 128 ∧
      (Char.ofNat n.val).toUpper.toUpper = (Char.ofNat n.val).toUpper ∧
      (isCodeChar (Char.ofNat n.val) = true →
        (Char.ofNat n.val).toUpper = Char.ofNat n.val) := by
  decide

theorem ascii_toUpper (c : Char) (h : c.toNat < 128) :
    c.toUpper.toNat < 128 ∧ c.toUpper.toUpper = c.toUpper ∧
      (isCodeChar c = true → c.toUpper = c) := by
  have := ascii_toUpper_table ⟨c.toNat, h⟩
  simpa using this

theorem isCodeChar_ascii {c : Char} (h : isCodeChar c = true) : c.toNat < 128 := by
  simp [isCodeChar] at h
  omega

theorem upperCodePoint_codeChar (u : Char → List Char) {c : Char}
    (h : isCodeChar c = true) : upperCodePoint u c = [c] := by
  have ha := isCodeChar_ascii h
  simp [upperCodePoint, ha, (ascii_toUpper c ha).2.2 h]

theorem upperCodePoint_stable {u : Char → List Char} (hu : UpperStable u) (c : Char) :
    (upperCodePoint u c).flatMap (upperCodePoint u) = upperCodePoint u c := by
  by_cases ha : c.toNat < 128
  · obtain ⟨h1, h2, _⟩ := ascii_toUpper c ha
    simp [upperCodePoint, ha, h1, h2]
  · have := hu c (Nat.le_of_not_lt ha)
    simpa [upperCodePoint, ha] using this

theorem upperStable_upperAsciiOnly : UpperStable upperAsciiOnly := by
  intro c hc
  have : ¬ c.toNat < 128 := Nat.not_lt.mpr hc
  simp [upperAsciiOnly, upperCodePoint, this]

/-- Uppercasing an uppercased string changes nothing. -/
theorem toUpperCase_idem {u : Char → List Char} (hu : UpperStable u) (s : String) :
    toUpperCase u (toUpperCase u s) = toUpperCase u s := by
  unfold toUpperCase
  congr 1
  simp only []
  rw [List.flatMap_assoc]
  exact List.flatMap_congr fun c _ => upperCodePoint_stable hu c

/-- A string of code characters is its own uppercase form. -/
theorem toUpperCase_codeChars (u : Char → List Char) (s : String)
    (h : ∀ c ∈ s.data, isCodeChar c = true) : toUpperCase u s = s := by
  unfold toUpperCase
  have : s.data.flatMap (upperCodePoint u) = s.data.flatMap (fun c => [c]) :=
    List.flatMap_congr fun c hc => upperCodePoint_codeChar u (h c hc)
  rw [this, List.flatMap_singleton']

theorem toUpperCase_sameUpToCase (u : Char → List Char) (a b : String)
    (h : sameUpToCase u a b) : toUpperCase u a = toUpperCase u b := by
  have key : ∀ l m : List Char,
      List.Forall₂ (fun x y => upperCodePoint u x = upperCodePoint u y) l m →
        l.flatMap (upperCodePoint u) = m.flatMap (upperCodePoint u) := by
    intro l m hlm
    induction hlm with
    | nil => rfl
    | cons hxy _ ih => simp [List.flatMap_cons, hxy, ih]
  unfold toUpperCase
  congr 1
  exact key _ _ h

/-- The handlers other than `handleCreateParty` never write `partyCode`;
`handleCreateParty` writes the code of a successful `createParty` reply. -/
theorem runActions_partyCode (u : Char → List Char) (s : State) (r : Replies)
    (file : Option File) :
    ((runActions s (handleCreateParty s r)).partyCode = s.partyCode ∨
      ∃ res, r.create = .ok res ∧
        (runActions s (handleCreateParty s r)).partyCode = res.party_code) ∧
    (runActions s (handleJoinParty u s r)).partyCode = s.partyCode ∧
    (runActions s (handlePhotoUpload s file r)).partyCode = s.partyCode ∧
    (runActions s (handleEndParty s r)).partyCode = s.partyCode := by
  have hf := runActions_checkPartyStatus_frame
  obtain ⟨rc, rj, rs, ru, rp⟩ := r
  refine ⟨?_, ?_, ?_, ?_⟩
  · unfold handleCreateParty
    split
    · simp [runActions, Action.apply]
    · cases rc <;>
        simp [runActions_append, runActions_cons, runActions_nil, Action.apply, hf]
  · unfold handleJoinParty
    split
    · simp [runActions, Action.apply]
    · cases rj <;>
        simp [runActions_append, runActions_cons, runActions_nil, Action.apply, hf]
  · unfold handlePhotoUpload
    cases file with
    | none => simp [runActions]
    | some f =>
      simp only
      split
      · simp [runActions, Action.apply]
      · cases ru <;>
          simp [runActions_append, runActions_cons, runActions_nil, Action.apply, hf]
  · cases rp <;> simp [handleEndParty, loadPhotos, runActions, Action.apply]

/-- The mode after a handler is the mode before it, "active" or "ended". -/
theorem runActions_mode_cases (u : Char → List Char) (s : State) (r : Replies)
    (file : Option File) :
    ((runActions s (handleCreateParty s r)).mode = s.mode ∨
      (runActions s (handleCreateParty s r)).mode = "active" ∨
      (runActions s (handleCreateParty s r)).mode = "ended") ∧
    ((runActions s (handleJoinParty u s r)).mode = s.mode ∨
      (runActions s (handleJoinParty u s r)).mode = "active" ∨
      (runActions s (handleJoinParty u s r)).mode = "ended") ∧
    ((runActions s (handlePhotoUpload s file r)).mode = s.mode ∨
      (runActions s (handlePhotoUpload s file r)).mode = "ended") ∧
    (runActions s (handleEndParty s r)).mode = "ended" := by
  have hc := runActions_checkPartyStatus_mode
  obtain ⟨rc, rj, rs, ru, rp⟩ := r
  refine ⟨?_, ?_, ?_, ?_⟩
  · unfold handleCreateParty
    split
    · simp [runActions, Action.apply]
    · cases rc with
      | error e =>
        simp [runActions_append, runActions_cons, runActions_nil, Action.apply]
      | ok res =>
        simp only [runActions_append, runActions_cons, runActions_nil, Action.apply]
        rcases hc { s with loading := true, error := "", partyCode := res.party_code,
                           userName := s.hostName, mode := "active" } s.partyCode
            ⟨.ok res, rj, rs, ru, rp⟩ with h | h
        · exact Or.inr (Or.inr h)
        · exact Or.inr (Or.inl h.1)
  · unfold handleJoinParty
    split
    · simp [runActions, Action.apply]
    · cases rj with
      | error e =>
        simp [runActions_append, runActions_cons, runActions_nil, Action.apply]
      | ok res =>
        simp only [runActions_append, runActions_cons, runActions_nil, Action.apply]
        rcases hc { s with loading := true, error := "", mode := "active" } s.partyCode
            ⟨rc, .ok res, rs, ru, rp⟩ with h | h
        · exact Or.inr (Or.inr h)
        · exact Or.inr (Or.inl h.1)
  · unfold handlePhotoUpload
    cases file with
    | none => simp [runActions]
    | some f =>
      simp only
      split
      · simp [runActions, Action.apply]
      · cases ru with
        | error e =>
          simp [runActions_append, runActions_cons, runActions_nil, Action.apply]
        | ok res =>
          simp only [runActions_append, runActions_cons, runActions_nil, Action.apply]
          rcases hc { s with loading := true, error := "" } s.partyCode
              ⟨rc, rj, rs, .ok res, rp⟩ with h | h
          · exact Or.inr h
          · exact Or.inl h.1
  · cases rp <;> simp [handleEndParty, loadPhotos, runActions, Action.apply]

/-- Between two events the mode is one of the five listed values. -/
theorem reachable_mode {u : Char → List Char} {s : State} (h : Reachable u s) :
    s.mode ∈ modes := by
  induction h with
  | init => simp [State.init, modes]
  | @step s t e _ hstep ih =>
    obtain ⟨hen, rfl⟩ := step_eq_some hstep
    have hm := runActions_mode_cases u s
    cases e with
    | chooseCreate => simp [Event.actions, runActions, Action.apply, modes]
    | chooseJoin => simp [Event.actions, runActions, Action.apply, modes]
    | back => simp [Event.actions, runActions, Action.apply, modes]
    | typeHostName v => simpa [Event.actions, runActions, Action.apply] using ih
    | slideDuration n => simpa [Event.actions, runActions, Action.apply] using ih
    | typePartyCode v => simpa [Event.actions, runActions, Action.apply] using ih
    | typeUserName v => simpa [Event.actions, runActions, Action.apply] using ih
    | clickCreate r =>
      simp only [Event.actions]
      rcases (hm r none).1 with h | h | h
      · rw [h]; exact ih
      · rw [h]; simp [modes]
      · rw [h]; simp [modes]
    | clickJoin r =>
      simp only [Event.actions]
      rcases (hm r none).2.1 with h | h | h
      · rw [h]; exact ih
      · rw [h]; simp [modes]
      · rw [h]; simp [modes]
    | poll r =>
      simp only [Event.actions]
      rcases runActions_checkPartyStatus_mode s s.partyCode r with h | h
      · rw [h]; simp [modes]
      · rw [h.1]; exact ih
    | selectPhoto file r =>
      simp only [Event.actions]
      rcases (hm r file).2.2.1 with h | h
      · rw [h]; exact ih
      · rw [h]; simp [modes]
    | clickEnd r =>
      simp only [Event.actions]
      rw [(hm r none).2.2.2]
      simp [modes]
    | clickReset => simp [Event.actions, handleReset, runActions, Action.apply, modes]

theorem getLast?_cons_append_pair (x a b : Action) (l : List Action) :
    (x :: (l ++ [a, b])).getLast? = some b := by
  have h : x :: (l ++ [a, b]) = (x :: l ++ [a]) ++ [b] := by simp
  rw [h, List.getLast?_concat]

/-- A click on an option is offered on the question screen for the options of
the current question; it appends the index to the answers and moves to the
next question. -/
theorem moodStep_clickOption {s t : MoodState} {i : Nat}
    (h : moodStep s (.clickOption i) = some t) :
    moodRender s = .question ∧
    (∃ q, s.questions[s.currentQuestion]? = some q ∧ i < q.options.length) ∧
    t = { s with answers := s.answers ++ [i], currentQuestion := s.currentQuestion + 1 } := by
  unfold moodStep at h
  by_cases hen : (MoodEvent.clickOption i).enabled s = true
  · simp only [hen, if_true, Option.some.injEq] at h
    simp only [MoodEvent.enabled, Bool.and_eq_true, beq_iff_eq] at hen
    obtain ⟨hv, hopt⟩ := hen
    cases hq : s.questions[s.currentQuestion]? with
    | none => simp [hq] at hopt
    | some q =>
      simp only [hq, decide_eq_true_eq] at hopt
      have hlt : s.currentQuestion < s.questions.length := by
        rcases List.getElem?_eq_some.mp hq with ⟨hlt, _⟩
        exact hlt
      refine ⟨hv, ⟨q, rfl, hopt⟩, ?_⟩
      rw [← h]
      simp only [MoodEvent.actions, handleAnswer]
      split
      · simp [runMoodActions, MoodAction.apply]
      · rename_i hnot
        have : s.questions.length = s.currentQuestion + 1 := by omega
        simp [runMoodActions, MoodAction.apply, this]
  · simp [hen] at h

/-- A run of option clicks during a quiz: the indices clicked are appended to
the answers in order, each is an option of the question it answers, and the
quiz has advanced by as many questions. -/
theorem runMoodEvents_clickOptions (idxs : List Nat) :
    ∀ (s t : MoodState) (k : Nat), QuizAt s k →
      runMoodEvents s (idxs.map .clickOption) = some t →
      QuizAt t (k + idxs.length) ∧ t.questions = s.questions ∧
      t.answers = s.answers ++ idxs ∧
      (∀ (j v : Nat), idxs[j]? = some v →
        ∃ q, s.questions[k + j]? = some q ∧ v < q.options.length) := by
  induction idxs with
  | nil =>
    intro s t k hs h
    simp [runMoodEvents] at h
    subst h
    simpa using hs
  | cons i idxs ih =>
    intro s t k hs h
    simp only [List.map_cons, runMoodEvents] at h
    cases hstep : moodStep s (.clickOption i) with
    | none => simp [hstep] at h
    | some m =>
      simp only [hstep, Option.bind_some] at h
      obtain ⟨_, ⟨q, hq, hi⟩, hm⟩ := moodStep_clickOption hstep
      obtain ⟨h1, h2, h3, h4, h5, h6⟩ := hs
      have hlt : s.currentQuestion < s.questions.length := by
        rcases List.getElem?_eq_some.mp hq with ⟨hlt, _⟩
        exact hlt
      have hmq : QuizAt m (k + 1) := by
        subst hm
        refine ⟨h1, h2, h3, ?_, ?_, ?_⟩
        · simp [h4]
        · simp [h5]
        · simp only
          omega
      obtain ⟨r1, r2, r3, r4⟩ := ih m t (k + 1) hmq h
      have hmqs : m.questions = s.questions := by subst hm; rfl
      have hma : m.answers = s.answers ++ [i] := by subst hm; rfl
      refine ⟨?_, ?_, ?_, ?_⟩
      · have : k + (i :: idxs).length = k + 1 + idxs.length := by simp; omega
        rw [this]
        exact r1
      · rw [r2, hmqs]
      · rw [r3, hma]
        simp
      · intro j v hjv
        cases j with
        | zero =>
          simp at hjv
          subst hjv
          exact ⟨q, by simpa [h4] using hq, hi⟩
        | succ j =>
          simp at hjv
          obtain ⟨q2, hq2, hv⟩ := r4 j v hjv
          refine ⟨q2, ?_, hv⟩
          rw [hmqs] at hq2
          have : k + (j + 1) = k + 1 + j := by omega
          rw [this]
          exact hq2

/-- Option clicks that pick an option of each question in turn are all
offered. -/
theorem runMoodEvents_clickOptions_some (idxs : List Nat) :
    ∀ (s : MoodState) (k : Nat), QuizAt s k →
      (∀ (j v : Nat), idxs[j]? = some v →
        ∃ q, s.questions[k + j]? = some q ∧ v < q.options.length) →
      ∃ t, runMoodEvents s (idxs.map .clickOption) = some t := by
  induction idxs with
  | nil =>
    intro s k _ _
    exact ⟨s, rfl⟩
  | cons i idxs ih =>
    intro s k hs hopt
    obtain ⟨h1, h2, h3, h4, h5, h6⟩ := hs
    obtain ⟨q, hq, hi⟩ := hopt 0 i (by simp)
    simp only [Nat.add_zero] at hq
    have hlt : k < s.questions.length := by
      rcases List.getElem?_eq_some.mp hq with ⟨hlt, _⟩
      exact hlt
    have hne : s.currentQuestion ≠ s.questions.length := by omega
    have hne2 : ¬ k = s.questions.length := by omega
    have hen : (MoodEvent.clickOption i).enabled s = true := by
      simp [MoodEvent.enabled, moodRender, h1, h2, h3, h4, hne2, hq, hi]
    have hstep : moodStep s (.clickOption i) =
        some (runMoodActions s ((MoodEvent.clickOption i).actions s)) := by
      simp [moodStep, hen]
    obtain ⟨_, _, hm⟩ := moodStep_clickOption hstep
    have hmq : QuizAt (runMoodActions s ((MoodEvent.clickOption i).actions s)) (k + 1) := by
      rw [hm]
      refine ⟨h1, h2, h3, ?_, ?_, ?_⟩
      · simp [h4]
      · simp [h5]
      · simp only
        omega
    have hopt2 : ∀ (j v : Nat), idxs[j]? = some v →
        ∃ q, (runMoodActions s ((MoodEvent.clickOption i).actions s)).questions[k + 1 + j]?
          = some q ∧ v < q.options.length := by
      intro j v hjv
      obtain ⟨q2, hq2, hv⟩ := hopt (j + 1) v (by simpa using hjv)
      refine ⟨q2, ?_, hv⟩
      rw [hm]
      have : k + 1 + j = k + (j + 1) := by omega
      rw [this]
      exact hq2
    obtain ⟨t, ht⟩ := ih _ (k + 1) hmq hopt2
    exact ⟨t, by simp [runMoodEvents, hstep, ht]⟩

theorem codeAlphabet_codeChar : ∀ n : Fin 36,
    isCodeChar (codeAlphabet.getD n.val 'A') = true := by
  decide

/-- Every code the generator yields matches `[A-Z0-9]{6}`. -/
theorem generate_canonical (draws : List Nat) :
    isCanonicalCode (CodeGenerator.generate draws) := by
  constructor
  · simp [CodeGenerator.generate]
  · intro c hc
    simp only [CodeGenerator.generate, List.mem_map] at hc
    obtain ⟨i, _, rfl⟩ := hc
    exact codeAlphabet_codeChar ⟨draws.getD i 0 % 36, Nat.mod_lt _ (by decide)⟩

/-- The code the retry loop settles on is a generated code outside the live
code set. -/
theorem freshCode_eq_some (codes : List String) (rs : List (List Nat)) (c : String)
    (h : PartyRegistry.freshCode codes rs = some c) :
    c ∉ codes ∧ ∃ d ∈ rs, c = CodeGenerator.generate d := by
  induction rs with
  | nil => simp [PartyRegistry.freshCode] at h
  | cons d ds ih =>
    simp only [PartyRegistry.freshCode] at h
    by_cases hmem : CodeGenerator.generate d ∈ codes
    · simp only [hmem, if_true] at h
      obtain ⟨h1, d2, hd2, h2⟩ := ih h
      exact ⟨h1, d2, List.mem_cons_of_mem _ hd2, h2⟩
    · simp only [hmem, if_false, Option.some.injEq] at h
      subst h
      exact ⟨hmem, d, List.mem_cons_self _ _, rfl⟩

/-- The retry loop ends with a code as soon as one draw does not collide. -/
theorem freshCode_isSome (codes : List String) (rs : List (List Nat))
    (h : ∃ d ∈ rs, CodeGenerator.generate d ∉ codes) :
    ∃ c, PartyRegistry.freshCode codes rs = some c := by
  induction rs with
  | nil =>
    obtain ⟨d, hd, _⟩ := h
    simp at hd
  | cons d ds ih =>
    simp only [PartyRegistry.freshCode]
    by_cases hmem : CodeGenerator.generate d ∈ codes
    · simp only [hmem, if_true]
      apply ih
      obtain ⟨d2, hd2, hfresh⟩ := h
      rcases List.mem_cons.mp hd2 with rfl | hd2
      · exact absurd hmem hfresh
      · exact ⟨d2, hd2, hfresh⟩
    · exact ⟨CodeGenerator.generate d, by simp [hmem]⟩

/-- After a successful `createParty` the page holds the code of the reply. -/
theorem runActions_handleCreateParty_code (s : State) (r : Replies) (res : CreateResult)
    (hn : ¬ isBlank s.hostName) (hr : r.create = .ok res) :
    (runActions s (handleCreateParty s r)).partyCode = res.party_code ∧
    (requests (handleCreateParty s r)).head? = some (.createParty s.hostName s.duration) := by
  have ht := (truthy_jsTrim_eq_true s.hostName).mpr hn
  have hf := runActions_checkPartyStatus_frame
  obtain ⟨rc, rj, rs, ru, rp⟩ := r
  simp only at hr
  subst hr
  simp [handleCreateParty, ht, runActions_append, runActions_cons, runActions_nil,
    Action.apply, hf, requests]

/-- A party that is ended stays ended as time passes. -/
theorem isEnded_mono {p : Party} {now later : Nat} (h : p.isEnded now = true)
    (hl : now ≤ later) : p.isEnded later = true := by
  simp only [Party.isEnded, Bool.or_eq_true, decide_eq_true_eq] at h ⊢
  rcases h with h | h
  · exact Or.inl h
  · exact Or.inr (Nat.le_trans h hl)

/-- On the service, an ended party refuses joins and uploads with `PartyEnded`
and its photos can be listed, at the time it is seen ended and ever after. -/
theorem ended_party_refuses (reg : Registry) (code : String) (p : Party) (now later : Nat)
    (hfind : PartyRegistry.find reg code = some p) (hend : p.isEnded now = true)
    (hl : now ≤ later) (userName : String) (assetRef size : Nat) :
    PartyRegistry.join reg later code userName = .error .PartyEnded ∧
    PhotoStore.upload reg later code userName assetRef size = .error .PartyEnded ∧
    PhotoStore.list reg later code = .ok p.photos := by
  have h := isEnded_mono hend hl
  simp [PartyRegistry.join, PhotoStore.upload, PhotoStore.list, hfind, h]

theorem replaceTrailingSlashList_append_slash (l : List Char) :
    replaceTrailingSlashList (l ++ ['/']) = l := by
  induction l with
  | nil => simp [replaceTrailingSlashList]
  | cons c cs ih => simp [replaceTrailingSlashList, ih]

theorem replaceTrailingSlashList_of_not_slash (l : List Char)
    (h : l.getLast? ≠ some '/') : replaceTrailingSlashList l = l := by
  induction l with
  | nil => rfl
  | cons c cs ih =>
    cases cs with
    | nil =>
      have hc : c ≠ '/' := by
        intro hc
        apply h
        simp [hc]
      simp [replaceTrailingSlashList, hc]
    | cons d ds =>
      have h2 : (d :: ds).getLast? ≠ some '/' := by
        intro h2
        apply h
        rw [List.getLast?_cons_cons]
        exact h2
      simp only [replaceTrailingSlashList] at ih ⊢
      simp [ih h2]

theorem truthy_eq_true_iff (s : String) : truthy s = true ↔ s ≠ "" := by
  simp [truthy]

theorem afterNextSlide_eq (s : MoodState) :
    afterNextSlide s =
      { s with currentSlide := Int.tmod (s.currentSlide + 1) (slideCount s) } := rfl

theorem afterPrevSlide_eq (s : MoodState) :
    afterPrevSlide s =
      { s with currentSlide :=
          Int.tmod (s.currentSlide - 1 + slideCount s) (slideCount s) } := rfl

/-- On an index of a list of `n ≥ 1` slides, `(c + 1) % n` of JavaScript is the
mathematical remainder, an index again. -/
theorem nextSlide_index (c : Int) (n : Nat) (hn : 1 ≤ n) (h0 : 0 ≤ c) :
    Int.tmod (c + 1) n = (c + 1) % (n : Int) ∧ 0 ≤ (c + 1) % (n : Int) ∧
      (c + 1) % (n : Int) < n := by
  have hn0 : (0 : Int) < n := by omega
  refine ⟨Int.tmod_eq_emod (by omega) (by omega), Int.emod_nonneg _ (by omega),
    Int.emod_lt_of_pos _ hn0⟩

/-- On an index of a list of `n ≥ 1` slides, `(c - 1 + n) % n` of JavaScript is
the mathematical remainder, an index again. -/
theorem prevSlide_index (c : Int) (n : Nat) (hn : 1 ≤ n) (h0 : 0 ≤ c) :
    Int.tmod (c - 1 + n) n = (c - 1 + n) % (n : Int) ∧ 0 ≤ (c - 1 + n) % (n : Int) ∧
      (c - 1 + n) % (n : Int) < n := by
  have hn0 : (0 : Int) < n := by omega
  refine ⟨Int.tmod_eq_emod (by omega) (by omega), Int.emod_nonneg _ (by omega),
    Int.emod_lt_of_pos _ hn0⟩

/-- The state after `k` clicks on the right arrow. -/
theorem iterate_afterNextSlide (s : MoodState) (n : Nat) (hn : 1 ≤ n)
    (hc : slideCount s = n) (h0 : 0 ≤ s.currentSlide) (k : Nat) :
    afterNextSlide^[k] s =
      { s with currentSlide := if k = 0 then s.currentSlide
                               else (s.currentSlide + k) % (n : Int) } := by
  induction k with
  | zero => simp
  | succ k ih =>
    rw [Function.iterate_succ_apply', ih, afterNextSlide_eq]
    have hcount : slideCount { s with currentSlide := if k = 0 then s.currentSlide
        else (s.currentSlide + k) % (n : Int) } = n := hc
    rw [hcount]
    simp only [Nat.succ_ne_zero, if_false]
    have hn0 : (0 : Int) < n := by omega
    by_cases hk : k = 0
    · subst hk
      simp only [if_true]
      rw [(nextSlide_index s.currentSlide n hn h0).1]
      simp
    · simp only [hk, if_false]
      have hnn : 0 ≤ (s.currentSlide + k) % (n : Int) := Int.emod_nonneg _ (by omega)
      rw [(nextSlide_index _ n hn hnn).1, Int.emod_add_emod]
      congr 2
      push_cast
      ring

theorem moodStep_eq_some {s t : MoodState} {e : MoodEvent} (h : moodStep s e = some t) :
    e.enabled s = true ∧ t = runMoodActions s (e.actions s) := by
  unfold moodStep at h
  by_cases he : e.enabled s = true
  · simp [he] at h
    exact ⟨he, h.symm⟩
  · simp [he] at h

theorem moodReachable_of_runMoodEvents (es : List MoodEvent) :
    ∀ s t : MoodState, MoodReachable s → runMoodEvents s es = some t → MoodReachable t := by
  induction es with
  | nil =>
    intro s t hs h
    simp [runMoodEvents] at h
    exact h ▸ hs
  | cons e es ih =>
    intro s t hs h
    simp only [runMoodEvents] at h
    cases hstep : moodStep s e with
    | none => simp [hstep] at h
    | some m =>
      simp [hstep] at h
      exact ih m t (MoodReachable.step e hs hstep) h

theorem moodRender_loading {s : MoodState} : moodRender s = .loading ↔ s.loading = true := by
  unfold moodRender
  repeat' split
  all_goals simp_all

/-- Between two events the answers given so far are as many as the questions
passed, none beyond the last question, and nothing has been answered while the
page is loading. -/
theorem moodReachable_progress {s : MoodState} (h : MoodReachable s) :
    s.answers.length = s.currentQuestion ∧ s.currentQuestion ≤ s.questions.length ∧
      (s.loading = true → s.currentQuestion = 0) := by
  induction h with
  | init => simp [MoodState.init]
  | @step s t e _ hstep ih =>
    obtain ⟨h1, h2, h3⟩ := ih
    cases e with
    | questionsLoaded r =>
      obtain ⟨hen, rfl⟩ := moodStep_eq_some hstep
      have hl : s.loading = true := by
        simpa [MoodEvent.enabled, moodRender_loading] using hen
      have hz := h3 hl
      obtain ⟨rq, rs⟩ := r
      cases rq <;>
        simp [MoodEvent.actions, loadQuestions, runMoodActions, MoodAction.apply, h1, hz, h2]
    | clickOption i =>
      obtain ⟨hv, ⟨q, hq, _⟩, rfl⟩ := moodStep_clickOption hstep
      have hlt : s.currentQuestion < s.questions.length := by
        rcases List.getElem?_eq_some.mp hq with ⟨hlt, _⟩
        exact hlt
      have hl : s.loading = false := by
        cases hl : s.loading with
        | false => rfl
        | true =>
          rw [moodRender_loading.mpr hl] at hv
          cases hv
      refine ⟨by simp [h1], by simp only; omega, ?_⟩
      intro hl2
      simp only at hl2
      rw [hl] at hl2
      cases hl2
    | clickPreference pref r =>
      obtain ⟨hen, rfl⟩ := moodStep_eq_some hstep
      obtain ⟨rq, rs⟩ := r
      cases rs <;>
        simp [MoodEvent.actions, handlePreference, runMoodActions, MoodAction.apply, h1, h2]
    | clickNext =>
      obtain ⟨hen, rfl⟩ := moodStep_eq_some hstep
      simpa [MoodEvent.actions, nextSlide, runMoodActions, MoodAction.apply] using ⟨h1, h2, h3⟩
    | clickPrev =>
      obtain ⟨hen, rfl⟩ := moodStep_eq_some hstep
      simpa [MoodEvent.actions, prevSlide, runMoodActions, MoodAction.apply] using ⟨h1, h2, h3⟩
    | clickDot i =>
      obtain ⟨hen, rfl⟩ := moodStep_eq_some hstep
      simpa [MoodEvent.actions, runMoodActions, MoodAction.apply] using ⟨h1, h2, h3⟩
    | clickCard i =>
      obtain ⟨hen, rfl⟩ := moodStep_eq_some hstep
      simpa [MoodEvent.actions, runMoodActions, MoodAction.apply] using ⟨h1, h2, h3⟩
    | closeCard =>
      obtain ⟨hen, rfl⟩ := moodStep_eq_some hstep
      simpa [MoodEvent.actions, runMoodActions, MoodAction.apply] using ⟨h1, h2, h3⟩
    | clickRetake =>
      obtain ⟨hen, rfl⟩ := moodStep_eq_some hstep
      simp [MoodEvent.actions, resetQuiz, runMoodActions, MoodAction.apply]

/-- On the two screens of the quiz proper, the preference screen is the one
shown exactly when every question has been passed. -/
theorem onQuizScreen_preference_iff {s : MoodState} (h : onQuizScreen s) :
    moodRender s = .preference ↔ s.currentQuestion = s.questions.length := by
  unfold onQuizScreen at h
  unfold moodRender at h ⊢
  repeat' split at h
  all_goals simp_all

/-- A step of the quiz, an answer or a retake, leads to one of the two screens
of the quiz proper. -/
theorem onQuizScreen_of_quizStep {s t : MoodState} {e : MoodEvent}
    (hstep : moodStep s e = some t) (he : e.isQuizStep = true) : onQuizScreen t := by
  cases e with
  | clickOption i =>
    obtain ⟨hv, _, rfl⟩ := moodStep_clickOption hstep
    unfold onQuizScreen
    unfold moodRender at hv ⊢
    repeat' split at hv
    all_goals simp_all
    all_goals
      by_cases h : s.currentQuestion + 1 = s.questions.length <;> simp [h]
  | clickRetake =>
    obtain ⟨hen, rfl⟩ := moodStep_eq_some hstep
    simp only [MoodEvent.enabled, beq_iff_eq] at hen
    unfold onQuizScreen
    unfold moodRender at hen ⊢
    repeat' split at hen
    all_goals simp_all [MoodEvent.actions, resetQuiz, runMoodActions, MoodAction.apply]
    all_goals
      by_cases h : 0 = s.questions.length <;> simp [h]
  | questionsLoaded r => simp [MoodEvent.isQuizStep] at he
  | clickPreference pref r => simp [MoodEvent.isQuizStep] at he
  | clickNext => simp [MoodEvent.isQuizStep] at he
  | clickPrev => simp [MoodEvent.isQuizStep] at he
  | clickDot i => simp [MoodEvent.isQuizStep] at he
  | clickCard i => simp [MoodEvent.isQuizStep] at he
  | closeCard => simp [MoodEvent.isQuizStep] at he

theorem moodRender_results {s : MoodState} (h : moodRender s = .results) :
    s.suggestions.isSome = true := by
  unfold moodRender at h
  repeat' split at h
  all_goals simp_all

theorem moodRender_preference_suggestions {s : MoodState} (h : moodRender s = .preference) :
    s.suggestions = none := by
  unfold moodRender at h
  repeat' split at h
  all_goals simp_all

/-- Every step other than the retake keeps the slide cells fresh or valid. -/
theorem slidesFresh_step {s t : MoodState} {e : MoodEvent} (hs : slidesFresh s)
    (hstep : moodStep s e = some t) (he : e.isRetake = false) : slidesFresh t := by
  cases e with
  | questionsLoaded r =>
    obtain ⟨hen, rfl⟩ := moodStep_eq_some hstep
    have hl : s.loading = true := by
      simpa [MoodEvent.enabled, moodRender_loading] using hen
    obtain ⟨rq, rs⟩ := r
    unfold slidesFresh slidesValid slideCount at hs ⊢
    cases rq <;>
      simpa [MoodEvent.actions, loadQuestions, runMoodActions, MoodAction.apply] using hs
  | clickOption i =>
    obtain ⟨_, _, rfl⟩ := moodStep_clickOption hstep
    exact hs
  | clickPreference pref r =>
    obtain ⟨hen, rfl⟩ := moodStep_eq_some hstep
    have hv : moodRender s = .preference := by
      have := hen
      simp only [MoodEvent.enabled, Bool.and_eq_true, beq_iff_eq] at this
      exact this.1
    have hnone := moodRender_preference_suggestions hv
    have hleft : s.currentSlide = 0 ∧ s.selectedCard = none := by
      rcases hs with h | h
      · exact h
      · rw [hnone] at h
        simp at h
    obtain ⟨rq, rs⟩ := r
    left
    cases rs <;>
      simpa [MoodEvent.actions, handlePreference, runMoodActions, MoodAction.apply] using hleft
  | clickNext =>
    obtain ⟨hen, rfl⟩ := moodStep_eq_some hstep
    simp only [MoodEvent.enabled, Bool.and_eq_true, beq_iff_eq, decide_eq_true_eq] at hen
    obtain ⟨hv, hn⟩ := hen
    have hsome := moodRender_results hv
    have h0 : 0 ≤ s.currentSlide := by
      rcases hs with h | h
      · rw [h.1]
      · exact h.2.1
    have hcard : ∀ i : Nat, s.selectedCard = some i → i < slideCount s := by
      rcases hs with h | h
      · intro i hi
        rw [h.2] at hi
        cases hi
      · exact h.2.2.2
    obtain ⟨e1, e2, e3⟩ := nextSlide_index s.currentSlide (slideCount s) (by omega) h0
    right
    refine ⟨hsome, ?_, ?_, hcard⟩
    · show 0 ≤ Int.tmod (s.currentSlide + 1) (slideCount s)
      rw [e1]; exact e2
    · show Int.tmod (s.currentSlide + 1) (slideCount s) < (slideCount s : Int)
      rw [e1]; exact e3
  | clickPrev =>
    obtain ⟨hen, rfl⟩ := moodStep_eq_some hstep
    simp only [MoodEvent.enabled, Bool.and_eq_true, beq_iff_eq, decide_eq_true_eq] at hen
    obtain ⟨hv, hn⟩ := hen
    have hsome := moodRender_results hv
    have h0 : 0 ≤ s.currentSlide := by
      rcases hs with h | h
      · rw [h.1]
      · exact h.2.1
    have hcard : ∀ i : Nat, s.selectedCard = some i → i < slideCount s := by
      rcases hs with h | h
      · intro i hi
        rw [h.2] at hi
        cases hi
      · exact h.2.2.2
    obtain ⟨e1, e2, e3⟩ := prevSlide_index s.currentSlide (slideCount s) (by omega) h0
    right
    refine ⟨hsome, ?_, ?_, hcard⟩
    · show 0 ≤ Int.tmod (s.currentSlide - 1 + slideCount s) (slideCount s)
      rw [e1]; exact e2
    · show Int.tmod (s.currentSlide - 1 + slideCount s) (slideCount s) < (slideCount s : Int)
      rw [e1]; exact e3
  | clickDot i =>
    obtain ⟨hen, rfl⟩ := moodStep_eq_some hstep
    simp only [MoodEvent.enabled, Bool.and_eq_true, beq_iff_eq, decide_eq_true_eq] at hen
    obtain ⟨hv, hi⟩ := hen
    have hsome := moodRender_results hv
    have hcard : ∀ j : Nat, s.selectedCard = some j → j < slideCount s := by
      rcases hs with h | h
      · intro j hj
        rw [h.2] at hj
        cases hj
      · exact h.2.2.2
    right
    refine ⟨hsome, ?_, ?_, hcard⟩
    · show (0 : Int) ≤ (i : Int)
      omega
    · show (i : Int) < (slideCount s : Int)
      omega
  | clickCard i =>
    obtain ⟨hen, rfl⟩ := moodStep_eq_some hstep
    simp only [MoodEvent.enabled, Bool.and_eq_true, beq_iff_eq, decide_eq_true_eq] at hen
    obtain ⟨⟨hv, hi⟩, _⟩ := hen
    have hsome := moodRender_results hv
    have hslide : 0 ≤ s.currentSlide ∧ s.currentSlide < (slideCount s : Int) := by
      rcases hs with h | h
      · rw [h.1]
        exact ⟨le_refl _, by omega⟩
      · exact ⟨h.2.1, h.2.2.1⟩
    right
    refine ⟨hsome, hslide.1, hslide.2, ?_⟩
    intro j hj
    have : i = j := by
      simpa [MoodEvent.actions, runMoodActions, MoodAction.apply] using hj
    rw [← this]
    exact hi
  | closeCard =>
    obtain ⟨hen, rfl⟩ := moodStep_eq_some hstep
    rcases hs with h | h
    · left
      exact ⟨h.1, rfl⟩
    · right
      refine ⟨h.1, h.2.1, h.2.2.1, ?_⟩
      intro j hj
      simp [MoodEvent.actions, runMoodActions, MoodAction.apply] at hj
  | clickRetake => simp [MoodEvent.isRetake] at he

/-- As long as the quiz is not retaken, the results screen of a non-empty
suggestion list is shown with a valid slide in view and a valid open card. -/
theorem slidesValid_without_retake (es : List MoodEvent) :
    ∀ s t : MoodState, slidesFresh s → (∀ e ∈ es, e.isRetake = false) →
      runMoodEvents s es = some t →
      slidesFresh t ∧ (moodRender t = .results → 1 ≤ slideCount t → slidesValid t) := by
  induction es with
  | nil =>
    intro s t hs _ h
    simp [runMoodEvents] at h
    subst h
    refine ⟨hs, ?_⟩
    intro _ hcount
    rcases hs with h | h
    · refine ⟨by rw [h.1], by rw [h.1]; omega, ?_⟩
      intro i hi
      rw [h.2] at hi
      cases hi
    · exact h.2
  | cons e es ih =>
    intro s t hs hno h
    simp only [runMoodEvents] at h
    cases hstep : moodStep s e with
    | none => simp [hstep] at h
    | some m =>
      simp [hstep] at h
      exact ih m t (slidesFresh_step hs hstep (hno e (List.mem_cons_self _ _)))
        (fun e2 he2 => hno e2 (List.mem_cons_of_mem _ he2)) h

/-! ## Events and replies interleaved -/

theorem firstAwait_length {as : List Action} {k : Suspended} (h : firstAwait as = some k) :
    k.rest.length < as.length := by
  induction as with
  | nil => simp [firstAwait] at h
  | cons a as ih =>
    cases a <;> simp only [firstAwait] at h
    case request q =>
      cases h
      simp
    all_goals
      have := ih h
      simp only [List.length_cons]
      omega

theorem firstAwait_mem {as : List Action} {k : Suspended} (h : firstAwait as = some k) :
    ∀ a ∈ k.rest, a ∈ as := by
  induction as with
  | nil => simp [firstAwait] at h
  | cons a as ih =>
    cases a <;> simp only [firstAwait] at h
    case request q =>
      cases h
      intro a ha
      exact List.mem_cons_of_mem _ ha
    all_goals
      intro b hb
      exact List.mem_cons_of_mem _ (ih h b hb)

theorem beforeAwait_mem {as : List Action} : ∀ a ∈ beforeAwait as, a ∈ as := by
  induction as with
  | nil => simp [beforeAwait]
  | cons a as ih =>
    cases a <;> simp only [beforeAwait]
    case request q => simp
    all_goals
      intro b hb
      rcases List.mem_cons.mp hb with rfl | hb
      · exact List.mem_cons_self _ _
      · exact List.mem_cons_of_mem _ (ih b hb)

/-- Running a handler to its end is running it up to its next request and
then, the reply being there, running the rest. -/
theorem runActions_firstAwait (s : State) (as : List Action) :
    runActions s as =
      match firstAwait as with
      | none => runActions s (beforeAwait as)
      | some k => runActions (runActions s (beforeAwait as)) k.rest := by
  induction as generalizing s with
  | nil => rfl
  | cons a as ih =>
    cases a <;> simp only [firstAwait, beforeAwait, runActions_cons, runActions_nil]
    case request q => rfl
    all_goals exact ih _

theorem pageReachableVia_of_runMoves (u : Char → List Char) (ok : Event → Prop)
    (ms : List Move) :
    ∀ p q : Page, PageReachableVia u ok p → (∀ m ∈ ms, m.eventIs ok) →
      runMoves u p ms = some q → PageReachableVia u ok q := by
  induction ms with
  | nil =>
    intro p q hp _ h
    simp [runMoves] at h
    exact h ▸ hp
  | cons m ms ih =>
    intro p q hp hok h
    simp only [runMoves] at h
    cases hmove : pageMove u p m with
    | none => simp [hmove] at h
    | some r =>
      simp [hmove] at h
      exact ih r q (PageReachableVia.move m hp (hok m (List.mem_cons_self _ _)) hmove)
        (fun m2 hm2 => hok m2 (List.mem_cons_of_mem _ hm2)) h

theorem pageReachable_of_runMoves (u : Char → List Char) (ms : List Move) (q : Page)
    (h : runMoves u Page.init ms = some q) : PageReachable u q :=
  pageReachableVia_of_runMoves u _ ms Page.init q PageReachableVia.init
    (fun m _ => by cases m <;> trivial) h

/-- A handler whose replies arrive at once runs to its end. -/
theorem pageReachable_resume (u : Char → List Char) (n : Nat) :
    ∀ (as : List Action) (s : State) (pending : List Suspended), as.length ≤ n →
      PageReachable u (resume s pending as) →
      PageReachable u ⟨runActions s as, pending⟩ := by
  induction n with
  | zero =>
    intro as s pending hlen h
    have hnil : as = [] := List.length_eq_zero.mp (Nat.le_zero.mp hlen)
    subst hnil
    exact h
  | succ n ih =>
    intro as s pending hlen h
    rw [runActions_firstAwait]
    unfold resume at h
    cases hk : firstAwait as with
    | none =>
      simp only [hk] at h ⊢
      exact h
    | some k =>
      simp only [hk] at h ⊢
      have hlt := firstAwait_length hk
      apply ih k.rest _ pending (by omega)
      have hget : (pending ++ [k])[pending.length]? = some k :=
        List.getElem?_concat_length pending k
      have herase : (pending ++ [k]).eraseIdx pending.length = pending := by
        rw [List.eraseIdx_append_of_length_le (Nat.le_refl _)]
        simp
      have hmove : pageMove u ⟨runActions s (beforeAwait as), pending ++ [k]⟩
          (.reply pending.length) =
          some (resume (runActions s (beforeAwait as)) pending k.rest) := by
        simp only [pageMove, hget, herase]
      exact PageReachableVia.move (.reply pending.length) h trivial hmove

/-- Every state reached with prompt replies is the state of a page on which no
handler is suspended, reached by interleaved moves. -/
theorem reachable_pageReachable {u : Char → List Char} {s : State} (h : Reachable u s) :
    PageReachable u ⟨s, []⟩ := by
  induction h with
  | init => exact PageReachableVia.init
  | @step s t e _ hstep ih =>
    obtain ⟨hen, rfl⟩ := step_eq_some hstep
    apply pageReachable_resume u _ _ _ _ (Nat.le_refl _)
    have hmove : pageMove u ⟨s, []⟩ (.event e) = some (resume s [] (e.actions u s)) := by
      simp [pageMove, hen]
    exact PageReachableVia.move (.event e) ih trivial hmove

/-- A property of suspended handlers that the handlers of all events have when
they first suspend, and keep when they resume and suspend again, holds of
every suspended handler of a reachable page. -/
theorem pending_invariant {u : Char → List Char} {ok : Event → Prop}
    (G : Suspended → Prop)
    (hev : ∀ (s : State) (e : Event) (k : Suspended), ok e →
      firstAwait (e.actions u s) = some k → G k)
    (hre : ∀ k k2 : Suspended, G k → firstAwait k.rest = some k2 → G k2)
    {p : Page} (h : PageReachableVia u ok p) : ∀ k ∈ p.pending, G k := by
  induction h with
  | init =>
    intro k hk
    simp [Page.init] at hk
  | @move p q m _ hok hmove ih =>
    cases m with
    | event e =>
      simp only [pageMove] at hmove
      by_cases hen : e.enabled p.state = true
      · simp only [hen, if_true, Option.some.injEq] at hmove
        subst hmove
        intro k hk
        simp only [resume] at hk
        cases hf : firstAwait (e.actions u p.state) with
        | none =>
          simp only [hf] at hk
          exact ih k hk
        | some k2 =>
          simp only [hf, List.mem_append, List.mem_singleton] at hk
          rcases hk with hk | rfl
          · exact ih k hk
          · exact hev p.state e k hok hf
      · simp [hen] at hmove
    | reply i =>
      simp only [pageMove] at hmove
      cases hget : p.pending[i]? with
      | none => simp [hget] at hmove
      | some k0 =>
        simp only [hget, Option.some.injEq] at hmove
        subst hmove
        have hG0 : G k0 := ih k0 (List.getElem?_mem hget)
        intro k hk
        simp only [resume] at hk
        cases hf : firstAwait k0.rest with
        | none =>
          simp only [hf] at hk
          exact ih k (List.mem_of_mem_eraseIdx hk)
        | some k2 =>
          simp only [hf, List.mem_append, List.mem_singleton] at hk
          rcases hk with hk | rfl
          · exact ih k (List.mem_of_mem_eraseIdx hk)
          · exact hre k0 k hG0 hf

/-- A guarded handler that suspends at a photo listing has just set `mode` to
"ended", and what it does after the reply is guarded again. -/
theorem photosGuarded_firstAwait (as : List Action) :
    ∀ (m : Option String) (s : State) (k : Suspended), photosGuarded m as = true →
      (∀ v, m = some v → s.mode = v) → firstAwait as = some k →
      (k.awaited.isGetPartyPhotos = true → (runActions s (beforeAwait as)).mode = "ended") ∧
        photosGuarded none k.rest = true := by
  induction as with
  | nil =>
    intro m s k _ _ h
    simp [firstAwait] at h
  | cons a as ih =>
    intro m s k hg hm hk
    cases a with
    | setMode v =>
      simp only [photosGuarded] at hg
      simp only [firstAwait] at hk
      simp only [beforeAwait, runActions_cons]
      exact ih (some v) _ k hg (by intro w hw; cases hw; rfl) hk
    | request q =>
      simp only [photosGuarded, Bool.and_eq_true, Bool.or_eq_true, Bool.not_eq_true',
        beq_iff_eq] at hg
      simp only [firstAwait, Option.some.injEq] at hk
      subst hk
      refine ⟨?_, hg.2⟩
      intro hq
      simp only at hq
      rcases hg.1 with h | h
      · rw [hq] at h
        cases h
      · exact hm _ h
    | setPartyCode v =>
      simp only [photosGuarded] at hg
      simp only [firstAwait] at hk
      simp only [beforeAwait, runActions_cons]
      exact ih m _ k hg hm hk
    | setUserName v =>
      simp only [photosGuarded] at hg
      simp only [firstAwait] at hk
      simp only [beforeAwait, runActions_cons]
      exact ih m _ k hg hm hk
    | setPartyData v =>
      simp only [photosGuarded] at hg
      simp only [firstAwait] at hk
      simp only [beforeAwait, runActions_cons]
      exact ih m _ k hg hm hk
    | setTimeRemaining v =>
      simp only [photosGuarded] at hg
      simp only [firstAwait] at hk
      simp only [beforeAwait, runActions_cons]
      exact ih m _ k hg hm hk
    | setPhotos v =>
      simp only [photosGuarded] at hg
      simp only [firstAwait] at hk
      simp only [beforeAwait, runActions_cons]
      exact ih m _ k hg hm hk
    | setLoading v =>
      simp only [photosGuarded] at hg
      simp only [firstAwait] at hk
      simp only [beforeAwait, runActions_cons]
      exact ih m _ k hg hm hk
    | setError v =>
      simp only [photosGuarded] at hg
      simp only [firstAwait] at hk
      simp only [beforeAwait, runActions_cons]
      exact ih m _ k hg hm hk
    | setHostName v =>
      simp only [photosGuarded] at hg
      simp only [firstAwait] at hk
      simp only [beforeAwait, runActions_cons]
      exact ih m _ k hg hm hk
    | setDuration v =>
      simp only [photosGuarded] at hg
      simp only [firstAwait] at hk
      simp only [beforeAwait, runActions_cons]
      exact ih m _ k hg hm hk
    | alert msg =>
      simp only [photosGuarded] at hg
      simp only [firstAwait] at hk
      simp only [beforeAwait, runActions_cons]
      exact ih m _ k hg hm hk
    | resetFileInput =>
      simp only [photosGuarded] at hg
      simp only [firstAwait] at hk
      simp only [beforeAwait, runActions_cons]
      exact ih m _ k hg hm hk

theorem photosGuarded_checkPartyStatus (c : String) (r : Replies) (tail : List Action)
    (m : Option String) (h : photosGuarded none tail = true) :
    photosGuarded m (checkPartyStatus c r ++ tail) = true := by
  obtain ⟨rc, rj, rs, ru, rp⟩ := r
  cases rs with
  | error e => simpa [checkPartyStatus, photosGuarded, Request.isGetPartyPhotos] using h
  | ok st =>
    cases hst : st.has_ended <;> cases rp <;>
      simpa [checkPartyStatus, loadPhotos, photosGuarded, Request.isGetPartyPhotos, hst]
        using h

/-- The handler of every event is guarded: it requests the photo listing only
right after setting `mode` to "ended". -/
theorem photosGuarded_actions (u : Char → List Char) (s : State) (e : Event) :
    photosGuarded none (e.actions u s) = true := by
  have hc := photosGuarded_checkPartyStatus
  cases e with
  | chooseCreate => rfl
  | chooseJoin => rfl
  | back => rfl
  | typeHostName v => rfl
  | slideDuration n => rfl
  | typePartyCode v => rfl
  | typeUserName v => rfl
  | clickCreate r =>
    simp only [Event.actions, handleCreateParty]
    split
    · rfl
    · have h := hc s.partyCode r [.setLoading false] (some "active") rfl
      obtain ⟨rc, rj, rs, ru, rp⟩ := r
      cases rc with
      | error e => simp [photosGuarded, Request.isGetPartyPhotos]
      | ok res =>
        simpa [photosGuarded, Request.isGetPartyPhotos] using h
  | clickJoin r =>
    simp only [Event.actions, handleJoinParty]
    split
    · rfl
    · have h := hc s.partyCode r [.setLoading false] (some "active") rfl
      obtain ⟨rc, rj, rs, ru, rp⟩ := r
      cases rj with
      | error e => simp [photosGuarded, Request.isGetPartyPhotos]
      | ok res =>
        simpa [photosGuarded, Request.isGetPartyPhotos] using h
  | poll r =>
    have h := hc s.partyCode r [] none rfl
    simpa [Event.actions] using h
  | selectPhoto file r =>
    simp only [Event.actions, handlePhotoUpload]
    cases file with
    | none => rfl
    | some f =>
      simp only
      split
      · rfl
      · have h := hc s.partyCode r [.setLoading false, .resetFileInput] none rfl
        obtain ⟨rc, rj, rs, ru, rp⟩ := r
        cases ru with
        | error e => simp [photosGuarded, Request.isGetPartyPhotos]
        | ok res =>
          simpa [photosGuarded, Request.isGetPartyPhotos] using h
  | clickEnd r =>
    obtain ⟨rc, rj, rs, ru, rp⟩ := r
    cases rp <;>
      simp [Event.actions, handleEndParty, loadPhotos, photosGuarded,
        Request.isGetPartyPhotos]
  | clickReset => rfl

/-- On every reachable page, what a suspended handler does after the reply is
guarded. -/
theorem pending_photosGuarded {u : Char → List Char} {ok : Event → Prop} {p : Page}
    (h : PageReachableVia u ok p) : ∀ k ∈ p.pending, photosGuarded none k.rest = true :=
  pending_invariant (fun k => photosGuarded none k.rest = true)
    (fun s e k _ hk =>
      (photosGuarded_firstAwait _ none s k (photosGuarded_actions u s e)
        (by intro v hv; cases hv) hk).2)
    (fun k k2 hG hk =>
      (photosGuarded_firstAwait _ none State.init k2 hG (by intro v hv; cases hv) hk).2)
    h

/-- What a mode-guarded handler does after its next reply is mode-guarded for
the request it awaited. -/
theorem modeGuarded_firstAwait (as : List Action) :
    ∀ (b : Bool) (k : Suspended), modeGuarded b as = true → firstAwait as = some k →
      modeGuarded k.awaited.opensParty k.rest = true := by
  induction as with
  | nil =>
    intro b k _ h
    simp [firstAwait] at h
  | cons a as ih =>
    intro b k hg hk
    cases a
    case request q =>
      simp only [modeGuarded] at hg
      simp only [firstAwait, Option.some.injEq] at hk
      subst hk
      exact hg
    all_goals
      simp only [modeGuarded, firstAwait, Bool.and_eq_true] at hg hk
      first
        | exact ih b k hg hk
        | exact ih b k hg.2 hk

/-- A handler that resumes on a reply other than the one to `createParty` or
`joinParty` leaves the mode "ended" and the party code and user name as they
are. -/
theorem modeGuarded_keeps_ended (as : List Action) :
    ∀ s : State, modeGuarded false as = true → s.mode = "ended" →
      (runActions s (beforeAwait as)).mode = "ended" ∧
      (runActions s (beforeAwait as)).partyCode = s.partyCode ∧
      (runActions s (beforeAwait as)).userName = s.userName := by
  induction as with
  | nil =>
    intro s _ hm
    exact ⟨hm, rfl, rfl⟩
  | cons a as ih =>
    intro s hg hm
    cases a
    case request q => exact ⟨hm, rfl, rfl⟩
    case setMode v =>
      simp only [modeGuarded, Bool.and_eq_true, Bool.or_eq_true, beq_iff_eq,
        Bool.false_and, Bool.false_eq_true, or_false] at hg
      simp only [beforeAwait, runActions_cons]
      have := ih (Action.apply s (.setMode v)) hg.2 (by simp [Action.apply, hg.1])
      simpa [Action.apply] using this
    case setPartyCode v => simp [modeGuarded] at hg
    case setUserName v => simp [modeGuarded] at hg
    all_goals
      simp only [modeGuarded] at hg
      simp only [beforeAwait, runActions_cons]
      exact ih _ hg hm

theorem modeGuarded_checkPartyStatus (c : String) (r : Replies) (tail : List Action)
    (b : Bool) (h : modeGuarded false tail = true) :
    modeGuarded b (checkPartyStatus c r ++ tail) = true := by
  obtain ⟨rc, rj, rs, ru, rp⟩ := r
  cases rs with
  | error e =>
    simpa [checkPartyStatus, modeGuarded, Request.opensParty, Request.isCreateParty,
      Request.isJoinParty] using h
  | ok st =>
    cases hst : st.has_ended <;> cases rp <;>
      simpa [checkPartyStatus, loadPhotos, modeGuarded, Request.opensParty,
        Request.isCreateParty, Request.isJoinParty, hst] using h

/-- The handler of every event, once suspended, is mode-guarded for the
request it awaits. -/
theorem modeGuarded_actions (u : Char → List Char) (s : State) (e : Event) (k : Suspended)
    (hk : firstAwait (e.actions u s) = some k) :
    modeGuarded k.awaited.opensParty k.rest = true := by
  have hc := modeGuarded_checkPartyStatus
  cases e with
  | chooseCreate => simp [Event.actions, firstAwait] at hk
  | chooseJoin => simp [Event.actions, firstAwait] at hk
  | back => simp [Event.actions, firstAwait] at hk
  | typeHostName v => simp [Event.actions, firstAwait] at hk
  | slideDuration n => simp [Event.actions, firstAwait] at hk
  | typePartyCode v => simp [Event.actions, firstAwait] at hk
  | typeUserName v => simp [Event.actions, firstAwait] at hk
  | clickCreate r =>
    simp only [Event.actions, handleCreateParty] at hk
    split at hk
    · simp [firstAwait] at hk
    · have h := hc s.partyCode r [.setLoading false] true rfl
      simp only [List.cons_append, List.nil_append, firstAwait, Option.some.injEq] at hk
      subst hk
      obtain ⟨rc, rj, rs, ru, rp⟩ := r
      cases rc with
      | error e => simp [modeGuarded, Request.opensParty, Request.isCreateParty]
      | ok res =>
        simpa [modeGuarded, Request.opensParty, Request.isCreateParty] using h
  | clickJoin r =>
    simp only [Event.actions, handleJoinParty] at hk
    split at hk
    · simp [firstAwait] at hk
    · have h := hc s.partyCode r [.setLoading false] true rfl
      simp only [List.cons_append, List.nil_append, firstAwait, Option.some.injEq] at hk
      subst hk
      obtain ⟨rc, rj, rs, ru, rp⟩ := r
      cases rj with
      | error e =>
        simp [modeGuarded, Request.opensParty, Request.isCreateParty, Request.isJoinParty]
      | ok res =>
        simpa [modeGuarded, Request.opensParty, Request.isCreateParty, Request.isJoinParty]
          using h
  | poll r =>
    have h := hc s.partyCode r [] false rfl
    simp only [List.append_nil] at h
    exact modeGuarded_firstAwait _ false k h (by simpa [Event.actions] using hk)
  | selectPhoto file r =>
    simp only [Event.actions, handlePhotoUpload] at hk
    cases file with
    | none => simp [firstAwait] at hk
    | some f =>
      simp only at hk
      split at hk
      · simp [firstAwait] at hk
      · have h := hc s.partyCode r [.setLoading false, .resetFileInput] false rfl
        simp only [List.cons_append, List.nil_append, firstAwait, Option.some.injEq] at hk
        subst hk
        obtain ⟨rc, rj, rs, ru, rp⟩ := r
        cases ru with
        | error e =>
          simp [modeGuarded, Request.opensParty, Request.isCreateParty, Request.isJoinParty]
        | ok res =>
          simpa [modeGuarded, Request.opensParty, Request.isCreateParty,
            Request.isJoinParty] using h
  | clickEnd r =>
    obtain ⟨rc, rj, rs, ru, rp⟩ := r
    cases rp <;>
      simp only [Event.actions, handleEndParty, loadPhotos, firstAwait,
        Option.some.injEq] at hk <;>
      subst hk <;>
      simp [modeGuarded, Request.opensParty, Request.isCreateParty, Request.isJoinParty]
  | clickReset => simp [Event.actions, handleReset, firstAwait] at hk

/-- On every reachable page each suspended handler is mode-guarded for the
request it awaits. -/
theorem pending_modeGuarded {u : Char → List Char} {ok : Event → Prop} {p : Page}
    (h : PageReachableVia u ok p) :
    ∀ k ∈ p.pending, modeGuarded k.awaited.opensParty k.rest = true :=
  pending_invariant (fun k => modeGuarded k.awaited.opensParty k.rest = true)
    (fun s e k _ hk => modeGuarded_actions u s e k hk)
    (fun _ k2 hG hk => modeGuarded_firstAwait _ _ k2 hG hk)
    h

theorem ascii_toUpper_notLower : ∀ n : Fin 128,
    ¬ (97 ≤ (Char.ofNat n.val).toUpper.toNat ∧ (Char.ofNat n.val).toUpper.toNat ≤ 122) := by
  decide

/-- The uppercase form of a string holds none of the letters `a` to `z`. -/
theorem hasNoLowerAscii_toUpperCase {u : Char → List Char} (hclean : UpperClean u)
    (v : String) : hasNoLowerAscii (toUpperCase u v) := by
  intro c hc
  simp only [toUpperCase, List.mem_flatMap] at hc
  obtain ⟨x, _, hcx⟩ := hc
  unfold upperCodePoint at hcx
  by_cases hx : x.toNat < 128
  · simp only [hx, if_true, List.mem_singleton] at hcx
    subst hcx
    have := ascii_toUpper_notLower ⟨x.toNat, hx⟩
    simpa using this
  · simp only [hx, if_false] at hcx
    exact hclean x (Nat.le_of_not_lt hx) c hcx

theorem codeUpper_toUpperCase {u : Char → List Char} (hu : UpperStable u)
    (hclean : UpperClean u) (v : String) : codeUpper u (toUpperCase u v) :=
  ⟨toUpperCase_idem hu v, hasNoLowerAscii_toUpperCase hclean v⟩

theorem codeUpper_of_canonical (u : Char → List Char) {c : String}
    (h : isCanonicalCode c) : codeUpper u c := by
  refine ⟨toUpperCase_codeChars u c h.2, ?_⟩
  intro ch hch
  have := h.2 ch hch
  simp only [isCodeChar, Bool.or_eq_true, Bool.and_eq_true, decide_eq_true_eq] at this
  omega

theorem codeUpper_empty (u : Char → List Char) : codeUpper u "" := by
  refine ⟨rfl, ?_⟩
  intro c hc
  simp at hc

/-- Every party the service registers has a canonical code. -/
theorem create_code_canonical {reg reg2 : Registry} {now : Nat}
    {randomness : List (List Nat)} {hostName : String} {durationHours : Int} {party : Party}
    (h : PartyRegistry.create reg now randomness hostName durationHours =
      some (.ok (party, reg2))) : isCanonicalCode party.code := by
  unfold PartyRegistry.create at h
  split at h
  · simp at h
  · cases hc : PartyRegistry.freshCode (reg.map (·.code)) randomness with
    | none => simp [hc] at h
    | some c =>
      simp only [hc, Option.some.injEq, Except.ok.injEq, Prod.mk.injEq] at h
      obtain ⟨_, d, _, hgen⟩ := freshCode_eq_some _ _ _ hc
      rw [← h.1]
      simp only
      rw [hgen]
      exact generate_canonical d

theorem servedCreate_canonical {e : Event} (h : e.servedCreate) : e.canonicalReplies := by
  cases e with
  | clickCreate r =>
    intro res hres
    obtain ⟨reg, now, randomness, hostName, durationHours, party, reg2, hcreate, hcode⟩ :=
      h res hres
    rw [hcode]
    exact create_code_canonical hcreate
  | _ => trivial

theorem codeUpper_runActions (u : Char → List Char) (as : List Action) :
    ∀ s : State, codeUpper u s.partyCode → (∀ a ∈ as, codeAction u a) →
      codeUpper u (runActions s as).partyCode := by
  induction as with
  | nil =>
    intro s hs _
    exact hs
  | cons a as ih =>
    intro s hs hall
    rw [runActions_cons]
    apply ih
    · have ha := hall a (List.mem_cons_self _ _)
      cases a
      case setPartyCode v => exact ha v rfl
      all_goals exact hs
    · intro b hb
      exact hall b (List.mem_cons_of_mem _ hb)

theorem not_mem_checkPartyStatus_setPartyCode (c : String) (r : Replies) (v : String) :
    Action.setPartyCode v ∉ checkPartyStatus c r := by
  obtain ⟨rc, rj, rs, ru, rp⟩ := r
  cases rs with
  | error e => simp [checkPartyStatus]
  | ok st => cases hst : st.has_ended <;> cases rp <;> simp [checkPartyStatus, loadPhotos, hst]

/-- The party codes the handlers store are in uppercase form: the join form
stores the uppercase form of what is typed, the reset the empty string, and a
creation the code of the reply, which comes from the service. -/
theorem codeAction_actions {u : Char → List Char} (hu : UpperStable u)
    (hclean : UpperClean u) (s : State) (e : Event) (he : e.servedCreate) :
    ∀ a ∈ e.actions u s, codeAction u a := by
  have hc := not_mem_checkPartyStatus_setPartyCode
  intro a ha v hv
  subst hv
  cases e with
  | chooseCreate => simp [Event.actions] at ha
  | chooseJoin => simp [Event.actions] at ha
  | back => simp [Event.actions] at ha
  | typeHostName w => simp [Event.actions] at ha
  | slideDuration n => simp [Event.actions] at ha
  | typePartyCode w =>
    simp only [Event.actions, List.mem_singleton, Action.setPartyCode.injEq] at ha
    rw [ha]
    exact codeUpper_toUpperCase hu hclean w
  | typeUserName w => simp [Event.actions] at ha
  | clickCreate r =>
    have hcan := servedCreate_canonical he
    simp only [Event.actions, handleCreateParty] at ha
    split at ha
    · simp at ha
    · have hcs := hc s.partyCode r v
      obtain ⟨rc, rj, rs, ru, rp⟩ := r
      cases rc with
      | error e => simp at ha
      | ok res =>
        simp only [List.cons_append, List.nil_append, List.mem_cons, List.mem_append,
          List.mem_singleton, Action.setPartyCode.injEq, reduceCtorEq, false_or,
          or_false] at ha
        rcases ha with ha | ha | ha
        · rw [ha]
          exact codeUpper_of_canonical u (hcan res rfl)
        · exact absurd ha hcs
        · simp at ha
  | clickJoin r =>
    exfalso
    simp only [Event.actions, handleJoinParty] at ha
    split at ha
    · simp at ha
    · have hcs := hc s.partyCode r v
      obtain ⟨rc, rj, rs, ru, rp⟩ := r
      cases rj with
      | error e => simp at ha
      | ok res =>
        simp only [List.cons_append, List.nil_append, List.mem_cons, List.mem_append,
          List.mem_singleton, reduceCtorEq, false_or, or_false] at ha
        rcases ha with ha | ha
        · exact hcs ha
        · simp at ha
  | poll r => exact absurd ha (hc s.partyCode r v)
  | selectPhoto file r =>
    exfalso
    simp only [Event.actions, handlePhotoUpload] at ha
    cases file with
    | none => simp at ha
    | some f =>
      simp only at ha
      split at ha
      · simp at ha
      · have hcs := hc s.partyCode r v
        obtain ⟨rc, rj, rs, ru, rp⟩ := r
        cases ru with
        | error e => simp at ha
        | ok res =>
          simp only [List.cons_append, List.nil_append, List.mem_cons, List.mem_append,
            List.mem_singleton, reduceCtorEq, false_or, or_false] at ha
          rcases ha with ha | ha
          · exact hcs ha
          · simp at ha
  | clickEnd r =>
    exfalso
    obtain ⟨rc, rj, rs, ru, rp⟩ := r
    cases rp <;> simp [Event.actions, handleEndParty, loadPhotos] at ha
  | clickReset =>
    simp only [Event.actions, handleReset, List.mem_cons, List.mem_singleton,
      Action.setPartyCode.injEq, reduceCtorEq, false_or, or_false, List.mem_nil_iff] at ha
    rw [ha]
    exact codeUpper_empty u

/-- Under every interleaving of events and replies, with party codes that come
from the service, the party code the page holds is in uppercase form, and so
is every code a suspended handler is about to store. -/
theorem served_partyCode_upper {u : Char → List Char} (hu : UpperStable u)
    (hclean : UpperClean u) {p : Page} (h : PageReachableServed u p) :
    codeUpper u p.state.partyCode ∧ ∀ k ∈ p.pending, ∀ a ∈ k.rest, codeAction u a := by
  have hpend : ∀ q : Page, PageReachableVia u Event.servedCreate q →
      ∀ k ∈ q.pending, ∀ a ∈ k.rest, codeAction u a := fun q hq =>
    pending_invariant (fun k => ∀ a ∈ k.rest, codeAction u a)
      (fun s e k he hk a ha => codeAction_actions hu hclean s e he a (firstAwait_mem hk a ha))
      (fun k k2 hG hk a ha => hG a (firstAwait_mem hk a ha))
      hq
  refine ⟨?_, hpend p h⟩
  induction h with
  | init => exact codeUpper_empty u
  | @move p q m hp hok hmove ih =>
    cases m with
    | event e =>
      simp only [pageMove] at hmove
      by_cases hen : e.enabled p.state = true
      · simp only [hen, if_true, Option.some.injEq] at hmove
        subst hmove
        apply codeUpper_runActions u _ _ ih
        intro a ha
        exact codeAction_actions hu hclean p.state e hok a (beforeAwait_mem a ha)
      · simp [hen] at hmove
    | reply i =>
      simp only [pageMove] at hmove
      cases hget : p.pending[i]? with
      | none => simp [hget] at hmove
      | some k0 =>
        simp only [hget, Option.some.injEq] at hmove
        subst hmove
        apply codeUpper_runActions u _ _ ih
        intro a ha
        exact hpend p hp k0 (List.getElem?_mem hget) a (beforeAwait_mem a ha)

theorem upperClean_upperAsciiOnly : UpperClean upperAsciiOnly := by
  intro c hc d hd
  simp only [upperAsciiOnly, List.mem_singleton] at hd
  subst hd
  omega

/-- Every request of a handler invoked on the active screen carries the party
code the state holds at that moment. -/
theorem active_requests_code (u : Char → List Char) (s : State) (hr : render s = .active) :
    ∀ e : Event, e.enabled s = true →
      ∀ q ∈ requests (e.actions u s), q.code? = some s.partyCode := by
  intro e hen q hq
  cases e with
  | chooseCreate => simp [Event.enabled, hr] at hen
  | chooseJoin => simp [Event.enabled, hr] at hen
  | back => simp [Event.enabled, hr] at hen
  | typeHostName v => simp [Event.enabled, hr] at hen
  | slideDuration n => simp [Event.enabled, hr] at hen
  | typePartyCode v => simp [Event.enabled, hr] at hen
  | typeUserName v => simp [Event.enabled, hr] at hen
  | clickCreate r => simp [Event.enabled, hr] at hen
  | clickJoin r => simp [Event.enabled, hr] at hen
  | poll r =>
    simp only [Event.actions] at hq
    rcases requests_checkPartyStatus_cases s.partyCode r with h2 | h2 <;>
      simp [h2] at hq
    · rw [hq]; rfl
    · rcases hq with rfl | rfl <;> rfl
  | selectPhoto file r =>
    simp only [Event.actions] at hq
    rcases requests_handlePhotoUpload s file r with h1 | ⟨f, _, h1 | h1⟩
    · simp [h1] at hq
    · simp [h1] at hq
      rw [hq]; rfl
    · rcases requests_checkPartyStatus_cases s.partyCode r with h2 | h2 <;>
        simp [h1, h2] at hq
      · rcases hq with rfl | rfl <;> rfl
      · rcases hq with rfl | rfl | rfl <;> rfl
  | clickEnd r =>
    simp [Event.actions, requests_handleEndParty] at hq
    rw [hq]; rfl
  | clickReset => simp [Event.enabled, hr] at hen

/-- With both fields filled in, the first request of `handleJoinParty` is the
join for the uppercase form of the code. -/
theorem requests_handleJoinParty_head (u : Char → List Char) (s : State) (r : Replies)
    (hc : ¬ isBlank s.partyCode) (hn : ¬ isBlank s.userName) :
    (requests (handleJoinParty u s r)).head? =
      some (.joinParty (toUpperCase u s.partyCode) s.userName) := by
  have h1 := (truthy_jsTrim_eq_true s.partyCode).mpr hc
  have h2 := (truthy_jsTrim_eq_true s.userName).mpr hn
  have hreq : requests (handleJoinParty u s r) =
      .joinParty (toUpperCase u s.partyCode) s.userName ::
        (match r.join with
         | .ok _ => requests (checkPartyStatus s.partyCode r)
         | .error _ => []) := by
    obtain ⟨rc, rj, rs, ru, rp⟩ := r
    cases rj <;> simp [handleJoinParty, h1, h2, requests, requests_append]
  rw [hreq]
  rfl

/-- A status reply that reports the party ended makes `checkPartyStatus` set
the mode to "ended". -/
theorem runActions_checkPartyStatus_ended (s : State) (c : String) (r : Replies)
    (st : StatusResult) (hst : r.status = .ok st) (hend : st.has_ended = true) :
    (runActions s (checkPartyStatus c r)).mode = "ended" := by
  obtain ⟨rc, rj, rs, ru, rp⟩ := r
  simp only at hst
  subst hst
  cases rp <;> simp [checkPartyStatus, loadPhotos, runActions, Action.apply, hend]

/-- On the ended screen the reset is the one event on offer, and it leaves the
suspended handlers as they are. -/
theorem pageMove_event_of_ended (u : Char → List Char) (p : Page)
    (hm : p.state.mode = "ended") :
    pageMove u p (.event .clickReset) = some ⟨afterReset p.state, p.pending⟩ ∧
    ∀ (e : Event) (q : Page), pageMove u p (.event e) = some q →
      e = .clickReset ∧ q = ⟨afterReset p.state, p.pending⟩ := by
  have hreset : pageMove u p (.event .clickReset) = some ⟨afterReset p.state, p.pending⟩ := by
    have hr : render p.state = .ended := render_eq_ended.mpr hm
    simp [pageMove, Event.enabled, hr, Event.actions, handleReset, resume, beforeAwait,
      firstAwait, runActions, Action.apply, afterReset]
  refine ⟨hreset, ?_⟩
  intro e q hmove
  have hen : e.enabled p.state = true := by
    by_cases h : e.enabled p.state = true
    · exact h
    · simp [pageMove, h] at hmove
  have he := enabled_of_ended hm hen
  subst he
  rw [hreset] at hmove
  exact ⟨rfl, (Option.some.inj hmove).symm⟩

/-- The reply to a request other than `createParty` and `joinParty` leaves a
page in mode "ended" in that mode, with the party code and user name it had. -/
theorem pageMove_reply_of_ended {u : Char → List Char} {p : Page} (hp : PageReachable u p)
    (hm : p.state.mode = "ended") (i : Nat) (k : Suspended) (q : Page)
    (hk : p.pending[i]? = some k) (hopen : k.awaited.opensParty = false)
    (hmove : pageMove u p (.reply i) = some q) :
    q.state.mode = "ended" ∧ q.state.partyCode = p.state.partyCode ∧
      q.state.userName = p.state.userName := by
  have hg := pending_modeGuarded hp k (List.getElem?_mem hk)
  rw [hopen] at hg
  simp only [pageMove, hk, Option.some.injEq] at hmove
  subst hmove
  exact modeGuarded_keeps_ended k.rest p.state hg hm

/-- Every event of `movesCreated` is one the service can have answered: the
code `QRS789` is the one it registers for Cy when `ABC123` is tracked. -/
theorem movesCreated_served : ∀ m ∈ movesCreated, m.eventIs Event.servedCreate := by
  intro m hm
  simp only [movesCreated, List.mem_cons, List.mem_singleton, List.mem_nil_iff,
    or_false] at hm
  rcases hm with rfl | rfl | rfl | rfl | rfl | rfl | rfl | rfl
  case inr.inr.inr.inl =>
    intro res hres
    have hcode : res.party_code = "QRS789" := by
      simp only [repliesServed, Except.ok.injEq] at hres
      rw [← hres]
    exact ⟨registryRunning, 1800, [drawsABC123, drawsQRS789], "Cy", 2, _, _, rfl, hcode⟩
  all_goals trivial

/-- No event of `movesJoined` is a creation. -/
theorem movesJoined_served : ∀ m ∈ movesJoined, m.eventIs Event.servedCreate := by
  intro m hm
  simp only [movesJoined, List.mem_cons, List.mem_singleton, List.mem_nil_iff,
    or_false] at hm
  rcases hm with rfl | rfl | rfl | rfl | rfl | rfl
  all_goals trivial

/-! ## Claims -/

/-- C1: for every selected file, `handlePhotoUpload` (reachable only while the
file input is enabled, that is with `loading` false) rejects the file, that is
sets the error "Photo must be under 5MB", issues no `uploadPhoto` request and
leaves `loading` false, if and only if `file.size > 5*1024*1024`; a rejected
file leads to no request at all, so a 6 MiB file is rejected, and an accepted
file, such as a 4 MiB one, is forwarded in exactly one request
`uploadPhoto(partyCode, file, userName)`. -/
theorem handlePhotoUpload_rejects_iff (s : State) (file : File) (r : Replies)
    (hl : s.loading = false) :
    (uploadRejected s (handlePhotoUpload s (some file) r) ↔ file.size > 5 * 1024 * 1024) ∧
    (file.size > 5 * 1024 * 1024 →
      handlePhotoUpload s (some file) r = [.setError "Photo must be under 5MB"]) ∧
    (file.size = 6 * 1024 * 1024 →
      uploadRejected s (handlePhotoUpload s (some file) r) ∧
      requests (handlePhotoUpload s (some file) r) = []) ∧
    (file.size ≤ 5 * 1024 * 1024 →
      (requests (handlePhotoUpload s (some file) r)).filter Request.isUploadPhoto =
        [.uploadPhoto s.partyCode file s.userName]) ∧
    (file.size = 4 * 1024 * 1024 →
      (requests (handlePhotoUpload s (some file) r)).head? =
        some (.uploadPhoto s.partyCode file s.userName)) := by
  have hrej : file.size > 5 * 1024 * 1024 →
      handlePhotoUpload s (some file) r = [.setError "Photo must be under 5MB"] := by
    intro h
    have h2 : file.size > maxPhotoBytes := h
    simp [handlePhotoUpload, h2]
  have hrej2 : file.size > 5 * 1024 * 1024 →
      uploadRejected s (handlePhotoUpload s (some file) r) := by
    intro h
    rw [hrej h]
    simp [uploadRejected, runActions, Action.apply, requests, hl]
  have hacc : file.size ≤ 5 * 1024 * 1024 →
      requests (handlePhotoUpload s (some file) r) =
        .uploadPhoto s.partyCode file s.userName ::
          (match r.upload with
           | .ok _ => requests (checkPartyStatus s.partyCode r)
           | .error _ => []) := by
    intro h
    have h2 : ¬ file.size > maxPhotoBytes := Nat.not_lt.mpr h
    obtain ⟨rc, rj, rs, ru, rp⟩ := r
    cases ru <;> simp [handlePhotoUpload, h2, requests, requests_append]
  refine ⟨⟨?_, hrej2⟩, hrej, ?_, ?_, ?_⟩
  · intro hr
    by_contra hle
    have hreq := hacc (Nat.not_lt.mp hle)
    have := hr.2.1 (.uploadPhoto s.partyCode file s.userName) (by rw [hreq]; simp)
    simp [Request.isUploadPhoto] at this
  · intro h
    have hgt : file.size > 5 * 1024 * 1024 := by omega
    refine ⟨hrej2 hgt, ?_⟩
    rw [hrej hgt]
    rfl
  · intro h
    rw [hacc h, requests_checkPartyStatus]
    obtain ⟨rc, rj, rs, ru, rp⟩ := r
    cases ru with
    | error e => simp [Request.isUploadPhoto]
    | ok res =>
      cases rs with
      | error e => simp [Request.isUploadPhoto]
      | ok st => cases hst : st.has_ended <;> simp [Request.isUploadPhoto, hst]
  · intro h
    rw [hacc (by omega)]
    rfl

/-- Witness of C1: on the active screen a 6 MiB file is rejected whatever the
backend would answer. -/
theorem handlePhotoUpload_rejects_iff_witness :
    exampleActive.loading = false ∧
    uploadRejected exampleActive
        (handlePhotoUpload exampleActive (some { name := "a.jpg", size := 6 * 1024 * 1024 })
          refuseAll) ∧
      requests
        (handlePhotoUpload exampleActive (some { name := "a.jpg", size := 6 * 1024 * 1024 })
          refuseAll) = [] :=
  ⟨rfl, (handlePhotoUpload_rejects_iff exampleActive
    { name := "a.jpg", size := 6 * 1024 * 1024 } refuseAll rfl).2.2.1 rfl⟩

/-- C6: for every `hostName` that is empty or consists only of white space,
`handleCreateParty` only sets the error "Please enter your name": it issues no
request and leaves `mode`, `partyCode`, `userName` and `partyData` unchanged;
for every other `hostName` it issues `createParty(hostName, duration)`, as its
first request and only once. -/
theorem handleCreateParty_requires_name (s : State) (r : Replies) :
    (isBlank s.hostName →
      handleCreateParty s r = [.setError "Please enter your name"] ∧
      requests (handleCreateParty s r) = [] ∧
      (runActions s (handleCreateParty s r)).error = "Please enter your name" ∧
      (runActions s (handleCreateParty s r)).mode = s.mode ∧
      (runActions s (handleCreateParty s r)).partyCode = s.partyCode ∧
      (runActions s (handleCreateParty s r)).userName = s.userName ∧
      (runActions s (handleCreateParty s r)).partyData = s.partyData) ∧
    (¬ isBlank s.hostName →
      (requests (handleCreateParty s r)).head? =
        some (.createParty s.hostName s.duration) ∧
      (requests (handleCreateParty s r)).filter Request.isCreateParty =
        [.createParty s.hostName s.duration]) := by
  constructor
  · intro hb
    have ht := (truthy_jsTrim_eq_false s.hostName).mpr hb
    have h : handleCreateParty s r = [.setError "Please enter your name"] := by
      simp [handleCreateParty, ht]
    rw [h]
    simp [requests, runActions, Action.apply]
  · intro hb
    have ht := (truthy_jsTrim_eq_true s.hostName).mpr hb
    have hreq : requests (handleCreateParty s r) =
        .createParty s.hostName s.duration ::
          (match r.create with
           | .ok _ => requests (checkPartyStatus s.partyCode r)
           | .error _ => []) := by
      obtain ⟨rc, rj, rs, ru, rp⟩ := r
      cases rc <;> simp [handleCreateParty, ht, requests, requests_append]
    rw [hreq, requests_checkPartyStatus]
    refine ⟨rfl, ?_⟩
    obtain ⟨rc, rj, rs, ru, rp⟩ := r
    cases rc with
    | error e => simp [Request.isCreateParty]
    | ok res =>
      cases rs with
      | error e => simp [Request.isCreateParty]
      | ok st => cases hst : st.has_ended <;> simp [Request.isCreateParty, hst]

/-- C10: whenever the party code or the user name is empty or white space
only, `handleJoinParty` issues no request, sets the error "Please fill in all
fields" and leaves `mode` as it is (equal to "join" on the join screen, the
only screen that offers the handler); otherwise it issues exactly one
`joinParty` request, its first request. -/
theorem handleJoinParty_requires_fields (u : Char → List Char) (s : State) (r : Replies) :
    (isBlank s.partyCode ∨ isBlank s.userName →
      handleJoinParty u s r = [.setError "Please fill in all fields"] ∧
      requests (handleJoinParty u s r) = [] ∧
      (runActions s (handleJoinParty u s r)).error = "Please fill in all fields" ∧
      (runActions s (handleJoinParty u s r)).mode = s.mode ∧
      (render s = .join → (runActions s (handleJoinParty u s r)).mode = "join")) ∧
    (¬ (isBlank s.partyCode ∨ isBlank s.userName) →
      (requests (handleJoinParty u s r)).head? =
        some (.joinParty (toUpperCase u s.partyCode) s.userName) ∧
      ((requests (handleJoinParty u s r)).filter Request.isJoinParty).length = 1) := by
  constructor
  · intro hb
    have ht : (!(truthy (jsTrim s.partyCode)) || !(truthy (jsTrim s.userName))) = true := by
      rcases hb with hb | hb
      · simp [(truthy_jsTrim_eq_false _).mpr hb]
      · simp [(truthy_jsTrim_eq_false _).mpr hb]
    have h : handleJoinParty u s r = [.setError "Please fill in all fields"] := by
      simp only [handleJoinParty, ht, if_true]
    rw [h]
    refine ⟨rfl, rfl, rfl, rfl, ?_⟩
    intro hr
    have hm : s.mode = "join" := by
      unfold render at hr
      by_contra hne
      simp only [hne, if_false] at hr
      repeat' split at hr
      all_goals simp at hr
    simpa [runActions, Action.apply] using hm
  · intro hb
    have h1 := (truthy_jsTrim_eq_true s.partyCode).mpr (fun h => hb (Or.inl h))
    have h2 := (truthy_jsTrim_eq_true s.userName).mpr (fun h => hb (Or.inr h))
    have hreq : requests (handleJoinParty u s r) =
        .joinParty (toUpperCase u s.partyCode) s.userName ::
          (match r.join with
           | .ok _ => requests (checkPartyStatus s.partyCode r)
           | .error _ => []) := by
      obtain ⟨rc, rj, rs, ru, rp⟩ := r
      cases rj <;> simp [handleJoinParty, h1, h2, requests, requests_append]
    rw [hreq, requests_checkPartyStatus]
    refine ⟨rfl, ?_⟩
    obtain ⟨rc, rj, rs, ru, rp⟩ := r
    cases rj with
    | error e => simp [Request.isJoinParty]
    | ok res =>
      cases rs with
      | error e => simp [Request.isJoinParty]
      | ok st => cases hst : st.has_ended <;> simp [Request.isJoinParty, hst]

/-- C2, as amended: photos are requested only when the party is ended.  Under
every interleaving of events and replies, whenever a move of the page issues a
`getPartyPhotos` request, `mode` is "ended" at the moment of the request (never
"select", "create", "join" or "active"); and in every state the page reaches
when each reply arrives before the next event, including the states it passes
through while a handler awaits, the photo list is non-empty only if `mode` is
"ended". -/
theorem photos_requested_only_when_ended (u : Char → List Char) (p : Page)
    (hp : PageReachable u p) :
    (∀ (m : Move) (q : Page) (k : Suspended), pageMove u p m = some q →
      issuedBy u p m = some k → k.awaited.isGetPartyPhotos = true →
      q.state.mode = "ended") ∧
    (∀ s : State, Reachable u s →
      (s.photos ≠ [] → s.mode = "ended") ∧
      (∀ e : Event, e.enabled s = true → ∀ tq ∈ requestsAt s (e.actions u s),
        (tq.1.photos ≠ [] → tq.1.mode = "ended") ∧
        (tq.2.isGetPartyPhotos = true → tq.1.mode = "ended"))) := by
  constructor
  · intro m q k hmove hissued hphotos
    cases m with
    | event e =>
      simp only [issuedBy] at hissued
      simp only [pageMove] at hmove
      by_cases hen : e.enabled p.state = true
      · simp only [hen, if_true, Option.some.injEq] at hmove
        subst hmove
        exact (photosGuarded_firstAwait (e.actions u p.state) none p.state k
          (photosGuarded_actions u p.state e) (by intro v hv; cases hv) hissued).1 hphotos
      · simp [hen] at hmove
    | reply i =>
      simp only [issuedBy] at hissued
      simp only [pageMove] at hmove
      cases hget : p.pending[i]? with
      | none => simp [hget] at hmove
      | some k0 =>
        simp only [hget, Option.some.injEq] at hmove hissued
        subst hmove
        exact (photosGuarded_firstAwait k0.rest none p.state k
          (pending_photosGuarded hp k0 (List.getElem?_mem hget))
          (by intro v hv; cases hv) hissued).1 hphotos
  · intro s h
    have hinv : s.photos ≠ [] → s.mode = "ended" := by
      intro hne
      rcases reachable_photos h with hm | hph
      · exact hm
      · exact absurd hph hne
    refine ⟨hinv, ?_⟩
    intro e hen tq htq
    obtain ⟨hph, hq⟩ := photos_request_at u s e tq htq
    refine ⟨?_, hq⟩
    intro hne
    rw [hph] at hne
    have he := enabled_of_ended (hinv hne) hen
    subst he
    simp [Event.actions, handleReset, requestsAt, Action.apply] at htq

/-- Witness of C2: Bo has joined party `ABC123` and a poll awaits its status;
the reply reports the party ended, `loadPhotos` asks for the listing, and the
mode is "ended" at that moment.  With prompt replies the ended screen with one
photo is reached, and there the mode is "ended". -/
theorem photos_requested_only_when_ended_witness :
    PageReachable upperAsciiOnly pagePolled ∧
    pageMove upperAsciiOnly pagePolled (.reply 0) = some pageListing ∧
    (issuedBy upperAsciiOnly pagePolled (.reply 0)).map (fun k => k.awaited) =
      some (.getPartyPhotos "ABC123") ∧
    pageListing.state.mode = "ended" ∧
    Reachable upperAsciiOnly exampleEnded ∧ exampleEnded.photos ≠ [] ∧
    exampleEnded.mode = "ended" :=
  have hp : PageReachable upperAsciiOnly pagePolled :=
    pageReachable_of_runMoves upperAsciiOnly movesPolled pagePolled (by decide)
  have hr : Reachable upperAsciiOnly exampleEnded :=
    reachable_of_runEvents upperAsciiOnly eventsToEnded State.init exampleEnded
      Reachable.init (by decide)
  ⟨hp, by decide, by decide,
    (photos_requested_only_when_ended upperAsciiOnly pagePolled hp).1 (.reply 0) pageListing
      ⟨.getPartyPhotos "ABC123",
        [.setPhotos [{ uploaded_by := "Bo", uploaded_at := "2024-01-01T22:00:00" }]]⟩
      (by decide) (by decide) rfl,
    hr, by decide,
    ((photos_requested_only_when_ended upperAsciiOnly pagePolled hp).2 exampleEnded hr).1
      (by decide)⟩

/-- C2, counterexample: Bo's page learns from a poll that party `ABC123` has
ended and `loadPhotos` asks for the listing; Bo clicks "Start New Party" while
the listing is awaited, the reset empties the photo list, and the listing that
arrives afterwards is stored by `setPhotos`.  The page is then in mode "select"
and its photo list is not empty. -/
theorem late_listing_after_reset :
    runMoves upperAsciiOnly Page.init movesLeak = some pageLeak ∧
    PageReachable upperAsciiOnly pageLeak ∧
    pageLeak.state.mode = "select" ∧ render pageLeak.state = .select ∧
    pageLeak.state.photos = [{ uploaded_by := "Bo", uploaded_at := "2024-01-01T22:00:00" }] ∧
    pageLeak.state.photos ≠ [] :=
  ⟨by decide, pageReachable_of_runMoves upperAsciiOnly movesLeak pageLeak (by decide),
    by decide, by decide, by decide, by decide⟩

/-- C7: in every reachable state of the page the duration is an integer with
`1 ≤ duration ≤ 12` (initially 4), so every `createParty` request issued from a
reachable state carries a duration in the range 1..12. -/
theorem duration_in_range (u : Char → List Char) (s : State) (h : Reachable u s) :
    State.init.duration = 4 ∧ 1 ≤ s.duration ∧ s.duration ≤ 12 ∧
    (∀ e : Event, e.enabled s = true → ∀ (hn : String) (d : Int),
      Request.createParty hn d ∈ requests (e.actions u s) → 1 ≤ d ∧ d ≤ 12) := by
  obtain ⟨_, hd1, hd2⟩ := reachable_loading_duration h
  refine ⟨rfl, hd1, hd2, ?_⟩
  intro e _ hn d hmem
  cases e with
  | chooseCreate => simp [Event.actions, requests] at hmem
  | chooseJoin => simp [Event.actions, requests] at hmem
  | back => simp [Event.actions, requests] at hmem
  | typeHostName v => simp [Event.actions, requests] at hmem
  | slideDuration n => simp [Event.actions, requests] at hmem
  | typePartyCode v => simp [Event.actions, requests] at hmem
  | typeUserName v => simp [Event.actions, requests] at hmem
  | clickCreate r =>
    have hd : d = s.duration := by
      simp only [Event.actions] at hmem
      rcases requests_handleCreateParty s r with h | h | h
      · simp [h] at hmem
      · simp [h] at hmem
        exact hmem.2
      · rcases requests_checkPartyStatus_cases s.partyCode r with h2 | h2 <;>
          simp [h, h2] at hmem <;> exact hmem.2
    rw [hd]
    exact ⟨hd1, hd2⟩
  | clickJoin r =>
    exfalso
    simp only [Event.actions] at hmem
    rcases requests_handleJoinParty u s r with h | h | h
    · simp [h] at hmem
    · simp [h] at hmem
    · rcases requests_checkPartyStatus_cases s.partyCode r with h2 | h2 <;>
        simp [h, h2] at hmem
  | poll r =>
    exfalso
    simp only [Event.actions] at hmem
    rcases requests_checkPartyStatus_cases s.partyCode r with h2 | h2 <;> simp [h2] at hmem
  | selectPhoto file r =>
    exfalso
    simp only [Event.actions] at hmem
    rcases requests_handlePhotoUpload s file r with h | ⟨f, _, h | h⟩
    · simp [h] at hmem
    · simp [h] at hmem
    · rcases requests_checkPartyStatus_cases s.partyCode r with h2 | h2 <;>
        simp [h, h2] at hmem
  | clickEnd r =>
    simp [Event.actions, requests_handleEndParty] at hmem
  | clickReset => simp [Event.actions, handleReset, requests] at hmem

/-- Witness of C7: after the slider has been moved to 7 the state is reachable
and its duration lies in 1..12. -/
theorem duration_in_range_witness :
    Reachable upperAsciiOnly exampleSlid ∧ 1 ≤ exampleSlid.duration ∧
      exampleSlid.duration ≤ 12 :=
  have hr : Reachable upperAsciiOnly exampleSlid :=
    reachable_of_runEvents upperAsciiOnly eventsSlide State.init exampleSlid
      Reachable.init (by decide)
  ⟨hr, (duration_in_range upperAsciiOnly exampleSlid hr).2.1,
    (duration_in_range upperAsciiOnly exampleSlid hr).2.2.1⟩

/-- C3 (the code at the failing input): when the host Amy ends the running
party `ABC123`, `handleEndParty` sets the mode to "ended" and issues a single
request, the photo listing; no request carries the caller's name and nothing
tells the backend to end the party, so the listing is refused and the page
shows no photo although one was uploaded. -/
theorem handleEndParty_sends_no_end_request :
    endPartyAvailable exampleHost = true ∧
    handleEndParty exampleHost repliesRunning =
      [.setMode "ended", .request (.getPartyPhotos "ABC123")] ∧
    requests (handleEndParty exampleHost repliesRunning) = [.getPartyPhotos "ABC123"] ∧
    (runActions exampleHost (handleEndParty exampleHost repliesRunning)).mode = "ended" ∧
    (runActions exampleHost (handleEndParty exampleHost repliesRunning)).photos = [] := by
  decide

/-- C4: ending a party is idempotent on the page.  Invoking the end action
twice in sequence never fails (no error is set either time) and the second
invocation leaves the mode "ended" and the party data, as every field other
than the photo list, exactly as the first one did; when the photo listing
answers the second time as it did the first time, or is refused, the whole
state is the same as after one invocation.  Two clicks handled by the same
render of the page have the same effect as two invocations in sequence. -/
theorem handleEndParty_idempotent (s : State) (r1 r2 : Replies) :
    (endOnce s r1).mode = "ended" ∧ (endTwice s r1 r2).mode = "ended" ∧
    (endOnce s r1).partyData = s.partyData ∧
    (endTwice s r1 r2).partyData = (endOnce s r1).partyData ∧
    (endOnce s r1).error = s.error ∧ (endTwice s r1 r2).error = s.error ∧
    endOnce s r1 = { s with mode := "ended", photos := (endOnce s r1).photos } ∧
    endTwice s r1 r2 = { endOnce s r1 with photos := (endTwice s r1 r2).photos } ∧
    ((r2.photos = r1.photos ∨ ∃ e, r2.photos = .error e) →
      endTwice s r1 r2 = endOnce s r1) ∧
    runActions s (handleEndParty s r1 ++ handleEndParty s r2) = endTwice s r1 r2 := by
  obtain ⟨rc1, rj1, rs1, ru1, rp1⟩ := r1
  obtain ⟨rc2, rj2, rs2, ru2, rp2⟩ := r2
  cases rp1 <;> cases rp2 <;>
    simp [endTwice, endOnce, handleEndParty, loadPhotos, runActions, Action.apply]
  intro h
  rw [h]

/-- C5, as amended: on the active screen the end-party action is offered if
and only if `userName` equals `partyData.host` as a string, and a member who
joined a running party gets the action exactly when the name they joined under
equals the display name of the host. -/
theorem endParty_available_iff_host_name (u : Char → List Char) (s : State) (r : Replies) :
    (render s = .active →
      ((Event.clickEnd r).enabled s = true ↔
        ∃ p, s.partyData = some p ∧ s.userName = p.host)) ∧
    (∀ st : StatusResult, ¬ isBlank s.partyCode → ¬ isBlank s.userName →
      r.join = .ok () → r.status = .ok st → st.has_ended = false →
      (endPartyAvailable (runActions s (handleJoinParty u s r)) = true ↔
        s.userName = st.party.host)) := by
  constructor
  · intro hr
    cases hp : s.partyData with
    | none => simp [Event.enabled, endPartyAvailable, hr, hp]
    | some p => simp [Event.enabled, endPartyAvailable, hr, hp]
  · intro st hc hn hj hs he
    have h1 := (truthy_jsTrim_eq_true s.partyCode).mpr hc
    have h2 := (truthy_jsTrim_eq_true s.userName).mpr hn
    obtain ⟨rc, rj, rs, ru, rp⟩ := r
    simp only at hj hs
    subst hj hs
    simp [handleJoinParty, checkPartyStatus, h1, h2, he, runActions, Action.apply,
      endPartyAvailable, render]

/-- C5, counterexample: a visitor who never created a party joins `ABC123`
under the host's display name "Amy" and is offered the end-party action. -/
theorem non_creator_can_end_party :
    (∀ e ∈ eventsNamesake, e.isClickCreate = false) ∧
    runEvents upperAsciiOnly State.init eventsNamesake = some exampleNamesake ∧
    endPartyAvailable exampleNamesake = true ∧
    (Event.clickEnd repliesRunning).enabled exampleNamesake = true ∧
    ¬ OnlyCreatorCanEnd upperAsciiOnly := by
  have h1 : ∀ e ∈ eventsNamesake, e.isClickCreate = false := by
    intro e he
    simp [eventsNamesake] at he
    rcases he with rfl | rfl | rfl | rfl <;> rfl
  have h2 : runEvents upperAsciiOnly State.init eventsNamesake = some exampleNamesake := by
    decide
  have h3 : endPartyAvailable exampleNamesake = true := by decide
  refine ⟨h1, h2, h3, by decide, ?_⟩
  intro hclaim
  have := hclaim eventsNamesake exampleNamesake h1 h2
  rw [h3] at this
  exact absurd this (by decide)

/-- C8: party codes are case-insensitive on input.  For every code typed into
the join form, the code of the join request is the uppercase form of the typed
code; two typed codes that differ only in letter case lead to the same actions,
hence to the same join request; and uppercasing a canonical code, as
uppercasing any uppercased code, changes nothing. -/
theorem join_code_case_insensitive (u : Char → List Char) (hu : UpperStable u)
    (s : State) (r : Replies) (typed : String)
    (hcode : ¬ isBlank (toUpperCase u typed)) (hname : ¬ isBlank s.userName) :
    (requests (handleJoinParty u
        (runActions s (Event.actions u s (.typePartyCode typed))) r)).head? =
      some (.joinParty (toUpperCase u typed) s.userName) ∧
    (∀ other : String, sameUpToCase u typed other →
      handleJoinParty u (runActions s (Event.actions u s (.typePartyCode other))) r =
        handleJoinParty u (runActions s (Event.actions u s (.typePartyCode typed))) r) ∧
    (∀ c : String, isCanonicalCode c → toUpperCase u c = c) ∧
    toUpperCase u (toUpperCase u typed) = toUpperCase u typed := by
  refine ⟨?_, ?_, ?_, toUpperCase_idem hu typed⟩
  · have hs : runActions s (Event.actions u s (.typePartyCode typed)) =
        { s with partyCode := toUpperCase u typed } := rfl
    have h := requests_handleJoinParty_head u { s with partyCode := toUpperCase u typed } r
      hcode hname
    rw [hs, h]
    simp [toUpperCase_idem hu]
  · intro other hsame
    have : toUpperCase u other = toUpperCase u typed :=
      (toUpperCase_sameUpToCase u typed other hsame).symm
    simp [Event.actions, runActions, Action.apply, this]
  · intro c hc
    exact toUpperCase_codeChars u c hc.2

/-- Witness of C8: with Bo's name filled in, typing `abc123` leads to the join
request for `ABC123`. -/
theorem join_code_case_insensitive_witness :
    UpperStable upperAsciiOnly ∧
    ¬ isBlank (toUpperCase upperAsciiOnly "abc123") ∧ ¬ isBlank exampleJoinForm.userName ∧
    (requests (handleJoinParty upperAsciiOnly
        (runActions exampleJoinForm
          (Event.actions upperAsciiOnly exampleJoinForm (.typePartyCode "abc123")))
        repliesRunning)).head? = some (.joinParty "ABC123" "Bo") :=
  have h1 : ¬ isBlank (toUpperCase upperAsciiOnly "abc123") := by
    unfold isBlank
    decide
  have h2 : ¬ isBlank exampleJoinForm.userName := by
    unfold isBlank
    decide
  ⟨upperStable_upperAsciiOnly, h1, h2,
    (join_code_case_insensitive upperAsciiOnly upperStable_upperAsciiOnly exampleJoinForm
      repliesRunning "abc123" h1 h2).1⟩

/-- C9, as amended: party codes from the join form and from the service are
rendered uppercase.  Under every interleaving of events and replies, when the
codes of created parties are those the service registers, the party code the
page holds (and displays on the active screen) equals its own uppercase form
and contains none of the letters `a` to `z`.  A code typed into the join form
is stored as its uppercase form; the code of a created party is stored exactly
as the reply carries it.  Every request of a handler invoked on the active
screen (status poll, upload with its status check, photo listing of the end
action) carries the code the page holds when the handler is invoked. -/
theorem party_code_uppercase_under_service (u : Char → List Char) (hu : UpperStable u)
    (hclean : UpperClean u) (p : Page) (h : PageReachableServed u p) :
    (toUpperCase u p.state.partyCode = p.state.partyCode ∧
      hasNoLowerAscii p.state.partyCode) ∧
    (∀ typed : String,
      (runActions p.state ((Event.typePartyCode typed).actions u p.state)).partyCode =
        toUpperCase u typed ∧
      hasNoLowerAscii (toUpperCase u typed)) ∧
    (∀ (r : Replies) (res : CreateResult), ¬ isBlank p.state.hostName →
      r.create = .ok res →
      (runActions p.state (handleCreateParty p.state r)).partyCode = res.party_code) ∧
    (render p.state = .active → ∀ e : Event, e.enabled p.state = true →
      ∀ q ∈ requests (e.actions u p.state), q.code? = some p.state.partyCode) := by
  refine ⟨(served_partyCode_upper hu hclean h).1, ?_, ?_, ?_⟩
  · intro typed
    exact ⟨rfl, hasNoLowerAscii_toUpperCase hclean typed⟩
  · intro r res hn hr
    exact (runActions_handleCreateParty_code p.state r res hn hr).1
  · intro hr
    exact active_requests_code u p.state hr

/-- Witness of C9: Bo types `abc123` into the join form and joins, Cy creates
a party that the service registers as `QRS789`; on both active screens the code
held is uppercase, and the status request of a poll on Bo's page is made for
`ABC123`. -/
theorem party_code_uppercase_under_service_witness :
    UpperStable upperAsciiOnly ∧ UpperClean upperAsciiOnly ∧
    PageReachableServed upperAsciiOnly pageJoined ∧
    PageReachableServed upperAsciiOnly pageCreated ∧
    render pageJoined.state = .active ∧ pageJoined.state.partyCode = "ABC123" ∧
    hasNoLowerAscii pageJoined.state.partyCode ∧
    render pageCreated.state = .active ∧ pageCreated.state.partyCode = "QRS789" ∧
    hasNoLowerAscii pageCreated.state.partyCode ∧
    (∀ q ∈ requests ((Event.poll repliesRunning).actions upperAsciiOnly pageJoined.state),
      q.code? = some "ABC123") :=
  have hj : PageReachableServed upperAsciiOnly pageJoined :=
    pageReachableVia_of_runMoves upperAsciiOnly Event.servedCreate movesJoined Page.init
      pageJoined PageReachableVia.init movesJoined_served (by decide)
  have hc : PageReachableServed upperAsciiOnly pageCreated :=
    pageReachableVia_of_runMoves upperAsciiOnly Event.servedCreate movesCreated Page.init
      pageCreated PageReachableVia.init movesCreated_served (by decide)
  ⟨upperStable_upperAsciiOnly, upperClean_upperAsciiOnly, hj, hc, by decide, rfl,
    (party_code_uppercase_under_service upperAsciiOnly upperStable_upperAsciiOnly
      upperClean_upperAsciiOnly pageJoined hj).1.2,
    by decide, rfl,
    (party_code_uppercase_under_service upperAsciiOnly upperStable_upperAsciiOnly
      upperClean_upperAsciiOnly pageCreated hc).1.2,
    (party_code_uppercase_under_service upperAsciiOnly upperStable_upperAsciiOnly
      upperClean_upperAsciiOnly pageJoined hj).2.2.2 (by decide) (.poll repliesRunning)
      (by decide)⟩

/-- C9, counterexample: the code `OLD111` is left in the join form, then Amy
creates a party and the service answers with the code `ABC123`.  When the reply
arrives `handleCreateParty` stores `ABC123`, sets the mode to "active" and asks
for the status of `OLD111`; the reply to that request fills in the party data,
and the active screen shows "Party Code: ABC123" with the data of party
`OLD111`.  No status request for `ABC123` has been made. -/
theorem status_requested_for_another_code :
    runMoves upperAsciiOnly Page.init movesOldCode = some pageOldCodeCreate ∧
    pageMove upperAsciiOnly pageOldCodeCreate (.reply 0) = some pageOldCodeStatus ∧
    (issuedBy upperAsciiOnly pageOldCodeCreate (.reply 0)).map (fun k => k.awaited) =
      some (.getPartyStatus "OLD111") ∧
    pageOldCodeStatus.state.mode = "active" ∧ pageOldCodeStatus.state.partyCode = "ABC123" ∧
    pageMove upperAsciiOnly pageOldCodeStatus (.reply 0) = some pageOldCodeShown ∧
    render pageOldCodeShown.state = .active ∧ pageOldCodeShown.state.partyCode = "ABC123" ∧
    pageOldCodeShown.state.partyData =
      some { host := "Zed", members := ["Zed"], photo_count := 0, duration_hours := 2 } ∧
    pageOldCodeShown.pending = [] ∧
    (Request.getPartyStatus "OLD111").code? ≠ some pageOldCodeStatus.state.partyCode := by
  refine ⟨?_, ?_, ?_, ?_, ?_, ?_, ?_, ?_, ?_, ?_, ?_⟩ <;> decide

/-- C11: a failed join mutates no party state.  Whenever the `joinParty`
request fails, the actions of `handleJoinParty` are the two setters before the
request, the request, the error message and `setLoading(false)`: `mode` (equal
to "join" on the join screen), `partyCode`, `userName`, `partyData` and
`photos` are unchanged, the error is "Failed to join party. Check the party
code!" and `loading` ends false. -/
theorem failed_join_changes_nothing (u : Char → List Char) (s : State) (r : Replies)
    (e : ApiError) (hc : ¬ isBlank s.partyCode) (hn : ¬ isBlank s.userName)
    (hj : r.join = .error e) :
    handleJoinParty u s r =
      [.setLoading true, .setError "",
       .request (.joinParty (toUpperCase u s.partyCode) s.userName),
       .setError "Failed to join party. Check the party code!", .setLoading false] ∧
    runActions s (handleJoinParty u s r) =
      { s with error := "Failed to join party. Check the party code!", loading := false } ∧
    (runActions s (handleJoinParty u s r)).mode = s.mode ∧
    (runActions s (handleJoinParty u s r)).partyCode = s.partyCode ∧
    (runActions s (handleJoinParty u s r)).userName = s.userName ∧
    (runActions s (handleJoinParty u s r)).partyData = s.partyData ∧
    (runActions s (handleJoinParty u s r)).photos = s.photos ∧
    (render s = .join → (runActions s (handleJoinParty u s r)).mode = "join") := by
  have h1 := (truthy_jsTrim_eq_true s.partyCode).mpr hc
  have h2 := (truthy_jsTrim_eq_true s.userName).mpr hn
  obtain ⟨rc, rj, rs, ru, rp⟩ := r
  simp only at hj
  subst hj
  have hact : handleJoinParty u s ⟨rc, .error e, rs, ru, rp⟩ =
      [.setLoading true, .setError "",
       .request (.joinParty (toUpperCase u s.partyCode) s.userName),
       .setError "Failed to join party. Check the party code!", .setLoading false] := by
    simp [handleJoinParty, h1, h2]
  rw [hact]
  refine ⟨rfl, rfl, rfl, rfl, rfl, rfl, rfl, ?_⟩
  intro hr
  exact render_eq_join.mp hr

/-- Witness of C11: Bo tries to join with a code no party has; the backend
refuses and the page stays on the join form with the error message. -/
theorem failed_join_changes_nothing_witness :
    ¬ isBlank exampleJoinReady.partyCode ∧ ¬ isBlank exampleJoinReady.userName ∧
    refuseAll.join = .error { detail := none } ∧
    runActions exampleJoinReady (handleJoinParty upperAsciiOnly exampleJoinReady refuseAll) =
      { exampleJoinReady with
        error := "Failed to join party. Check the party code!", loading := false } :=
  have h1 : ¬ isBlank exampleJoinReady.partyCode := by
    unfold isBlank
    decide
  have h2 : ¬ isBlank exampleJoinReady.userName := by
    unfold isBlank
    decide
  ⟨h1, h2, rfl,
    (failed_join_changes_nothing upperAsciiOnly exampleJoinReady refuseAll
      { detail := none } h1 h2 rfl).2.1⟩

/-- C12, as amended: ended is left only by the reset or by the reply to a
creation or join.  Under every interleaving of events and replies, once `mode`
is "ended" the only event the page offers is the reset, which leads to "select"
and clears `partyCode`, `userName`, `partyData` and `photos`; the reply to a
status, upload or photo request (status poll result, photo load, end action)
leaves `mode` at "ended" and the party code and user name as they are.  So a
move that leaves "ended" is the reset or the reply to a `createParty` or
`joinParty` request that was under way. -/
theorem ended_left_by_reset_or_entry_reply (u : Char → List Char) (p : Page)
    (hp : PageReachable u p) (hm : p.state.mode = "ended") :
    (∀ (e : Event) (q : Page), pageMove u p (.event e) = some q →
      e = .clickReset ∧ q = ⟨afterReset p.state, p.pending⟩) ∧
    pageMove u p (.event .clickReset) = some ⟨afterReset p.state, p.pending⟩ ∧
    (afterReset p.state).mode = "select" ∧ (afterReset p.state).partyCode = "" ∧
    (afterReset p.state).userName = "" ∧ (afterReset p.state).partyData = none ∧
    (afterReset p.state).photos = [] ∧
    (∀ (i : Nat) (k : Suspended) (q : Page), p.pending[i]? = some k →
      k.awaited.opensParty = false → pageMove u p (.reply i) = some q →
      q.state.mode = "ended" ∧ q.state.partyCode = p.state.partyCode ∧
        q.state.userName = p.state.userName) ∧
    (∀ (m : Move) (q : Page), pageMove u p m = some q → q.state.mode ≠ "ended" →
      m = .event .clickReset ∨
      ∃ (i : Nat) (k : Suspended), m = .reply i ∧ p.pending[i]? = some k ∧
        k.awaited.opensParty = true) ∧
    (∀ (c : String) (r : Replies),
      (runActions p.state (checkPartyStatus c r)).mode = "ended" ∧
      (runActions p.state (loadPhotos c r)).mode = "ended" ∧
      (runActions p.state (handleEndParty p.state r)).mode = "ended") := by
  obtain ⟨hreset, hevent⟩ := pageMove_event_of_ended u p hm
  refine ⟨hevent, hreset, rfl, rfl, rfl, rfl, rfl, ?_, ?_, ?_⟩
  · intro i k q hk hopen hmove
    exact pageMove_reply_of_ended hp hm i k q hk hopen hmove
  · intro m q hmove hne
    cases m with
    | event e => exact Or.inl (congrArg Move.event (hevent e q hmove).1)
    | reply i =>
      right
      cases hget : p.pending[i]? with
      | none => simp [pageMove, hget] at hmove
      | some k =>
        refine ⟨i, k, rfl, hget, ?_⟩
        cases hopen : k.awaited.opensParty with
        | true => rfl
        | false => exact absurd (pageMove_reply_of_ended hp hm i k q hget hopen hmove).1 hne
  · intro c r
    refine ⟨?_, ?_, (runActions_mode_cases u p.state r none).2.2.2⟩
    · rcases runActions_checkPartyStatus_mode p.state c r with h | h
      · exact h
      · rw [h.1]; exact hm
    · obtain ⟨rc, rj, rs, ru, rp⟩ := r
      cases rp <;> simp [loadPhotos, runActions, Action.apply, hm]

/-- Witness of C12: on the ended screen of `pageEndedAgain` a photo listing is
under way; when it arrives the photos are stored and the mode stays "ended". -/
theorem ended_left_by_reset_or_entry_reply_witness :
    PageReachable upperAsciiOnly pageEndedAgain ∧ pageEndedAgain.state.mode = "ended" ∧
    pageMove upperAsciiOnly pageEndedAgain (.reply 1) = some pageEndedListed ∧
    pageEndedListed.state.mode = "ended" :=
  have hp : PageReachable upperAsciiOnly pageEndedAgain :=
    pageReachable_of_runMoves upperAsciiOnly movesEndedAgain pageEndedAgain (by decide)
  ⟨hp, rfl, by decide,
    ((ended_left_by_reset_or_entry_reply upperAsciiOnly pageEndedAgain hp rfl).2.2.2.2.2.2.2.1
      1 ⟨.getPartyPhotos "ABC123",
          [.setPhotos [{ uploaded_by := "Bo", uploaded_at := "2024-01-01T22:00:00" }]]⟩
      pageEndedListed (by decide) (by decide) (by decide)).1⟩

/-- C12, counterexample: Bo has left the ended screen of party `ABC123` by the
reset and clicked "Create Party" while a status request for `ABC123` was still
under way; its reply sets the mode to "ended" again.  Then the reply to the
creation arrives and `handleCreateParty` sets the mode to "active": the page
leaves "ended" for the active screen, and no reset is involved. -/
theorem ended_left_by_late_create_reply :
    runMoves upperAsciiOnly Page.init movesEndedAgain = some pageEndedAgain ∧
    pageEndedAgain.state.mode = "ended" ∧ render pageEndedAgain.state = .ended ∧
    pageMove upperAsciiOnly pageEndedAgain (.reply 0) = some pageRevived ∧
    pageRevived.state.mode = "active" ∧ render pageRevived.state = .active ∧
    pageRevived.state.partyCode = "XYZ789" := by
  refine ⟨?_, ?_, ?_, ?_, ?_, ?_, ?_⟩ <;> decide

/-- C13: for every successful status response, `checkPartyStatus` sets
`partyData` to the party snapshot of the response and `timeRemaining` to its
`time_remaining`, and it switches `mode` to "ended", then requests the photos
and stores the listing it gets, if and only if `has_ended` is true; when the
status request fails its only action is the request and no state changes. -/
theorem checkPartyStatus_effect (s : State) (c : String) (r : Replies) :
    (∀ st : StatusResult, r.status = .ok st →
      (runActions s (checkPartyStatus c r)).partyData = some st.party ∧
      (runActions s (checkPartyStatus c r)).timeRemaining = st.time_remaining ∧
      (Action.setMode "ended" ∈ checkPartyStatus c r ↔ st.has_ended = true) ∧
      (∀ m : String, Action.setMode m ∈ checkPartyStatus c r → m = "ended") ∧
      (Request.getPartyPhotos c ∈ requests (checkPartyStatus c r) ↔ st.has_ended = true) ∧
      (st.has_ended = true →
        (runActions s (checkPartyStatus c r)).mode = "ended" ∧
        requests (checkPartyStatus c r) = [.getPartyStatus c, .getPartyPhotos c] ∧
        (∀ data : PhotosResult, r.photos = .ok data →
          (runActions s (checkPartyStatus c r)).photos = data.photos)) ∧
      (st.has_ended = false →
        runActions s (checkPartyStatus c r) =
          { s with partyData := some st.party, timeRemaining := st.time_remaining } ∧
        requests (checkPartyStatus c r) = [.getPartyStatus c])) ∧
    (∀ e : ApiError, r.status = .error e →
      checkPartyStatus c r = [.request (.getPartyStatus c)] ∧
      runActions s (checkPartyStatus c r) = s) := by
  obtain ⟨rc, rj, rs, ru, rp⟩ := r
  constructor
  · intro st hst
    simp only at hst
    subst hst
    cases hst : st.has_ended <;> cases rp <;>
      simp [checkPartyStatus, loadPhotos, runActions, Action.apply, requests, hst]
  · intro e he
    simp only at he
    subst he
    simp [checkPartyStatus, runActions, Action.apply]

/-- C18, as amended: when an upload request fails, for instance because the
party has ended, `handlePhotoUpload` issues no second `uploadPhoto` request
and no status request: it shows the reason given by the backend (or "Failed to
upload photo"), leaves `mode` and the party data as they are, and the ended
party is observed by the next run of the polling effect, which stays armed.
Whenever the upload request has been issued, answered well or not, the handler
finishes with `loading` false and the file input cleared. -/
theorem failed_upload_not_retried (s : State) (f : File) (r : Replies) (err : ApiError)
    (hsize : f.size ≤ 5 * 1024 * 1024) (hup : r.upload = .error err) :
    handlePhotoUpload s (some f) r =
      [.setLoading true, .setError "", .request (.uploadPhoto s.partyCode f s.userName),
       .setError (uploadErrorMessage err), .setLoading false, .resetFileInput] ∧
    requests (handlePhotoUpload s (some f) r) = [.uploadPhoto s.partyCode f s.userName] ∧
    runActions s (handlePhotoUpload s (some f) r) =
      { s with error := uploadErrorMessage err, loading := false } ∧
    pollActive (runActions s (handlePhotoUpload s (some f) r)) = pollActive s ∧
    (∀ (r2 : Replies) (st : StatusResult), r2.status = .ok st → st.has_ended = true →
      (runActions (runActions s (handlePhotoUpload s (some f) r))
        (checkPartyStatus (runActions s (handlePhotoUpload s (some f) r)).partyCode r2)).mode
        = "ended") ∧
    (∀ r3 : Replies,
      (runActions s (handlePhotoUpload s (some f) r3)).loading = false ∧
      (handlePhotoUpload s (some f) r3).getLast? = some .resetFileInput) := by
  have h2 : ¬ f.size > maxPhotoBytes := Nat.not_lt.mpr hsize
  have hact : handlePhotoUpload s (some f) r =
      [.setLoading true, .setError "", .request (.uploadPhoto s.partyCode f s.userName),
       .setError (uploadErrorMessage err), .setLoading false, .resetFileInput] := by
    obtain ⟨rc, rj, rs, ru, rp⟩ := r
    simp only at hup
    subst hup
    simp [handlePhotoUpload, h2]
  rw [hact]
  refine ⟨rfl, rfl, rfl, rfl, ?_, ?_⟩
  · intro r2 st hst hend
    exact runActions_checkPartyStatus_ended _ _ r2 st hst hend
  · intro r3
    have hf := runActions_checkPartyStatus_frame
    obtain ⟨rc, rj, rs, ru, rp⟩ := r3
    cases ru <;>
      simp [handlePhotoUpload, h2, runActions_append, runActions_cons, runActions_nil,
        Action.apply, hf, getLast?_cons_append_pair]

/-- Witness of C18: Bo's 3 MiB photo is refused because party `ABC123` has
ended; the page shows the reason and is no longer loading. -/
theorem failed_upload_not_retried_witness :
    fileSmall.size ≤ 5 * 1024 * 1024 ∧
    repliesEnded.upload = .error { detail := some "Party has ended" } ∧
    runActions exampleActive (handlePhotoUpload exampleActive (some fileSmall) repliesEnded) =
      { exampleActive with error := "Party has ended", loading := false } :=
  ⟨by decide, rfl,
    (failed_upload_not_retried exampleActive fileSmall repliesEnded
      { detail := some "Party has ended" } (by decide) rfl).2.2.1⟩

/-- C18, counterexample: Bo's upload to party `ABC123` is refused because the
party has ended, and the backend would report the party ended; the handler
issues the upload request only, no status request, and the page stays in mode
"active".  A 6 MiB file is turned down before the `try` block, so the file
input is not cleared in that case. -/
theorem failed_upload_no_resync :
    repliesEnded.upload = .error { detail := some "Party has ended" } ∧
    requests (handlePhotoUpload exampleActive (some fileSmall) repliesEnded) =
      [.uploadPhoto "ABC123" fileSmall "Bo"] ∧
    Request.getPartyStatus "ABC123" ∉
      requests (handlePhotoUpload exampleActive (some fileSmall) repliesEnded) ∧
    (runActions exampleActive
      (handlePhotoUpload exampleActive (some fileSmall) repliesEnded)).mode = "active" ∧
    handlePhotoUpload exampleActive (some fileLarge) repliesEnded =
      [.setError "Photo must be under 5MB"] ∧
    Action.resetFileInput ∉ handlePhotoUpload exampleActive (some fileLarge) repliesEnded := by
  refine ⟨rfl, ?_, ?_, ?_, ?_, ?_⟩ <;> decide

/-- C19, as amended: every photo that passes the size check of the page is at
most 5 MiB.  A selected file is forwarded to `uploadPhoto` if and only if its
size is at most `5 * 1024 * 1024` bytes, and every `uploadPhoto` request of
`handlePhotoUpload` carries the selected file, the party code and the user
name of the state. -/
theorem forwarded_photo_within_limit (s : State) (f : File) (r : Replies) :
    (Request.uploadPhoto s.partyCode f s.userName ∈ requests (handlePhotoUpload s (some f) r) ↔
      f.size ≤ 5 * 1024 * 1024) ∧
    (∀ (c : String) (file : File) (n : String),
      Request.uploadPhoto c file n ∈ requests (handlePhotoUpload s (some f) r) →
        c = s.partyCode ∧ file = f ∧ n = s.userName ∧ file.size ≤ 5 * 1024 * 1024) := by
  by_cases hsize : f.size ≤ 5 * 1024 * 1024
  · have h2 : ¬ f.size > maxPhotoBytes := Nat.not_lt.mpr hsize
    have hreq : ∃ rest, requests (handlePhotoUpload s (some f) r) =
        .uploadPhoto s.partyCode f s.userName :: rest ∧
        ∀ q ∈ rest, q.isUploadPhoto = false := by
      rcases requests_handlePhotoUpload s (some f) r with h | ⟨g, hg, h | h⟩
      · exfalso
        obtain ⟨rc, rj, rs, ru, rp⟩ := r
        cases ru <;> simp [handlePhotoUpload, h2, requests, requests_append] at h
      · cases hg
        exact ⟨[], h, by simp⟩
      · cases hg
        refine ⟨_, h, ?_⟩
        intro q hq
        rcases requests_checkPartyStatus_cases s.partyCode r with h3 | h3 <;>
          rw [h3] at hq <;> simp at hq
        · rw [hq]; rfl
        · rcases hq with rfl | rfl <;> rfl
    obtain ⟨rest, hreq, hrest⟩ := hreq
    rw [hreq]
    refine ⟨by simp [hsize], ?_⟩
    intro c file n hmem
    rcases List.mem_cons.mp hmem with h | h
    · cases h
      exact ⟨rfl, rfl, rfl, hsize⟩
    · have := hrest _ h
      simp [Request.isUploadPhoto] at this
  · have h2 : f.size > maxPhotoBytes := Nat.lt_of_not_le hsize
    have hact : handlePhotoUpload s (some f) r = [.setError "Photo must be under 5MB"] := by
      simp [handlePhotoUpload, h2]
    rw [hact]
    simp [requests, hsize]

/-- C19, counterexample: a photo of exactly `5 * 1024 * 1024` bytes passes the
size check of the page and is forwarded to `uploadPhoto`, yet its size is not
strictly less than `5 * 1024 * 1024`. -/
theorem photo_at_limit_is_forwarded :
    requests (handlePhotoUpload exampleActive (some fileAtLimit) refuseAll) =
      [.uploadPhoto "ABC123" fileAtLimit "Bo"] ∧
    ¬ fileAtLimit.size < 5 * 1024 * 1024 := by
  decide

/-- C20, as amended: in every reachable state of the page `mode` is one of
"select", "create", "join", "active" and "ended" (initially "select"), and the
render function returns the screen of that mode, except that in mode "active"
it returns the active screen only once a party snapshot has arrived: it
renders nothing exactly when `mode` is "active" and `partyData` is null. -/
theorem render_by_mode (u : Char → List Char) (s : State) (h : Reachable u s) :
    State.init.mode = "select" ∧ s.mode ∈ modes ∧
    (s.mode = "select" → render s = .select) ∧
    (s.mode = "create" → render s = .create) ∧
    (s.mode = "join" → render s = .join) ∧
    (s.mode = "active" → s.partyData ≠ none → render s = .active) ∧
    (s.mode = "ended" → render s = .ended) ∧
    (render s = .blank ↔ s.mode = "active" ∧ s.partyData = none) := by
  have hm := reachable_mode h
  refine ⟨rfl, hm, ?_, ?_, ?_, ?_, ?_, ?_⟩
  · intro h1; simp [render, h1]
  · intro h1; simp [render, h1]
  · intro h1; simp [render, h1]
  · intro h1 h2
    cases hp : s.partyData with
    | none => exact absurd hp h2
    | some p => simp [render, h1, hp]
  · intro h1; simp [render, h1]
  · simp only [modes, List.mem_cons, List.mem_singleton, List.mem_nil_iff, or_false] at hm
    rcases hm with h1 | h1 | h1 | h1 | h1
    · simp [render, h1]
    · simp [render, h1]
    · simp [render, h1]
    · cases hp : s.partyData <;> simp [render, h1, hp]
    · simp [render, h1]

/-- Witness of C20: right after a party has been created the state is
reachable and its mode is one of the five. -/
theorem render_by_mode_witness :
    Reachable upperAsciiOnly exampleJustCreated ∧ exampleJustCreated.mode ∈ modes :=
  have hr : Reachable upperAsciiOnly exampleJustCreated :=
    reachable_of_runEvents upperAsciiOnly eventsJustCreated State.init exampleJustCreated
      Reachable.init (by decide)
  ⟨hr, (render_by_mode upperAsciiOnly exampleJustCreated hr).2.1⟩

/-- C20, counterexample: Amy creates a party; the backend answers with the
code `ABC123` and the page is in mode "active" with no party snapshot, so it
renders nothing. -/
theorem blank_after_create :
    runEvents upperAsciiOnly State.init eventsJustCreated = some exampleJustCreated ∧
    exampleJustCreated.mode = "active" ∧
    render exampleJustCreated = .blank := by
  decide

/-- C14: for every question list and every sequence of option clicks, one per
question, starting from a fresh quiz: clicks that pick an option of each
question in turn are all offered; after them the preference screen is shown
and `answers` is exactly the list of the chosen indices in question order,
each below the number of options of its question; the preference buttons
offer "cocktails", "hard" and "soft" and nothing else, and a click on one of
them sends the single request `getSuggestions(answers, preference)` with those
answers and that preference. -/
theorem suggest_carries_answers (s : MoodState) (idxs : List Nat) (hs : QuizAt s 0)
    (hlen : idxs.length = s.questions.length) :
    ((∀ (j v : Nat), idxs[j]? = some v →
        ∃ q, s.questions[j]? = some q ∧ v < q.options.length) →
      ∃ t, runMoodEvents s (idxs.map .clickOption) = some t) ∧
    (∀ t : MoodState, runMoodEvents s (idxs.map .clickOption) = some t →
      moodRender t = .preference ∧ t.answers = idxs ∧
      (∀ (j v : Nat), idxs[j]? = some v →
        ∃ q, s.questions[j]? = some q ∧ v < q.options.length) ∧
      (∀ (pref : String) (r : MoodReplies),
        (MoodEvent.clickPreference pref r).enabled t = true ↔
          pref = "cocktails" ∨ pref = "hard" ∨ pref = "soft") ∧
      (∀ (pref : String) (r : MoodReplies),
        moodRequests ((MoodEvent.clickPreference pref r).actions t) =
          [.getSuggestions idxs pref])) := by
  constructor
  · intro hopt
    exact runMoodEvents_clickOptions_some idxs s 0 hs (by simpa using hopt)
  · intro t ht
    obtain ⟨hq, hqs, hans, hopt⟩ := runMoodEvents_clickOptions idxs s t 0 hs ht
    obtain ⟨h1, h2, h3, h4, h5, h6⟩ := hq
    have hs5 : s.answers = [] := List.length_eq_zero.mp hs.2.2.2.2.1
    have hta : t.answers = idxs := by rw [hans, hs5]; rfl
    have hcq : t.currentQuestion = t.questions.length := by
      rw [h4, hqs, hlen]; simp
    have hview : moodRender t = .preference := by
      simp [moodRender, h1, h2, h3, hcq]
    refine ⟨hview, hta, by simpa using hopt, ?_, ?_⟩
    · intro pref r
      simp [MoodEvent.enabled, hview, preferences]
    · intro pref r
      obtain ⟨rq, rs⟩ := r
      cases rs <;> simp [MoodEvent.actions, handlePreference, moodRequests, hta]

/-- Witness of C14: in a quiz of two questions the clicks on option 2 and then
option 0 are offered. -/
theorem suggest_carries_answers_witness :
    QuizAt exampleQuiz 0 ∧ [2, 0].length = exampleQuiz.questions.length ∧
    ∃ t, runMoodEvents exampleQuiz ([2, 0].map .clickOption) = some t :=
  have hq : QuizAt exampleQuiz 0 := by
    unfold QuizAt
    decide
  ⟨hq, rfl,
    (suggest_carries_answers exampleQuiz [2, 0] hq rfl).1 (by
      intro j v hjv
      match j, hjv with
      | 0, hjv =>
        simp at hjv
        subst hjv
        exact ⟨_, rfl, by decide⟩
      | 1, hjv =>
        simp at hjv
        subst hjv
        exact ⟨_, rfl, by decide⟩
      | j + 2, hjv => simp at hjv)⟩

/-- C15: for every valid creation (host name not blank, duration in 1..12)
for which the generator eventually draws a code that is not tracked, the
service creates the party, its code matches `[A-Z0-9]{6}` and is distinct from
the code of every party tracked so far, and the page stores exactly that code
as its party code when the reply carries it. -/
theorem created_code_canonical_and_fresh (reg : Registry) (now : Nat)
    (randomness : List (List Nat)) (hostName : String) (durationHours : Int)
    (hname : ¬ isBlank hostName) (hd : 1 ≤ durationHours ∧ durationHours ≤ 12)
    (hfresh : ∃ d ∈ randomness, CodeGenerator.generate d ∉ reg.map (·.code)) :
    ∃ (p : Party) (reg2 : Registry),
      PartyRegistry.create reg now randomness hostName durationHours = some (.ok (p, reg2)) ∧
      isCanonicalCode p.code ∧ (∀ q ∈ reg, q.code ≠ p.code) ∧
      reg2 = reg ++ [p] ∧ p.host = hostName ∧ p.members = [hostName] ∧
      (∀ (s : State) (r : Replies), s.hostName = hostName →
        r.create = .ok { party_code := p.code } →
        (runActions s (handleCreateParty s r)).partyCode = p.code ∧
        (requests (handleCreateParty s r)).head? =
          some (.createParty hostName s.duration)) := by
  obtain ⟨c, hc⟩ := freshCode_isSome _ _ hfresh
  obtain ⟨hnot, d, _, hgen⟩ := freshCode_eq_some _ _ _ hc
  have hblank : (hostName.data.all isJsWhiteSpace) = false := by
    cases hall : hostName.data.all isJsWhiteSpace with
    | false => rfl
    | true =>
      exfalso
      apply hname
      intro ch hch
      exact List.all_eq_true.mp hall ch hch
  have hd1 : ¬ durationHours < 1 := by omega
  have hd2 : ¬ 12 < durationHours := by omega
  refine ⟨{ code := c, host := hostName, members := [hostName], createdAt := now,
            durationHours := durationHours.toNat, endedAt := none, photos := [] },
          _, ?_, ?_, ?_, rfl, rfl, rfl, ?_⟩
  · simp [PartyRegistry.create, hblank, hd1, hd2, hc]
  · rw [hgen]
    exact generate_canonical d
  · intro q hq heq
    apply hnot
    simp only [List.mem_map]
    exact ⟨q, hq, heq⟩
  · intro s r hs hr
    subst hs
    exact runActions_handleCreateParty_code s r _ hname hr

/-- Witness of C15: Cy creates a party while `ABC123` is tracked; the first
draw collides with `ABC123`, the second yields `QRS789`. -/
theorem created_code_canonical_and_fresh_witness :
    ¬ isBlank "Cy" ∧ ((1 : Int) ≤ 2 ∧ (2 : Int) ≤ 12) ∧
    (∃ d ∈ [drawsABC123, drawsQRS789],
      CodeGenerator.generate d ∉ registryRunning.map (·.code)) ∧
    ∃ (p : Party) (reg2 : Registry),
      PartyRegistry.create registryRunning 1800 [drawsABC123, drawsQRS789] "Cy" 2 =
        some (.ok (p, reg2)) ∧
      isCanonicalCode p.code ∧ (∀ q ∈ registryRunning, q.code ≠ p.code) :=
  have h1 : ¬ isBlank "Cy" := by
    unfold isBlank
    decide
  have h3 : ∃ d ∈ [drawsABC123, drawsQRS789],
      CodeGenerator.generate d ∉ registryRunning.map (·.code) :=
    ⟨drawsQRS789, by simp, by decide⟩
  have h := created_code_canonical_and_fresh registryRunning 1800
    [drawsABC123, drawsQRS789] "Cy" 2 h1 (by decide) h3
  ⟨h1, by decide, h3,
    h.elim fun p hp => hp.elim fun reg2 h2 => ⟨p, reg2, h2.1, h2.2.1, h2.2.2.1⟩⟩

/-- C16 (the code at the failing input): Amy, the host, ends the running party
`ABC123` on her page.  Her page is in mode "ended", but the only request of the
end action is the photo listing, which leaves the registry as it was: the
listing is refused with `PartyNotEnded`, and afterwards Bo's upload and Cy's
join on that code are accepted instead of failing with `PartyEnded`. -/
theorem end_action_leaves_party_running :
    endPartyAvailable exampleHost = true ∧
    (runActions exampleHost (handleEndParty exampleHost repliesRunning)).mode = "ended" ∧
    requests (handleEndParty exampleHost repliesRunning) = [.getPartyPhotos "ABC123"] ∧
    (requests (handleEndParty exampleHost repliesRunning)).foldl (serve 1800 [])
      registryRunning = registryRunning ∧
    PhotoStore.list registryRunning 1800 "ABC123" = .error .PartyNotEnded ∧
    (PhotoStore.upload registryRunning 1860 "ABC123" "Bo" 2 fileSmall.size).toOption.map
      (fun res => res.1) = some 2 ∧
    (PartyRegistry.join registryRunning 1860 "ABC123" "Cy").toOption.map
      (fun res => res.1.members) = some ["Amy", "Bo", "Cy"] := by
  refine ⟨?_, ?_, ?_, ?_, ?_, ?_, ?_⟩
  · decide
  · decide
  · decide
  · decide
  · rfl
  · decide
  · decide

/-- C25: for every configured `VITE_API_URL`, `API_BASE_URL` is the configured
value with exactly one trailing `/` removed when it ends with `/`, and the
value unchanged otherwise; an unset or empty value yields
`http://localhost:8000`.  Hence for every configured URL that does not end in
`//`, the base URL does not end with `/`. -/
theorem API_BASE_URL_trailing_slash :
    (∀ w : String, API_BASE_URL (some (w ++ "/")) = w) ∧
    (∀ v : String, v ≠ "" → ¬ endsWithSlash v → API_BASE_URL (some v) = v) ∧
    API_BASE_URL none = "http://localhost:8000" ∧
    API_BASE_URL (some "") = "http://localhost:8000" ∧
    (∀ v : String, v ≠ "" → ¬ endsWithTwoSlashes v →
      ¬ endsWithSlash (API_BASE_URL (some v))) := by
  have hslash : ∀ w : String, API_BASE_URL (some (w ++ "/")) = w := by
    intro w
    have hne : w ++ "/" ≠ "" := by
      intro h
      have := congrArg String.data h
      simp at this
    have ht := (truthy_eq_true_iff _).mpr hne
    simp only [API_BASE_URL, ht, if_true, replaceTrailingSlash, String.data_append]
    rw [replaceTrailingSlashList_append_slash]
  have hkeep : ∀ v : String, v ≠ "" → ¬ endsWithSlash v → API_BASE_URL (some v) = v := by
    intro v hne hns
    have ht := (truthy_eq_true_iff _).mpr hne
    simp only [API_BASE_URL, ht, if_true, replaceTrailingSlash]
    rw [replaceTrailingSlashList_of_not_slash _ hns]
  refine ⟨hslash, hkeep, by decide, by decide, ?_⟩
  intro v hne h2
  by_cases hs : endsWithSlash v
  · -- one trailing slash is removed and what precedes it is not a slash
    have hv : ∃ l : List Char, v.data = l ++ ['/'] := by
      unfold endsWithSlash at hs
      rcases List.eq_nil_or_concat v.data with hnil | ⟨l, c, hl⟩
      · rw [hnil] at hs
        simp at hs
      · rw [List.concat_eq_append] at hl
        rw [hl, List.getLast?_concat] at hs
        cases hs
        exact ⟨l, hl⟩
    obtain ⟨l, hl⟩ := hv
    have hveq : v = String.mk l ++ "/" := by
      apply String.ext
      rw [String.data_append, hl]
    rw [hveq, hslash]
    intro hend
    apply h2
    unfold endsWithSlash at hend
    simp only at hend
    rcases List.eq_nil_or_concat l with hnil | ⟨l2, c, hl2⟩
    · rw [hnil] at hend
      simp at hend
    · rw [List.concat_eq_append] at hl2
      rw [hl2, List.getLast?_concat] at hend
      cases hend
      exact ⟨l2, by rw [hl, hl2]; simp⟩
  · rw [hkeep v hne hs]
    exact hs

/-- C22: for every suggestion count `n ≥ 1` and every `currentSlide` with
`0 ≤ currentSlide < n`, `nextSlide` and `prevSlide` each yield an index in
`[0, n)`; `prevSlide` after `nextSlide`, and `nextSlide` after `prevSlide`,
give back the original state, and so do `n` applications of `nextSlide`. -/
theorem slides_wrap_around (s : MoodState) (n : Nat) (hn : 1 ≤ n) (hc : slideCount s = n)
    (h0 : 0 ≤ s.currentSlide) (h1 : s.currentSlide < n) :
    (0 ≤ (afterNextSlide s).currentSlide ∧ (afterNextSlide s).currentSlide < n) ∧
    (0 ≤ (afterPrevSlide s).currentSlide ∧ (afterPrevSlide s).currentSlide < n) ∧
    afterPrevSlide (afterNextSlide s) = s ∧
    afterNextSlide (afterPrevSlide s) = s ∧
    afterNextSlide^[n] s = s := by
  have hn0 : (0 : Int) < n := by omega
  obtain ⟨hnx, hnx0, hnx1⟩ := nextSlide_index s.currentSlide n hn h0
  obtain ⟨hpv, hpv0, hpv1⟩ := prevSlide_index s.currentSlide n hn h0
  have hcn : slideCount (afterNextSlide s) = n := hc
  have hcp : slideCount (afterPrevSlide s) = n := hc
  have hnext : (afterNextSlide s).currentSlide = (s.currentSlide + 1) % (n : Int) := by
    rw [afterNextSlide_eq, hc]
    exact hnx
  have hprev : (afterPrevSlide s).currentSlide = (s.currentSlide - 1 + n) % (n : Int) := by
    rw [afterPrevSlide_eq, hc]
    exact hpv
  refine ⟨by rw [hnext]; exact ⟨hnx0, hnx1⟩, by rw [hprev]; exact ⟨hpv0, hpv1⟩, ?_, ?_, ?_⟩
  · have hval : Int.tmod ((afterNextSlide s).currentSlide - 1 + n) n = s.currentSlide := by
      rw [(prevSlide_index _ n hn (by rw [hnext]; exact hnx0)).1, hnext]
      have : (s.currentSlide + 1) % (n : Int) - 1 + n
          = (s.currentSlide + 1) % (n : Int) + (n - 1) := by ring
      rw [this, Int.emod_add_emod]
      have : s.currentSlide + 1 + ((n : Int) - 1) = s.currentSlide + n := by ring
      rw [this, Int.add_emod_self, Int.emod_eq_of_lt h0 h1]
    rw [afterPrevSlide_eq, hcn, hval]
    rfl
  · have hval : Int.tmod ((afterPrevSlide s).currentSlide + 1) n = s.currentSlide := by
      rw [(nextSlide_index _ n hn (by rw [hprev]; exact hpv0)).1, hprev, Int.emod_add_emod]
      have : s.currentSlide - 1 + (n : Int) + 1 = s.currentSlide + n := by ring
      rw [this, Int.add_emod_self, Int.emod_eq_of_lt h0 h1]
    rw [afterNextSlide_eq, hcp, hval]
    rfl
  · rw [iterate_afterNextSlide s n hn hc h0 n]
    have hne : n ≠ 0 := by omega
    simp only [hne, if_false]
    rw [Int.add_emod_self, Int.emod_eq_of_lt h0 h1]

/-- Witness of C22: with three suggestions and the second one in view, three
clicks on the right arrow lead back to the second one. -/
theorem slides_wrap_around_witness :
    1 ≤ 3 ∧ slideCount exampleResults = 3 ∧ (0 : Int) ≤ exampleResults.currentSlide ∧
    exampleResults.currentSlide < (3 : Nat) ∧
    afterNextSlide^[3] exampleResults = exampleResults :=
  ⟨by decide, rfl, by decide, by decide,
    (slides_wrap_around exampleResults 3 (by decide) rfl (by decide) (by decide)).2.2.2.2⟩

/-- C24 (the code at the failing input): Amy creates a party and the backend
answers with the code `ABC123`, which the page stores; the status request that
`handleCreateParty` issues right afterwards is made for the code held before
the creation, the empty string on a fresh page and `OLD111` when that code had
been typed into the join form before, in which case the page shows the party
of Zed under the code `ABC123`.  In general the second request of a successful
creation is `getPartyStatus` of the old code. -/
theorem create_checks_status_of_old_code :
    exampleCreateAmy.partyCode = "" ∧
    requests (handleCreateParty exampleCreateAmy repliesJustCreated) =
      [.createParty "Amy" 4, .getPartyStatus ""] ∧
    (runActions exampleCreateAmy
      (handleCreateParty exampleCreateAmy repliesJustCreated)).partyCode = "ABC123" ∧
    runEvents upperAsciiOnly State.init eventsCreateAfterJoinForm =
      some exampleCreateAfterJoinForm ∧
    requests (handleCreateParty exampleCreateAfterJoinForm repliesOldParty) =
      [.createParty "Amy" 4, .getPartyStatus "OLD111"] ∧
    (runActions exampleCreateAfterJoinForm
      (handleCreateParty exampleCreateAfterJoinForm repliesOldParty)).partyCode = "ABC123" ∧
    ((runActions exampleCreateAfterJoinForm
      (handleCreateParty exampleCreateAfterJoinForm repliesOldParty)).partyData.map
        fun p => p.host) = some "Zed" ∧
    (∀ (s : State) (r : Replies) (res : CreateResult), ¬ isBlank s.hostName →
      r.create = .ok res →
      (requests (handleCreateParty s r))[1]? = some (.getPartyStatus s.partyCode)) := by
  refine ⟨rfl, by decide, by decide, by decide, by decide, by decide, by decide, ?_⟩
  intro s r res hn hr
  have ht := (truthy_jsTrim_eq_true s.hostName).mpr hn
  obtain ⟨rc, rj, rs, ru, rp⟩ := r
  simp only at hr
  subst hr
  cases rs with
  | error e => simp [handleCreateParty, ht, checkPartyStatus, requests]
  | ok st =>
    cases hst : st.has_ended <;> cases rp <;>
      simp [handleCreateParty, ht, checkPartyStatus, loadPhotos, requests, hst]

/-- C21: in every reachable state of the mood page `answers.length =
currentQuestion ≤ questions.length`; `handleAnswer` is only offered on the
question screen, where `currentQuestion < questions.length`; in every state
reached by `handleAnswer` or `resetQuiz`, as on the two screens of the quiz in
general, the preference screen is the one shown exactly when `currentQuestion =
questions.length`; and when the question list that arrives is empty, the
preference screen is the first screen shown, with `answers = []`. -/
theorem quiz_progress_invariant (s : MoodState) (h : MoodReachable s) :
    (s.answers.length = s.currentQuestion ∧ s.currentQuestion ≤ s.questions.length) ∧
    (∀ i : Nat, (MoodEvent.clickOption i).enabled s = true →
      moodRender s = .question ∧ s.currentQuestion < s.questions.length) ∧
    (moodRender s = .preference → s.currentQuestion = s.questions.length) ∧
    (onQuizScreen s →
      (moodRender s = .preference ↔ s.currentQuestion = s.questions.length)) ∧
    (∀ (e : MoodEvent) (t : MoodState), moodStep s e = some t → e.isQuizStep = true →
      onQuizScreen t ∧
      (moodRender t = .preference ↔ t.currentQuestion = t.questions.length) ∧
      t.answers.length = t.currentQuestion ∧ t.currentQuestion ≤ t.questions.length) ∧
    (∀ r : MoodReplies, r.questions = .ok { questions := [] } →
      moodStep MoodState.init (.questionsLoaded r) =
        some (runMoodActions MoodState.init (loadQuestions r)) ∧
      moodRender (runMoodActions MoodState.init (loadQuestions r)) = .preference ∧
      (runMoodActions MoodState.init (loadQuestions r)).answers = []) := by
  obtain ⟨h1, h2, _⟩ := moodReachable_progress h
  refine ⟨⟨h1, h2⟩, ?_, ?_, onQuizScreen_preference_iff, ?_, ?_⟩
  · intro i hen
    have hstep : moodStep s (.clickOption i) =
        some (runMoodActions s ((MoodEvent.clickOption i).actions s)) := by
      simp [moodStep, hen]
    obtain ⟨hv, ⟨q, hq, _⟩, _⟩ := moodStep_clickOption hstep
    rcases List.getElem?_eq_some.mp hq with ⟨hlt, _⟩
    exact ⟨hv, hlt⟩
  · intro hp
    exact (onQuizScreen_preference_iff (Or.inl hp)).mp hp
  · intro e t hstep he
    have hq := onQuizScreen_of_quizStep hstep he
    obtain ⟨t1, t2, _⟩ := moodReachable_progress (MoodReachable.step e h hstep)
    exact ⟨hq, onQuizScreen_preference_iff hq, t1, t2⟩
  · intro r hr
    obtain ⟨rq, rs⟩ := r
    simp only at hr
    subst hr
    refine ⟨rfl, rfl, rfl⟩

/-- Witness of C21: once the first of two questions is answered, the state is
reachable, one answer is recorded and the second question is the current
one. -/
theorem quiz_progress_invariant_witness :
    MoodReachable exampleFirstAnswer ∧
    exampleFirstAnswer.answers.length = exampleFirstAnswer.currentQuestion ∧
    exampleFirstAnswer.currentQuestion ≤ exampleFirstAnswer.questions.length :=
  have hr : MoodReachable exampleFirstAnswer :=
    moodReachable_of_runMoodEvents eventsFirstAnswer MoodState.init exampleFirstAnswer
      MoodReachable.init (by decide)
  ⟨hr, (quiz_progress_invariant exampleFirstAnswer hr).1⟩

/-- C23 (the code at the failing input): a first quiz ends with three
suggestions; the visitor moves to the third card and opens it, then retakes
the quiz, which this time ends with a single suggestion.  `resetQuiz` has left
`currentSlide` and `selectedCard` as they were, so the results screen is shown
with `currentSlide = 2` and `selectedCard = 2` although the only valid index is
0. -/
theorem retake_keeps_slide_and_card :
    runMoodEvents MoodState.init eventsRetake = some exampleRetaken ∧
    moodRender exampleRetaken = .results ∧
    slideCount exampleRetaken = 1 ∧
    exampleRetaken.currentSlide = 2 ∧
    ¬ exampleRetaken.currentSlide < (slideCount exampleRetaken : Int) ∧
    exampleRetaken.selectedCard = some 2 ∧
    resetQuiz = [.setCurrentQuestion 0, .setAnswers [], .setSuggestions none] := by
  refine ⟨by decide, by decide, by decide, by decide, by decide, by decide, rfl⟩

end Shot
